import Mathlib

/-!
Verification of the priority-inheritance holder core of
`sched/semaphore/sem_holder.c`.

The C file is shallowly embedded.  Both build-time storage regimes are
modelled:

* the inline regime (`CONFIG_SEM_PREALLOCHOLDERS == 0`): two holder slots
  embedded in each semaphore.  Definitions carry the suffix `I`.
* the pooled regime (`CONFIG_SEM_PREALLOCHOLDERS > 0`): a global array of
  preallocated nodes linked through `flink` indices, with a global free
  list.  Definitions carry the suffix `P`.  Pointers are node indices
  (`Option Nat`, `none` for the C `NULL`), and every pointer walk carries
  a fuel argument bounded by the node count, which suffices on acyclic
  states (the only states the C code itself terminates on).

The nested-boost / single-boost build mode (`CONFIG_SEM_NNESTPRIO`) is the
`nnest` parameter: `nnest = 0` is single-boost mode, `nnest > 0` the
nested mode with ledger capacity `nnest`.

Collaborator calls (`nxsched_set_priority`, `nxsched_reprioritize`,
`serr`, `swarn`, `DEBUGASSERT` failures), entry frees and entries into
`nxsem_restoreholderprio` are recorded in an event trace so that ordering
claims of the specification can be stated.  Thread control blocks are a
total map from thread ids to a record; `nxsched_verify_tcb` is the `alive`
field of that record.  `nxsched_reprioritize` is modelled by its contract
(set the scheduling priority to the requested value).
-/

/-- Boost-ledger record `struct semboost_s`: `(sem, priority)`. -/
structure semboost_s where
  sem : Nat
  priority : Nat
deriving DecidableEq, Repr

/-- Thread control block fields used by the core.  `sem_boosts` is the
dense boost array; its length is the C `nsem_boosts`.  `alive` models the
scheduler collaborator `nxsched_verify_tcb`. -/
structure tcb_s where
  sched_priority : Nat
  base_priority : Nat
  sem_boosts : List semboost_s
  alive : Bool
deriving DecidableEq, Repr

/-- Observable events of one run: scheduler calls, log output, assertion
failures, entry frees (with the htcb the freed entry held) and calls into
`nxsem_restoreholderprio`. -/
inductive Event where
  | setPriority (tcb p : Nat)
  | reprioritize (tcb p : Nat)
  | serrEvent
  | swarnEvent (tcb : Nat)
  | assertFailed
  | restoreCall (tcb : Nat)
  | freeEntry (htcb : Option Nat)
deriving DecidableEq, Repr

/-- Holder entry `struct semholder_s`.  `flink` exists only in the pooled
build; the inline regime keeps it `none`. -/
structure semholder_s where
  flink : Option Nat := none
  htcb : Option Nat := none
  counts : Nat := 0
deriving DecidableEq, Repr

/-- The `PRIOINHERIT_FLAGS_DISABLE` semaphore flag bit. -/
def PRIOINHERIT_FLAGS_DISABLE : Nat := 1

/-- Swap-with-last removal at index `i`:
`bs[i] = bs[nsem_boosts - 1]; nsem_boosts--`. -/
def removeSwapLast (bs : List semboost_s) (i : Nat) : List semboost_s :=
  (bs.set i (bs.getD (bs.length - 1) ⟨0, 0⟩)).dropLast

/-- The discard-all loop of `nxsem_restoreholderprio` (nested mode,
holder absent or `counts == 0`): remove every record whose `sem` matches,
by swap-with-last, re-checking the current index after a removal. -/
def discardLoop (semid : Nat) (bs : List semboost_s) (i : Nat) :
    List semboost_s :=
  if h : i < bs.length then
    if (bs.get ⟨i, h⟩).sem = semid then
      discardLoop semid (removeSwapLast bs i) i
    else
      discardLoop semid bs (i + 1)
  else
    bs
termination_by bs.length - i
decreasing_by
  · simp [removeSwapLast]
    omega
  · omega

/-- The find-maximum loop of `nxsem_restoreholderprio` (nested mode,
holder still holds counts): running over indices from `i`, track
`max_boost_index` (`none` is the C `-1`) and `max_boost_priority`
(initially `0`), updating on a strictly larger matching record. -/
def maxBoostFind (semid : Nat) (bs : List semboost_s) (i : Nat)
    (bestIdx : Option Nat) (bestPrio : Nat) : Option Nat × Nat :=
  if h : i < bs.length then
    if (bs.get ⟨i, h⟩).sem = semid ∧ bestPrio < (bs.get ⟨i, h⟩).priority then
      maxBoostFind semid bs (i + 1) (some i) (bs.get ⟨i, h⟩).priority
    else
      maxBoostFind semid bs (i + 1) bestIdx bestPrio
  else
    (bestIdx, bestPrio)
termination_by bs.length - i

/-- The new-priority computation of `nxsem_restoreholderprio` (nested
mode): start from `base_priority` and take the maximum over the remaining
boost records. -/
def newPriorityOf (base : Nat) (bs : List semboost_s) : Nat :=
  bs.foldl (fun acc b => if b.priority > acc then b.priority else acc) base

/-- The boost applied to one live holder thread `h` by
`nxsem_boostholderprio` (the `else if` branches of both build modes).
`rtcbPrio` is `rtcb->sched_priority`; `t` is the holder's thread id, used
for the event trace. -/
def boostTcb (nnest semid rtcbPrio t : Nat) (h : tcb_s)
    (events : List Event) : tcb_s × List Event :=
  if nnest > 0 then
    if rtcbPrio > h.base_priority then
      if h.sem_boosts.length < nnest then
        let boostPrio := rtcbPrio
        let h1 := { h with sem_boosts := h.sem_boosts ++ [⟨semid, boostPrio⟩] }
        if boostPrio > h1.sched_priority then
          ({ h1 with sched_priority := boostPrio },
            events ++ [.setPriority t boostPrio])
        else
          (h1, events)
      else
        (h, events ++ [.serrEvent])
    else
      (h, events)
  else
    if rtcbPrio > h.sched_priority then
      ({ h with sched_priority := rtcbPrio },
        events ++ [.setPriority t rtcbPrio])
    else
      (h, events)

/-- The priority-restore applied to one live boosted holder thread by
`nxsem_restoreholderprio` when `sched_priority != base_priority`.
`deadslot` is the C condition `pholder == NULL || pholder->counts == 0`.
In single-boost mode (`nnest = 0`) the thread is dropped to its base
priority through `nxsched_reprioritize`. -/
def restoreTcb (nnest semid t : Nat) (deadslot : Bool) (h : tcb_s)
    (events : List Event) : tcb_s × List Event :=
  if nnest > 0 then
    let bs1 :=
      if deadslot then
        discardLoop semid h.sem_boosts 0
      else
        match (maxBoostFind semid h.sem_boosts 0 none 0).1 with
        | some idx => removeSwapLast h.sem_boosts idx
        | none => h.sem_boosts
    let h1 := { h with sem_boosts := bs1 }
    let np := newPriorityOf h1.base_priority bs1
    if np ≠ h1.sched_priority then
      ({ h1 with sched_priority := np }, events ++ [.setPriority t np])
    else
      (h1, events)
  else
    ({ h with sched_priority := h.base_priority },
      events ++ [.reprioritize t h.base_priority])

/-! ## Inline storage regime (`CONFIG_SEM_PREALLOCHOLDERS == 0`) -/

/-- Inline-regime semaphore: the two hard-allocated holder slots
`holder[2]`, the `flags` word and the signed counter (read only by debug
assertions in this file). -/
structure sem_t_i where
  holder0 : semholder_s := {}
  holder1 : semholder_s := {}
  flags : Nat := 0
  semcount : Int := 0
deriving DecidableEq, Repr

/-- Global state of the inline build: the semaphores (indexed by id), the
thread control blocks (indexed by id) and the event trace. -/
structure StI where
  sems : Nat → sem_t_i
  tcbs : Nat → tcb_s
  events : List Event

/-- Read holder slot `i` (0 or 1) of a semaphore. -/
def getHolderI (m : sem_t_i) (i : Nat) : semholder_s :=
  if i = 0 then m.holder0 else m.holder1

/-- Write holder slot `i` (0 or 1) of a semaphore. -/
def setHolderI (m : sem_t_i) (i : Nat) (e : semholder_s) : sem_t_i :=
  if i = 0 then { m with holder0 := e } else { m with holder1 := e }

/-- Update one semaphore of the state. -/
def updSemI (s : StI) (k : Nat) (f : sem_t_i → sem_t_i) : StI :=
  { s with sems := Function.update s.sems k (f (s.sems k)) }

/-- Update one thread control block of the state. -/
def updTcbI (s : StI) (t : Nat) (h : tcb_s) : StI :=
  { s with tcbs := Function.update s.tcbs t h }

/-- Append events to the trace. -/
def addEvI (s : StI) (es : List Event) : StI :=
  { s with events := s.events ++ es }

/-- `nxsem_findholder`, inline build: scan the two slots in order and
return the index of the first slot whose `htcb` equals the key (`none` is
the C `NULL`). -/
def nxsem_findholderI (m : sem_t_i) (x : Option Nat) : Option Nat :=
  if m.holder0.htcb = x then some 0
  else if m.holder1.htcb = x then some 1
  else none

/-- `nxsem_allocholder`, inline build: the first slot with `htcb == NULL`
is taken and its `counts` zeroed; with both slots occupied, `serr` is
logged, `NULL` is returned, and the trailing `DEBUGASSERT(pholder !=
NULL)` fails. -/
def nxsem_allocholderI (s : StI) (k : Nat) : Option Nat × StI :=
  let m := s.sems k
  if m.holder0.htcb = none then
    (some 0, updSemI s k fun m => { m with holder0 := { m.holder0 with counts := 0 } })
  else if m.holder1.htcb = none then
    (some 1, updSemI s k fun m => { m with holder1 := { m.holder1 with counts := 0 } })
  else
    (none, addEvI s [.serrEvent, .assertFailed])

/-- `nxsem_findorallocateholder`, inline build. -/
def nxsem_findorallocateholderI (s : StI) (k : Nat) (x : Option Nat) :
    Option Nat × StI :=
  match nxsem_findholderI (s.sems k) x with
  | some i => (some i, s)
  | none => nxsem_allocholderI s k

/-- `nxsem_freeholder`, inline build: clear `htcb` and zero `counts` of
slot `i`.  The free is recorded in the trace with the htcb the slot held. -/
def nxsem_freeholderI (s : StI) (k i : Nat) : StI :=
  let old := getHolderI (s.sems k) i
  addEvI (updSemI s k fun m => setHolderI m i { old with htcb := none, counts := 0 })
    [.freeEntry old.htcb]

/-- `nxsem_findandfreeholder`, inline build: free the holder found for
`x` when it no longer holds counts. -/
def nxsem_findandfreeholderI (s : StI) (k : Nat) (x : Option Nat) : StI :=
  match nxsem_findholderI (s.sems k) x with
  | some i => if (getHolderI (s.sems k) i).counts = 0 then nxsem_freeholderI s k i else s
  | none => s

/-- `nxsem_foreachholder`, inline build: visit slot 0 then slot 1,
calling the handler on slots with a non-`NULL` `htcb`.  Note that, unlike
the pooled build, this loop has no `ret == 0` early exit: the second live
slot's handler is invoked even when the first returned nonzero, and its
result overwrites `ret`. -/
def nxsem_foreachholderI (s : StI) (k : Nat)
    (handler : Nat → StI → Int × StI) : Int × StI :=
  let p := if (s.sems k).holder0.htcb ≠ none then handler 0 s else (0, s)
  if ((p.2).sems k).holder1.htcb ≠ none then handler 1 p.2 else p

/-- `nxsem_boostholderprio`, inline build, as a `foreach` handler on slot
`i`.  A stale holder is warned about and freed; a live one receives the
mode-dependent boost of `boostTcb`.  Always returns 0. -/
def nxsem_boostholderprioI (nnest rtcb k : Nat) (i : Nat) (s : StI) :
    Int × StI :=
  match (getHolderI (s.sems k) i).htcb with
  | none => (0, s)
  | some t =>
      if ¬ (s.tcbs t).alive then
        (0, nxsem_freeholderI (addEvI s [.swarnEvent t]) k i)
      else
        let r := boostTcb nnest k ((s.tcbs rtcb).sched_priority) t
          (s.tcbs t) s.events
        (0, { updTcbI s t r.1 with events := r.2 })

/-- `nxsem_restoreholderprio`, inline build, for holder thread `t`.  The
entry of the call is traced as a `restoreCall` event.  A stale thread's
entry is freed; a boosted live thread is restored per `restoreTcb`, with
the C condition `pholder == NULL || pholder->counts == 0` passed as
`deadslot`. -/
def nxsem_restoreholderprioI (nnest k : Nat) (t : Nat) (s : StI) :
    Int × StI :=
  let s := addEvI s [.restoreCall t]
  let pho := nxsem_findholderI (s.sems k) (some t)
  if ¬ (s.tcbs t).alive then
    match pho with
    | some i => (0, nxsem_freeholderI (addEvI s [.swarnEvent t]) k i)
    | none => (0, addEvI s [.swarnEvent t])
  else if (s.tcbs t).sched_priority ≠ (s.tcbs t).base_priority then
    let deadslot :=
      match pho with
      | none => true
      | some i => (getHolderI (s.sems k) i).counts = 0
    let r := restoreTcb nnest k t deadslot (s.tcbs t) s.events
    (0, { updTcbI s t r.1 with events := r.2 })
  else
    (0, s)

/-- `nxsem_restoreholderprioall`, inline build: restore the holder of
slot `i`. -/
def nxsem_restoreholderprioallI (nnest k : Nat) (i : Nat) (s : StI) :
    Int × StI :=
  match (getHolderI (s.sems k) i).htcb with
  | some t => nxsem_restoreholderprioI nnest k t s
  | none => (0, s)

/-- `nxsem_restoreholderprio_others`, inline build: restore the holder of
slot `i` unless it is the running thread. -/
def nxsem_restoreholderprio_othersI (nnest rtcb k : Nat) (i : Nat)
    (s : StI) : Int × StI :=
  if (getHolderI (s.sems k) i).htcb ≠ some rtcb then
    match (getHolderI (s.sems k) i).htcb with
    | some t => nxsem_restoreholderprioI nnest k t s
    | none => (0, s)
  else
    (0, s)

/-- `nxsem_restoreholderprio_self`, inline build: when slot `i` belongs
to the running thread, first free the slot if all counts were given up
(the inline-only `nxsem_findandfreeholder` call that reserves a slot
before a possible context switch), then restore, and return 1. -/
def nxsem_restoreholderprio_selfI (nnest rtcb k : Nat) (i : Nat)
    (s : StI) : Int × StI :=
  if (getHolderI (s.sems k) i).htcb = some rtcb then
    let s1 := nxsem_findandfreeholderI s k (some rtcb)
    (1, (nxsem_restoreholderprioI nnest k rtcb s1).2)
  else
    (0, s)

/-- `nxsem_verifyholder`: the body is compiled out (`#if 0`); the handler
returns 0 without touching anything. -/
def nxsem_verifyholderI (_i : Nat) (s : StI) : Int × StI :=
  (0, s)

/-- `nxsem_restore_baseprio_irq`, inline build: when a waiter received
the count, restore every holder; otherwise run the (compiled-out) debug
verifier over the holders. -/
def nxsem_restore_baseprio_irqI (nnest : Nat) (stcb : Option Nat) (k : Nat)
    (s : StI) : StI :=
  if stcb ≠ none then
    (nxsem_foreachholderI s k (nxsem_restoreholderprioallI nnest k)).2
  else
    (nxsem_foreachholderI s k nxsem_verifyholderI).2

/-- `nxsem_restore_baseprio_task`, inline build: two passes (all other
holders first, then only the running thread), then in any case free the
running thread's entry once it holds no more counts. -/
def nxsem_restore_baseprio_taskI (nnest rtcb : Nat) (stcb : Option Nat)
    (k : Nat) (s : StI) : StI :=
  let s1 :=
    if stcb ≠ none then
      let sA := (nxsem_foreachholderI s k
        (nxsem_restoreholderprio_othersI nnest rtcb k)).2
      (nxsem_foreachholderI sA k
        (nxsem_restoreholderprio_selfI nnest rtcb k)).2
    else
      (nxsem_foreachholderI s k nxsem_verifyholderI).2
  nxsem_findandfreeholderI s1 k (some rtcb)

/-- `nxsem_destroyholder`, inline build: debug-assert at most one slot is
occupied, then clear both slots' `htcb` (note: `counts` is not reset). -/
def nxsem_destroyholderI (s : StI) (k : Nat) : StI :=
  let m := s.sems k
  let s1 :=
    if m.holder0.htcb = none ∨ m.holder1.htcb = none then s
    else addEvI s [.assertFailed]
  updSemI s1 k fun m =>
    { m with holder0 := { m.holder0 with htcb := none },
             holder1 := { m.holder1 with htcb := none } }

/-- `nxsem_add_holder_tcb`, inline build: unless priority inheritance is
disabled on the semaphore, find or allocate the holder entry for `t` and,
if one was obtained, set its `htcb` and increment its `counts`. -/
def nxsem_add_holder_tcbI (t k : Nat) (s : StI) : StI :=
  if (s.sems k).flags &&& PRIOINHERIT_FLAGS_DISABLE = 0 then
    match nxsem_findorallocateholderI s k (some t) with
    | (some i, s1) =>
        updSemI s1 k fun m =>
          setHolderI m i
            { getHolderI m i with htcb := some t,
                                  counts := (getHolderI m i).counts + 1 }
    | (none, s1) => s1
  else
    s

/-- `nxsem_add_holder`, inline build: add the running thread. -/
def nxsem_add_holderI (rtcb k : Nat) (s : StI) : StI :=
  nxsem_add_holder_tcbI rtcb k s

/-- `nxsem_boost_priority`, inline build: boost every holder against the
running thread's priority. -/
def nxsem_boost_priorityI (nnest rtcb k : Nat) (s : StI) : StI :=
  (nxsem_foreachholderI s k (nxsem_boostholderprioI nnest rtcb k)).2

/-- `nxsem_release_holder`, inline build: decrement the running thread's
holder counts when it has an entry with positive counts; the entry itself
is not freed here. -/
def nxsem_release_holderI (rtcb k : Nat) (s : StI) : StI :=
  match nxsem_findholderI (s.sems k) (some rtcb) with
  | some i =>
      if (getHolderI (s.sems k) i).counts > 0 then
        updSemI s k fun m =>
          setHolderI m i
            { getHolderI m i with counts := (getHolderI m i).counts - 1 }
      else
        s
  | none => s

/-- `nxsem_restore_baseprio`, inline build: dispatch on interrupt
context. -/
def nxsem_restore_baseprioI (nnest rtcb : Nat) (irq : Bool)
    (stcb : Option Nat) (k : Nat) (s : StI) : StI :=
  if irq then
    nxsem_restore_baseprio_irqI nnest stcb k s
  else
    nxsem_restore_baseprio_taskI nnest rtcb stcb k s

/-- `nxsem_canceled`, inline build: debug-assert the count is
non-positive, then restore every holder. -/
def nxsem_canceledI (nnest : Nat) (_stcb : Option Nat) (k : Nat) (s : StI) :
    StI :=
  let s1 := if (s.sems k).semcount ≤ 0 then s else addEvI s [.assertFailed]
  (nxsem_foreachholderI s1 k (nxsem_restoreholderprioallI nnest k)).2

/-- Public operations of the inline build, together with the scheduler
environment data each call carries (the running thread, the started
thread, interrupt context) and thread death, which is how stale handles
arise. -/
inductive OpI where
  | addHolder (rtcb k : Nat)
  | addHolderTcb (t k : Nat)
  | releaseHolder (rtcb k : Nat)
  | boost (rtcb k : Nat)
  | restore (rtcb : Nat) (irq : Bool) (stcb : Option Nat) (k : Nat)
  | canceled (stcb : Option Nat) (k : Nat)
  | destroy (k : Nat)
  | kill (t : Nat)

/-- Apply one public operation of the inline build. -/
def applyI (nnest : Nat) (op : OpI) (s : StI) : StI :=
  match op with
  | .addHolder rtcb k => nxsem_add_holderI rtcb k s
  | .addHolderTcb t k => nxsem_add_holder_tcbI t k s
  | .releaseHolder rtcb k => nxsem_release_holderI rtcb k s
  | .boost rtcb k => nxsem_boost_priorityI nnest rtcb k s
  | .restore rtcb irq stcb k => nxsem_restore_baseprioI nnest rtcb irq stcb k s
  | .canceled stcb k => nxsem_canceledI nnest stcb k s
  | .destroy k => nxsem_destroyholderI s k
  | .kill t => updTcbI s t { s.tcbs t with alive := false }

/-- An initial inline-build state: all holder slots are empty (static
zero initialization of `sem_t`), the trace is empty; flags, counters and
thread control blocks are arbitrary. -/
def initStI (flagsf : Nat → Nat) (scf : Nat → Int) (tcbs : Nat → tcb_s) :
    StI :=
  { sems := fun k => { flags := flagsf k, semcount := scf k },
    tcbs := tcbs,
    events := [] }

/-- States of the inline build reachable from an initial state by public
operations. -/
inductive ReachableI (nnest : Nat) : StI → Prop where
  | init (flagsf : Nat → Nat) (scf : Nat → Int) (tcbs : Nat → tcb_s) :
      ReachableI nnest (initStI flagsf scf tcbs)
  | step (op : OpI) {s : StI} (h : ReachableI nnest s) :
      ReachableI nnest (applyI nnest op s)

/-! ## Pooled storage regime (`CONFIG_SEM_PREALLOCHOLDERS > 0`) -/

/-- Pooled-regime semaphore: the holder list head `hhead` (a node index
or `none` for `NULL`), the `flags` word and the signed counter. -/
structure sem_t_p where
  hhead : Option Nat := none
  flags : Nat := 0
  semcount : Int := 0
deriving DecidableEq, Repr

/-- Global state of the pooled build: the preallocated node array
`g_holderalloc` (as a list indexed by node number), the free-list head
`g_freeholders`, the semaphores, the thread control blocks and the event
trace. -/
structure StP where
  nodes : List semholder_s
  freeHead : Option Nat
  sems : Nat → sem_t_p
  tcbs : Nat → tcb_s
  events : List Event

/-- Read node `i` of the pool. -/
def getNodeP (s : StP) (i : Nat) : semholder_s :=
  s.nodes.getD i {}

/-- Write node `i` of the pool. -/
def setNodeP (s : StP) (i : Nat) (nd : semholder_s) : StP :=
  { s with nodes := s.nodes.set i nd }

/-- Update one semaphore of the state. -/
def updSemP (s : StP) (k : Nat) (f : sem_t_p → sem_t_p) : StP :=
  { s with sems := Function.update s.sems k (f (s.sems k)) }

/-- Update one thread control block of the state. -/
def updTcbP (s : StP) (t : Nat) (h : tcb_s) : StP :=
  { s with tcbs := Function.update s.tcbs t h }

/-- Append events to the trace. -/
def addEvP (s : StP) (es : List Event) : StP :=
  { s with events := s.events ++ es }

/-- The walk of `nxsem_findholder`, pooled build: follow `flink` from
`cur`, returning the first node whose `htcb` equals the key. -/
def findP_go (s : StP) (x : Option Nat) : Nat → Option Nat → Option Nat
  | _, none => none
  | 0, some _ => none
  | fuel + 1, some i =>
      if (getNodeP s i).htcb = x then some i
      else findP_go s x fuel (getNodeP s i).flink

/-- `nxsem_findholder`, pooled build. -/
def nxsem_findholderP (s : StP) (k : Nat) (x : Option Nat) : Option Nat :=
  findP_go s x s.nodes.length (s.sems k).hhead

/-- `nxsem_allocholder`, pooled build: pop the free-list head, push it
onto the semaphore's holder list and zero its `counts`; with an empty
free list, `serr` is logged, `NULL` is returned, and the trailing
`DEBUGASSERT(pholder != NULL)` fails. -/
def nxsem_allocholderP (s : StP) (k : Nat) : Option Nat × StP :=
  match s.freeHead with
  | some i =>
      let nd := getNodeP s i
      let s1 := { s with freeHead := nd.flink }
      let s2 := setNodeP s1 i { nd with flink := (s1.sems k).hhead, counts := 0 }
      (some i, updSemP s2 k fun m => { m with hhead := some i })
  | none => (none, addEvP s [.serrEvent, .assertFailed])

/-- `nxsem_findorallocateholder`, pooled build. -/
def nxsem_findorallocateholderP (s : StP) (k : Nat) (x : Option Nat) :
    Option Nat × StP :=
  match nxsem_findholderP s k x with
  | some i => (some i, s)
  | none => nxsem_allocholderP s k

/-- The prev/curr scan of `nxsem_freeholder`, pooled build: walk the
semaphore's list looking for the node `target`; the result is `none` when
the walk ends at `NULL`, and `some prev` when `target` is found with
`prev` the preceding node (`none` when `target` is the list head). -/
def freeScan (s : StP) (target : Nat) :
    Nat → Option Nat → Option Nat → Option (Option Nat)
  | _, _, none => none
  | 0, _, some _ => none
  | fuel + 1, prev, some c =>
      if c = target then some prev
      else freeScan s target fuel (some c) (getNodeP s c).flink

/-- `nxsem_freeholder`, pooled build: clear `htcb` and `counts`, then
unlink the node from the semaphore's list (when found there) and push it
onto the free list.  The free is recorded in the trace. -/
def nxsem_freeholderP (s : StP) (k i : Nat) : StP :=
  let old := getNodeP s i
  let s1 := addEvP (setNodeP s i { old with htcb := none, counts := 0 })
    [.freeEntry old.htcb]
  match freeScan s1 i s1.nodes.length none (s1.sems k).hhead with
  | none => s1
  | some prev =>
      let fl := (getNodeP s1 i).flink
      let s2 :=
        match prev with
        | some p => setNodeP s1 p { getNodeP s1 p with flink := fl }
        | none => updSemP s1 k fun m => { m with hhead := fl }
      let s3 := setNodeP s2 i { getNodeP s2 i with flink := s2.freeHead }
      { s3 with freeHead := some i }

/-- `nxsem_findandfreeholder`, pooled build. -/
def nxsem_findandfreeholderP (s : StP) (k : Nat) (x : Option Nat) : StP :=
  match nxsem_findholderP s k x with
  | some i => if (getNodeP s i).counts = 0 then nxsem_freeholderP s k i else s
  | none => s

/-- The walk of `nxsem_foreachholder`, pooled build: the successor is
cached before the handler runs (in case the handler frees the current
node), the handler is only invoked on nodes with a non-`NULL` `htcb`, and
the walk stops as soon as a handler returns nonzero. -/
def foreachP_go (handler : Nat → StP → Int × StP) :
    Nat → Option Nat → StP → Int × StP
  | _, none, s => (0, s)
  | 0, some _, s => (0, s)
  | fuel + 1, some i, s =>
      let next := (getNodeP s i).flink
      if (getNodeP s i).htcb ≠ none then
        let r := handler i s
        if r.1 = 0 then foreachP_go handler fuel next r.2 else r
      else
        foreachP_go handler fuel next s

/-- `nxsem_foreachholder`, pooled build. -/
def nxsem_foreachholderP (s : StP) (k : Nat)
    (handler : Nat → StP → Int × StP) : Int × StP :=
  foreachP_go handler s.nodes.length (s.sems k).hhead s

/-- `nxsem_recoverholders`, pooled build only: free the visited node. -/
def nxsem_recoverholdersP (k : Nat) (i : Nat) (s : StP) : Int × StP :=
  (0, nxsem_freeholderP s k i)

/-- `nxsem_boostholderprio`, pooled build, as a `foreach` handler. -/
def nxsem_boostholderprioP (nnest rtcb k : Nat) (i : Nat) (s : StP) :
    Int × StP :=
  match (getNodeP s i).htcb with
  | none => (0, s)
  | some t =>
      if ¬ (s.tcbs t).alive then
        (0, nxsem_freeholderP (addEvP s [.swarnEvent t]) k i)
      else
        let r := boostTcb nnest k ((s.tcbs rtcb).sched_priority) t
          (s.tcbs t) s.events
        (0, { updTcbP s t r.1 with events := r.2 })

/-- `nxsem_restoreholderprio`, pooled build, for holder thread `t`. -/
def nxsem_restoreholderprioP (nnest k : Nat) (t : Nat) (s : StP) :
    Int × StP :=
  let s := addEvP s [.restoreCall t]
  let pho := nxsem_findholderP s k (some t)
  if ¬ (s.tcbs t).alive then
    match pho with
    | some i => (0, nxsem_freeholderP (addEvP s [.swarnEvent t]) k i)
    | none => (0, addEvP s [.swarnEvent t])
  else if (s.tcbs t).sched_priority ≠ (s.tcbs t).base_priority then
    let deadslot :=
      match pho with
      | none => true
      | some i => (getNodeP s i).counts = 0
    let r := restoreTcb nnest k t deadslot (s.tcbs t) s.events
    (0, { updTcbP s t r.1 with events := r.2 })
  else
    (0, s)

/-- `nxsem_restoreholderprioall`, pooled build. -/
def nxsem_restoreholderprioallP (nnest k : Nat) (i : Nat) (s : StP) :
    Int × StP :=
  match (getNodeP s i).htcb with
  | some t => nxsem_restoreholderprioP nnest k t s
  | none => (0, s)

/-- `nxsem_restoreholderprio_others`, pooled build. -/
def nxsem_restoreholderprio_othersP (nnest rtcb k : Nat) (i : Nat)
    (s : StP) : Int × StP :=
  if (getNodeP s i).htcb ≠ some rtcb then
    match (getNodeP s i).htcb with
    | some t => nxsem_restoreholderprioP nnest k t s
    | none => (0, s)
  else
    (0, s)

/-- `nxsem_restoreholderprio_self`, pooled build: no inline-only
pre-free here; restore the running thread and return 1. -/
def nxsem_restoreholderprio_selfP (nnest rtcb k : Nat) (i : Nat)
    (s : StP) : Int × StP :=
  if (getNodeP s i).htcb = some rtcb then
    (1, (nxsem_restoreholderprioP nnest k rtcb s).2)
  else
    (0, s)

/-- `nxsem_verifyholder`, pooled build (body compiled out). -/
def nxsem_verifyholderP (_i : Nat) (s : StP) : Int × StP :=
  (0, s)

/-- `nxsem_restore_baseprio_irq`, pooled build. -/
def nxsem_restore_baseprio_irqP (nnest : Nat) (stcb : Option Nat) (k : Nat)
    (s : StP) : StP :=
  if stcb ≠ none then
    (nxsem_foreachholderP s k (nxsem_restoreholderprioallP nnest k)).2
  else
    (nxsem_foreachholderP s k nxsem_verifyholderP).2

/-- `nxsem_restore_baseprio_task`, pooled build. -/
def nxsem_restore_baseprio_taskP (nnest rtcb : Nat) (stcb : Option Nat)
    (k : Nat) (s : StP) : StP :=
  let s1 :=
    if stcb ≠ none then
      let sA := (nxsem_foreachholderP s k
        (nxsem_restoreholderprio_othersP nnest rtcb k)).2
      (nxsem_foreachholderP sA k
        (nxsem_restoreholderprio_selfP nnest rtcb k)).2
    else
      (nxsem_foreachholderP s k nxsem_verifyholderP).2
  nxsem_findandfreeholderP s1 k (some rtcb)

/-- `nxsem_destroyholder`, pooled build: with a non-empty holder list,
debug-assert that the head is the only holder, then recover (free) every
holder. -/
def nxsem_destroyholderP (s : StP) (k : Nat) : StP :=
  match (s.sems k).hhead with
  | none => s
  | some h0 =>
      let s1 := if (getNodeP s h0).flink = none then s
                else addEvP s [.assertFailed]
      (nxsem_foreachholderP s1 k (nxsem_recoverholdersP k)).2

/-- `nxsem_add_holder_tcb`, pooled build. -/
def nxsem_add_holder_tcbP (t k : Nat) (s : StP) : StP :=
  if (s.sems k).flags &&& PRIOINHERIT_FLAGS_DISABLE = 0 then
    match nxsem_findorallocateholderP s k (some t) with
    | (some i, s1) =>
        setNodeP s1 i
          { getNodeP s1 i with htcb := some t,
                               counts := (getNodeP s1 i).counts + 1 }
    | (none, s1) => s1
  else
    s

/-- `nxsem_add_holder`, pooled build. -/
def nxsem_add_holderP (rtcb k : Nat) (s : StP) : StP :=
  nxsem_add_holder_tcbP rtcb k s

/-- `nxsem_boost_priority`, pooled build. -/
def nxsem_boost_priorityP (nnest rtcb k : Nat) (s : StP) : StP :=
  (nxsem_foreachholderP s k (nxsem_boostholderprioP nnest rtcb k)).2

/-- `nxsem_release_holder`, pooled build. -/
def nxsem_release_holderP (rtcb k : Nat) (s : StP) : StP :=
  match nxsem_findholderP s k (some rtcb) with
  | some i =>
      if (getNodeP s i).counts > 0 then
        setNodeP s i { getNodeP s i with counts := (getNodeP s i).counts - 1 }
      else
        s
  | none => s

/-- `nxsem_restore_baseprio`, pooled build. -/
def nxsem_restore_baseprioP (nnest rtcb : Nat) (irq : Bool)
    (stcb : Option Nat) (k : Nat) (s : StP) : StP :=
  if irq then
    nxsem_restore_baseprio_irqP nnest stcb k s
  else
    nxsem_restore_baseprio_taskP nnest rtcb stcb k s

/-- `nxsem_canceled`, pooled build. -/
def nxsem_canceledP (nnest : Nat) (_stcb : Option Nat) (k : Nat) (s : StP) :
    StP :=
  let s1 := if (s.sems k).semcount ≤ 0 then s else addEvP s [.assertFailed]
  (nxsem_foreachholderP s1 k (nxsem_restoreholderprioallP nnest k)).2

/-- The node array built by `nxsem_initialize_holders`: node `i` links to
node `i + 1`, the last node terminates the chain; `htcb` and `counts` are
in their static zero-initialized values. -/
def initNodesP (n : Nat) : List semholder_s :=
  (List.range n).map fun i =>
    { flink := if i + 1 < n then some (i + 1) else none,
      htcb := none, counts := 0 }

/-- `nxsem_initialize_holders`, pooled build (`n > 0` preallocated
nodes): build the free list over the whole node array, headed at node 0. -/
def nxsem_init_holdersP (n : Nat) (flagsf : Nat → Nat) (scf : Nat → Int)
    (tcbs : Nat → tcb_s) : StP :=
  { nodes := initNodesP n,
    freeHead := if n = 0 then none else some 0,
    sems := fun k => { hhead := none, flags := flagsf k, semcount := scf k },
    tcbs := tcbs,
    events := [] }

/-- Public operations of the pooled build. -/
inductive OpP where
  | addHolder (rtcb k : Nat)
  | addHolderTcb (t k : Nat)
  | releaseHolder (rtcb k : Nat)
  | boost (rtcb k : Nat)
  | restore (rtcb : Nat) (irq : Bool) (stcb : Option Nat) (k : Nat)
  | canceled (stcb : Option Nat) (k : Nat)
  | destroy (k : Nat)
  | kill (t : Nat)

/-- Apply one public operation of the pooled build. -/
def applyP (nnest : Nat) (op : OpP) (s : StP) : StP :=
  match op with
  | .addHolder rtcb k => nxsem_add_holderP rtcb k s
  | .addHolderTcb t k => nxsem_add_holder_tcbP t k s
  | .releaseHolder rtcb k => nxsem_release_holderP rtcb k s
  | .boost rtcb k => nxsem_boost_priorityP nnest rtcb k s
  | .restore rtcb irq stcb k => nxsem_restore_baseprioP nnest rtcb irq stcb k s
  | .canceled stcb k => nxsem_canceledP nnest stcb k s
  | .destroy k => nxsem_destroyholderP s k
  | .kill t => updTcbP s t { s.tcbs t with alive := false }

/-- States of the pooled build reachable from the initialized state by
public operations. -/
inductive ReachableP (nnest n : Nat) : StP → Prop where
  | init (flagsf : Nat → Nat) (scf : Nat → Int) (tcbs : Nat → tcb_s) :
      ReachableP nnest n (nxsem_init_holdersP n flagsf scf tcbs)
  | step (op : OpP) {s : StP} (h : ReachableP nnest n s) :
      ReachableP nnest n (applyP nnest op s)

/-! ## Chain structure, invariants and run characterizations -/

/-- A null-terminated, in-bounds `flink` chain from a head pointer
through the node pool, as the list of node indices it visits. -/
inductive NodeChain (nodes : List semholder_s) : Option Nat → List Nat → Prop where
  | nil : NodeChain nodes none []
  | cons {i : Nat} (hlt : i < nodes.length) {L : List Nat}
      (hnext : NodeChain nodes (nodes.getD i {}).flink L) :
      NodeChain nodes (some i) (i :: L)

/-- The fuel-bounded chain walk (the canonical chain of a head pointer;
equal to the genuine chain whenever one exists, see
`chainFrom_eq_of_nodeChain`). -/
def chainFrom (nodes : List semholder_s) : Nat → Option Nat → List Nat
  | _, none => []
  | 0, some _ => []
  | fuel + 1, some i => i :: chainFrom nodes fuel (nodes.getD i {}).flink

/-- The holder chain of semaphore `k`. -/
def theChain (s : StP) (k : Nat) : List Nat :=
  chainFrom s.nodes s.nodes.length (s.sems k).hhead

/-- The free chain of the pool. -/
def theFree (s : StP) : List Nat :=
  chainFrom s.nodes s.nodes.length s.freeHead

/-- Structural well-formedness of a pooled state: the free list and every
semaphore's holder list are genuine chains, without duplicates, mutually
disjoint; free nodes hold no `htcb`; and on each holder chain no two
nodes hold the same `htcb`. -/
structure InvP (s : StP) : Prop where
  chainOK : ∀ k, NodeChain s.nodes (s.sems k).hhead (theChain s k)
  freeOK : NodeChain s.nodes s.freeHead (theFree s)
  chainNodup : ∀ k, (theChain s k).Nodup
  freeNodup : (theFree s).Nodup
  disjFree : ∀ k, ∀ i ∈ theFree s, i ∉ theChain s k
  disjChains : ∀ k l, k ≠ l → ∀ i ∈ theChain s k, i ∉ theChain s l
  freeClear : ∀ i ∈ theFree s, (getNodeP s i).htcb = none
  uniqHtcb : ∀ k, (theChain s k).Pairwise
      (fun a b => ∀ t, (getNodeP s a).htcb = some t →
        (getNodeP s b).htcb ≠ some t)

/-- Number of live holder entries in the pool. -/
def countLiveP (s : StP) : Nat :=
  (s.nodes.filter fun nd => nd.htcb.isSome).length

/-- Inline-regime form of the holder-uniqueness invariant: the two slots
of a semaphore never hold the same thread. -/
def UniqueHoldersI (m : sem_t_i) : Prop :=
  ∀ t : Nat, ¬ (m.holder0.htcb = some t ∧ m.holder1.htcb = some t)

/-- A run of a `foreach` handler over some sequence of entries, each live
(non-`NULL` `htcb`) in the state the handler sees, where every
non-final handler call returns 0 and a final nonzero result stops the
run and becomes its result. -/
inductive HandlerRun (handler : Nat → StP → Int × StP) :
    StP → List Nat → Int × StP → Prop where
  | done (s : StP) : HandlerRun handler s [] (0, s)
  | stop {s : StP} (i t : Nat) (ht : (getNodeP s i).htcb = some t)
      {r : Int × StP} (hh : handler i s = r) (hr : r.1 ≠ 0) :
      HandlerRun handler s [i] r
  | cont {s s1 : StP} (i t : Nat) (ht : (getNodeP s i).htcb = some t)
      (hh : handler i s = (0, s1)) {l : List Nat} {r : Int × StP}
      (hrest : HandlerRun handler s1 l r) :
      HandlerRun handler s (i :: l) r

/-- The events appended by a pooled-state transition. -/
def deltaEvP (s s' : StP) : List Event :=
  s'.events.drop s.events.length

/-- The events appended by an inline-state transition. -/
def deltaEvI (s s' : StI) : List Event :=
  s'.events.drop s.events.length

/-- The maximum priority among the ledger records of a given semaphore
(0 when there is none); reference function for stating the nested-mode
restore characterization. -/
def maxMatchPrio (semid : Nat) (bs : List semboost_s) : Nat :=
  ((bs.filter fun b => b.sem = semid).map fun b => b.priority).foldr max 0

/-! ## Concrete fixtures for counterexamples and witnesses -/

/-- A quiescent thread control block. -/
def tcbDefault : tcb_s :=
  { sched_priority := 10, base_priority := 10, sem_boosts := [], alive := true }

/-- Inline semaphore with two live holders, threads 7 and 8. -/
def semTwoI : sem_t_i :=
  { holder0 := { htcb := some 7, counts := 1 },
    holder1 := { htcb := some 8, counts := 1 } }

/-- Inline state whose semaphores all have two live holders. -/
def stTwoI : StI :=
  { sems := fun _ => semTwoI, tcbs := fun _ => tcbDefault, events := [] }

/-- A handler returning 5 on slot 0 and 0 elsewhere, leaving the state
unchanged. -/
def handlerFiveI : Nat → StI → Int × StI :=
  fun i s => (if i = 0 then 5 else 0, s)

/-- An empty initial inline state. -/
def stEmptyI : StI := initStI (fun _ => 0) (fun _ => 0) (fun _ => tcbDefault)

/-- Inline state reached by add_holder(thread 7, sem 0) followed by
release_holder(thread 7, sem 0). -/
def stC2 : StI := applyI 0 (.releaseHolder 7 0) (applyI 0 (.addHolder 7 0) stEmptyI)

/-- Inline state for the nested-restore counterexample: thread 7 holds
two counts on semaphore 1, is boosted (sched 9, base 5) and its ledger
holds the single record (sem 1, priority 0). -/
def stC3 : StI :=
  { sems := fun k => if k = 1 then
      ({ holder0 := { htcb := some 7, counts := 2 } } : sem_t_i) else {},
    tcbs := fun t => if t = 7 then
      { sched_priority := 9, base_priority := 5, sem_boosts := [⟨1, 0⟩],
        alive := true } else tcbDefault,
    events := [] }

/-- Pooled state with a single node, held by thread 7, and an exhausted
free list. -/
def stFullP : StP :=
  { nodes := [{ flink := none, htcb := some 7, counts := 1 }],
    freeHead := none,
    sems := fun _ => { hhead := some 0 },
    tcbs := fun _ => tcbDefault,
    events := [] }

/-- The state after the field-clearing first half of `nxsem_freeholder`,
pooled build (named so the scan-and-unlink second half can be reasoned
about in isolation). -/
def freeholderAux1 (s : StP) (i : Nat) : StP :=
  addEvP (setNodeP s i { getNodeP s i with htcb := none, counts := 0 })
    [.freeEntry (getNodeP s i).htcb]

/-- The head pointer of a chain given as an index list. -/
def headPtr : List Nat → Option Nat
  | [] => none
  | j :: _ => some j

/-- Pooled state with a single node held by dead thread 7. -/
def stStaleP : StP :=
  { nodes := [{ flink := none, htcb := some 7, counts := 1 }],
    freeHead := none,
    sems := fun _ => { hhead := some 0 },
    tcbs := fun _ => { tcbDefault with alive := false },
    events := [] }

/-- Inline state whose semaphore 1 has slot 0 held by dead thread 7. -/
def stStaleI : StI :=
  { sems := fun k => if k = 1 then
      ({ holder0 := { htcb := some 7, counts := 2 } } : sem_t_i) else {},
    tcbs := fun _ => { tcbDefault with alive := false },
    events := [] }

/-- Slotwise evolution relation of an inline semaphore under the restore
and free paths: each slot's `htcb` is either unchanged or cleared (those
paths never store a new `htcb`). -/
def HtcbLe (m m' : sem_t_i) : Prop :=
  (m'.holder0.htcb = m.holder0.htcb ∨ m'.holder0.htcb = none) ∧
  (m'.holder1.htcb = m.holder1.htcb ∨ m'.holder1.htcb = none)

/-! ## Theorems -/

@[simp] theorem sems_addEvI (s : StI) (es : List Event) :
    (addEvI s es).sems = s.sems := rfl

@[simp] theorem tcbs_addEvI (s : StI) (es : List Event) :
    (addEvI s es).tcbs = s.tcbs := rfl

@[simp] theorem events_addEvI (s : StI) (es : List Event) :
    (addEvI s es).events = s.events ++ es := rfl

@[simp] theorem tcbs_updSemI (s : StI) (k : Nat) (f : sem_t_i → sem_t_i) :
    (updSemI s k f).tcbs = s.tcbs := rfl

@[simp] theorem events_updSemI (s : StI) (k : Nat) (f : sem_t_i → sem_t_i) :
    (updSemI s k f).events = s.events := rfl

@[simp] theorem sems_updSemI_same (s : StI) (k : Nat) (f : sem_t_i → sem_t_i) :
    (updSemI s k f).sems k = f (s.sems k) := by
  simp [updSemI]

theorem sems_updSemI_ne (s : StI) (k k' : Nat) (f : sem_t_i → sem_t_i)
    (h : k' ≠ k) : (updSemI s k f).sems k' = s.sems k' := by
  simp [updSemI, Function.update_noteq h]

@[simp] theorem sems_updTcbI (s : StI) (t : Nat) (h : tcb_s) :
    (updTcbI s t h).sems = s.sems := rfl

@[simp] theorem events_updTcbI (s : StI) (t : Nat) (h : tcb_s) :
    (updTcbI s t h).events = s.events := rfl

@[simp] theorem tcbs_updTcbI_same (s : StI) (t : Nat) (h : tcb_s) :
    (updTcbI s t h).tcbs t = h := by
  simp [updTcbI]

theorem tcbs_updTcbI_ne (s : StI) (t t' : Nat) (h : tcb_s) (hne : t' ≠ t) :
    (updTcbI s t h).tcbs t' = s.tcbs t' := by
  simp [updTcbI, Function.update_noteq hne]

/-- Helper for C1: the pooled `foreach` walk is a `HandlerRun` from any
start pointer with any fuel: it calls the handler only on live nodes,
propagates zero results and stops at (and returns) the first nonzero
result. -/
theorem foreachP_go_handlerRun (handler : Nat → StP → Int × StP) :
    ∀ (fuel : Nat) (cur : Option Nat) (s : StP),
      ∃ l, HandlerRun handler s l (foreachP_go handler fuel cur s) := by
  intro fuel
  induction fuel with
  | zero =>
      intro cur s
      cases cur <;> exact ⟨[], HandlerRun.done s⟩
  | succ fuel ih =>
      intro cur s
      cases cur with
      | none => exact ⟨[], HandlerRun.done s⟩
      | some i =>
          by_cases hht : (getNodeP s i).htcb = none
          · have hres : foreachP_go handler (fuel + 1) (some i) s =
                foreachP_go handler fuel (getNodeP s i).flink s := by
              simp [foreachP_go, hht]
            rw [hres]
            exact ih (getNodeP s i).flink s
          · obtain ⟨t, ht⟩ := Option.ne_none_iff_exists'.mp hht
            by_cases hr : (handler i s).1 = 0
            · have hres : foreachP_go handler (fuel + 1) (some i) s =
                  foreachP_go handler fuel (getNodeP s i).flink (handler i s).2 := by
                simp [foreachP_go, hht, hr]
              rw [hres]
              obtain ⟨l, hl⟩ := ih (getNodeP s i).flink (handler i s).2
              have hh : handler i s = (0, (handler i s).2) := by
                have := Prod.mk.eta (p := handler i s)
                rw [← this, hr]
              exact ⟨i :: l, HandlerRun.cont i t ht hh hl⟩
            · have hres : foreachP_go handler (fuel + 1) (some i) s =
                  handler i s := by
                simp [foreachP_go, hht, hr]
              rw [hres]
              exact ⟨[i], HandlerRun.stop i t ht rfl hr⟩

/-- C1: for_each in both storage regimes was claimed to call the handler
only on live entries, return the first nonzero handler result and stop
there.  Counterexample for the inline regime: with both slots live and a
handler returning 5 on slot 0 and 0 on slot 1, for_each returns 0 — the
second live slot's handler was still invoked after the nonzero result,
and the nonzero result is not returned. -/
theorem foreachholderI_not_first_nonzero :
    (handlerFiveI 0 stTwoI).1 = 5 ∧
    (nxsem_foreachholderI stTwoI 0 handlerFiveI).1 = 0 := by
  constructor <;> rfl

/-- C1 (amended): in the pooled regime for_each calls the handler only on
live entries, tolerates the handler freeing the current entry, returns
the first nonzero handler result and stops iteration there; in the inline
regime for_each always also invokes the handler of the (live) second
slot, and returns that handler's result even when the first slot's
handler returned nonzero (whose result is then discarded). -/
theorem nxsem_foreachholder_run_characterization :
    (∀ (s : StP) (k : Nat) (handler : Nat → StP → Int × StP),
      ∃ l, HandlerRun handler s l (nxsem_foreachholderP s k handler)) ∧
    (∀ (s : StI) (k : Nat) (handler : Nat → StI → Int × StI) (r0 : Int)
      (s0 : StI),
      (s.sems k).holder0.htcb ≠ none →
      handler 0 s = (r0, s0) →
      ((s0.sems k).holder1.htcb ≠ none →
        nxsem_foreachholderI s k handler = handler 1 s0) ∧
      ((s0.sems k).holder1.htcb = none →
        nxsem_foreachholderI s k handler = (r0, s0))) := by
  constructor
  · intro s k handler
    exact foreachP_go_handlerRun handler s.nodes.length (s.sems k).hhead s
  · intro s k handler r0 s0 h0 hh
    constructor
    · intro h1
      simp [nxsem_foreachholderI, h0, hh, h1]
    · intro h1
      simp [nxsem_foreachholderI, h0, hh, h1]

/-- Witness for the amended C1 theorem at a concrete input: on the
two-holder inline fixture the hypotheses hold and for_each indeed returns
the slot-1 handler's result. -/
theorem nxsem_foreachholder_run_characterization_witness :
    nxsem_foreachholderI stTwoI 0 handlerFiveI = handlerFiveI 1 stTwoI :=
  (nxsem_foreachholder_run_characterization.2 stTwoI 0 handlerFiveI 5 stTwoI
    (by decide) rfl).1 (by decide)

/-- C2, counterexample: the claim says no reachable state contains a
stored entry with a set `htcb` and `counts == 0`, in particular right
after release_holder.  But the state reached by add_holder(thread 7,
sem 0) followed by release_holder(thread 7) — the release path leaves the
entry in place by design — stores htcb = 7 with counts = 0 in slot 0. -/
theorem release_holder_zero_count_entry_reachable :
    ReachableI 0 stC2 ∧
    (stC2.sems 0).holder0.htcb = some 7 ∧
    (stC2.sems 0).holder0.counts = 0 := by
  refine ⟨?_, by decide, by decide⟩
  exact ReachableI.step (.releaseHolder 7 0)
    (ReachableI.step (.addHolder 7 0)
      (ReachableI.init (fun _ => 0) (fun _ => 0) (fun _ => tcbDefault)))

theorem htcbLe_refl (m : sem_t_i) : HtcbLe m m :=
  ⟨Or.inl rfl, Or.inl rfl⟩

theorem htcbLe_trans {m1 m2 m3 : sem_t_i} (h12 : HtcbLe m1 m2)
    (h23 : HtcbLe m2 m3) : HtcbLe m1 m3 := by
  obtain ⟨a12, b12⟩ := h12
  obtain ⟨a23, b23⟩ := h23
  constructor
  · rcases a23 with h | h
    · rw [h]; exact a12
    · exact Or.inr h
  · rcases b23 with h | h
    · rw [h]; exact b12
    · exact Or.inr h

theorem uniqueHoldersI_of_htcbLe {m m' : sem_t_i} (h : HtcbLe m m')
    (hu : UniqueHoldersI m) : UniqueHoldersI m' := by
  intro t ht
  obtain ⟨h0, h1⟩ := ht
  obtain ⟨a, b⟩ := h
  rcases a with ha | ha
  · rcases b with hb | hb
    · exact hu t ⟨ha.symm.trans h0, hb.symm.trans h1⟩
    · exact Option.noConfusion (hb.symm.trans h1)
  · exact Option.noConfusion (ha.symm.trans h0)

theorem htcbLe_freeholderI (s : StI) (k i : Nat) :
    HtcbLe (s.sems k) ((nxsem_freeholderI s k i).sems k) := by
  unfold nxsem_freeholderI
  by_cases hi : i = 0 <;>
    simp [hi, setHolderI, HtcbLe]

theorem htcbLe_findandfreeholderI (s : StI) (k : Nat) (x : Option Nat) :
    HtcbLe (s.sems k) ((nxsem_findandfreeholderI s k x).sems k) := by
  unfold nxsem_findandfreeholderI
  cases hf : nxsem_findholderI (s.sems k) x with
  | none => exact htcbLe_refl _
  | some i =>
      by_cases hc : (getHolderI (s.sems k) i).counts = 0
      · simp only [hc, if_true]
        exact htcbLe_freeholderI s k i
      · simp only [hc, if_false]
        exact htcbLe_refl _

theorem htcbLe_restoreholderprioI (nnest k t : Nat) (s : StI) :
    HtcbLe (s.sems k) (((nxsem_restoreholderprioI nnest k t s).2).sems k) := by
  unfold nxsem_restoreholderprioI
  by_cases ha : (s.tcbs t).alive
  · by_cases hb : (s.tcbs t).sched_priority ≠ (s.tcbs t).base_priority <;>
      simp [ha, hb, htcbLe_refl]
  · cases hf : nxsem_findholderI (s.sems k) (some t) with
    | none => simp [ha, hf, htcbLe_refl]
    | some i =>
        simp [ha, hf]
        simpa using htcbLe_freeholderI
          (addEvI (addEvI s [Event.restoreCall t]) [Event.swarnEvent t]) k i

theorem htcbLe_othersI (nnest rtcb k i : Nat) (s : StI) :
    HtcbLe (s.sems k)
      (((nxsem_restoreholderprio_othersI nnest rtcb k i s).2).sems k) := by
  unfold nxsem_restoreholderprio_othersI
  by_cases hc : (getHolderI (s.sems k) i).htcb ≠ some rtcb
  · rw [if_pos hc]
    cases hh : (getHolderI (s.sems k) i).htcb with
    | none => simp [hh, htcbLe_refl]
    | some t =>
        simp only [hh]
        exact htcbLe_restoreholderprioI nnest k t s
  · rw [if_neg hc]
    exact htcbLe_refl _

theorem htcbLe_selfI (nnest rtcb k i : Nat) (s : StI) :
    HtcbLe (s.sems k)
      (((nxsem_restoreholderprio_selfI nnest rtcb k i s).2).sems k) := by
  unfold nxsem_restoreholderprio_selfI
  by_cases hc : (getHolderI (s.sems k) i).htcb = some rtcb
  · simp only [hc, if_true]
    refine htcbLe_trans (htcbLe_findandfreeholderI s k (some rtcb)) ?_
    have h2 := htcbLe_restoreholderprioI nnest k rtcb
      (nxsem_findandfreeholderI s k (some rtcb))
    exact h2
  · simp [hc, htcbLe_refl]

theorem htcbLe_allI (nnest k i : Nat) (s : StI) :
    HtcbLe (s.sems k)
      (((nxsem_restoreholderprioallI nnest k i s).2).sems k) := by
  unfold nxsem_restoreholderprioallI
  cases hh : (getHolderI (s.sems k) i).htcb with
  | none => simp [htcbLe_refl]
  | some t => exact htcbLe_restoreholderprioI nnest k t s

theorem htcbLe_foreachI (k : Nat) (handler : Nat → StI → Int × StI)
    (hstep : ∀ i s, HtcbLe (s.sems k) (((handler i s).2).sems k))
    (s : StI) :
    HtcbLe (s.sems k) (((nxsem_foreachholderI s k handler).2).sems k) := by
  unfold nxsem_foreachholderI
  dsimp only
  by_cases h0 : (s.sems k).holder0.htcb ≠ none
  · rw [if_pos h0]
    split
    · exact htcbLe_trans (hstep 0 s) (hstep 1 _)
    · exact hstep 0 s
  · rw [if_neg h0]
    split
    · exact hstep 1 s
    · exact htcbLe_refl _

theorem htcbLe_releaseI (rtcb k : Nat) (s : StI) :
    HtcbLe (s.sems k) ((nxsem_release_holderI rtcb k s).sems k) := by
  unfold nxsem_release_holderI
  cases hf : nxsem_findholderI (s.sems k) (some rtcb) with
  | none => exact htcbLe_refl _
  | some i =>
      by_cases hc : (getHolderI (s.sems k) i).counts > 0
      · by_cases hi : i = 0
        · subst hi
          simp [getHolderI] at hc
          simp [hc, getHolderI, setHolderI, HtcbLe]
        · simp [getHolderI, hi] at hc
          simp [hc, hi, getHolderI, setHolderI, HtcbLe]
      · simp [hc, htcbLe_refl]

/-- Postcondition of `nxsem_findandfreeholder` in the inline regime:
afterwards no slot stores thread `t` with zero counts (a found zero-count
slot was freed; uniqueness excludes a second slot for `t`). -/
theorem findandfreeholderI_post (s : StI) (k t : Nat)
    (hu : UniqueHoldersI (s.sems k)) :
    ∀ i, nxsem_findholderI
        ((nxsem_findandfreeholderI s k (some t)).sems k) (some t) = some i →
      0 < (getHolderI ((nxsem_findandfreeholderI s k (some t)).sems k) i).counts := by
  intro i hfind
  cases hf : nxsem_findholderI (s.sems k) (some t) with
  | none =>
      have hs : nxsem_findandfreeholderI s k (some t) = s := by
        unfold nxsem_findandfreeholderI
        rw [hf]
      rw [hs, hf] at hfind
      exact Option.noConfusion hfind
  | some j =>
      by_cases hc : (getHolderI (s.sems k) j).counts = 0
      · have hs : nxsem_findandfreeholderI s k (some t) =
            nxsem_freeholderI s k j := by
          unfold nxsem_findandfreeholderI
          rw [hf]
          simp [hc]
        rw [hs] at hfind
        exfalso
        unfold nxsem_findholderI at hf
        by_cases hj0 : (s.sems k).holder0.htcb = some t
        · have hj : j = 0 := by
            simp [hj0] at hf
            omega
          subst hj
          have hne1 : (s.sems k).holder1.htcb ≠ some t := fun hcon =>
            hu t ⟨hj0, hcon⟩
          unfold nxsem_freeholderI nxsem_findholderI at hfind
          simp [getHolderI, setHolderI, hne1] at hfind
        · by_cases hj1 : (s.sems k).holder1.htcb = some t
          · have hj : j = 1 := by
              simp [hj0, hj1] at hf
              omega
            subst hj
            unfold nxsem_freeholderI nxsem_findholderI at hfind
            simp [getHolderI, setHolderI, hj0] at hfind
          · simp [hj0, hj1] at hf
      · have hs : nxsem_findandfreeholderI s k (some t) = s := by
          unfold nxsem_findandfreeholderI
          rw [hf]
          simp [hc]
        rw [hs] at hfind ⊢
        rw [hf] at hfind
        have hji : j = i := Option.some.inj hfind
        subst hji
        omega

/-- C2 (amended): `counts == 0` with a cleared `htcb` holds for freed
slots, but a stored entry with a set `htcb` and `counts == 0` does exist
transiently after release_holder (by design; see the counterexample).
The invariant is restored by the restore engine: after
restore_baseprio_task for the releasing thread, that thread has no stored
entry with zero counts — any entry found for it holds counts. -/
theorem nxsem_release_restore_no_zero_count_holder (nnest rtcb k : Nat)
    (stcb : Option Nat) (s : StI) (hu : UniqueHoldersI (s.sems k)) :
    ∀ i, nxsem_findholderI
        ((nxsem_restore_baseprio_taskI nnest rtcb stcb k
          (nxsem_release_holderI rtcb k s)).sems k) (some rtcb) = some i →
      0 < (getHolderI ((nxsem_restore_baseprio_taskI nnest rtcb stcb k
          (nxsem_release_holderI rtcb k s)).sems k) i).counts := by
  intro i hfind
  set sr := nxsem_release_holderI rtcb k s with hsrdef
  set s1 := (if stcb ≠ none then
      (nxsem_foreachholderI ((nxsem_foreachholderI sr k
        (nxsem_restoreholderprio_othersI nnest rtcb k)).2) k
        (nxsem_restoreholderprio_selfI nnest rtcb k)).2
    else (nxsem_foreachholderI sr k nxsem_verifyholderI).2) with hs1def
  have heq : nxsem_restore_baseprio_taskI nnest rtcb stcb k sr =
      nxsem_findandfreeholderI s1 k (some rtcb) := by
    rw [hs1def]
    rfl
  have hu1 : UniqueHoldersI (s1.sems k) := by
    refine uniqueHoldersI_of_htcbLe ?_ hu
    refine htcbLe_trans (htcbLe_releaseI rtcb k s) ?_
    rw [hs1def]
    split
    · exact htcbLe_trans
        (htcbLe_foreachI k _ (fun i s' => htcbLe_othersI nnest rtcb k i s') sr)
        (htcbLe_foreachI k _ (fun i s' => htcbLe_selfI nnest rtcb k i s') _)
    · exact htcbLe_foreachI k _ (fun _ s' => htcbLe_refl _) sr
  rw [heq] at hfind ⊢
  exact findandfreeholderI_post s1 k rtcb hu1 i hfind

/-- Witness for the amended C2 theorem: thread 7 holds two counts on
semaphore 0; after one release and the task restore its entry is found
with counts 1 > 0. -/
theorem nxsem_release_restore_no_zero_count_holder_witness :
    0 < (getHolderI ((nxsem_restore_baseprio_taskI 0 7 (some 9) 0
        (nxsem_release_holderI 7 0
          (applyI 0 (.addHolder 7 0)
            (applyI 0 (.addHolder 7 0) stEmptyI)))).sems 0) 0).counts :=
  nxsem_release_restore_no_zero_count_holder 0 7 0 (some 9)
    (applyI 0 (.addHolder 7 0) (applyI 0 (.addHolder 7 0) stEmptyI))
    (by
      intro t ht
      have h1 : ((applyI 0 (.addHolder 7 0) (applyI 0 (.addHolder 7 0)
          stEmptyI)).sems 0).holder1.htcb = none := by decide
      rw [h1] at ht
      exact Option.noConfusion ht.2)
    0 (by decide)


theorem perm_getLast_cons_dropLast {α : Type} (l : List α) (h : l ≠ []) :
    (l.getLast h :: l.dropLast).Perm l := by
  conv_rhs => rw [← List.dropLast_append_getLast h]
  exact (List.perm_append_singleton _ _).symm

theorem removeSwapLast_decomp (bs : List semboost_s) (i : Nat)
    (h : i < bs.length) :
    removeSwapLast bs i =
      bs.take i ++ (bs.getD (bs.length - 1) ⟨0, 0⟩ :: bs.drop (i + 1)).dropLast := by
  unfold removeSwapLast
  rw [List.set_eq_take_append_cons_drop, if_pos h]
  exact List.dropLast_append_of_ne_nil _ (List.cons_ne_nil _ _)

theorem take_removeSwapLast (bs : List semboost_s) (i : Nat)
    (h : i < bs.length) : (removeSwapLast bs i).take i = bs.take i := by
  rw [removeSwapLast_decomp bs i h]
  exact List.take_left' (by simp [List.length_take]; omega)

theorem perm_drop_removeSwapLast (bs : List semboost_s) (i : Nat)
    (h : i < bs.length) :
    ((removeSwapLast bs i).drop i).Perm (bs.drop (i + 1)) := by
  rw [removeSwapLast_decomp bs i h]
  rw [List.drop_left' (by simp [List.length_take]; omega)]
  by_cases hD : bs.drop (i + 1) = []
  · rw [hD]
    exact List.Perm.refl _
  · rw [List.dropLast_cons_of_ne_nil hD]
    have hv : bs.getD (bs.length - 1) ⟨0, 0⟩ = (bs.drop (i + 1)).getLast hD := by
      rw [List.getLast_drop hD]
      rw [List.getLast_eq_getElem]
      exact List.getD_eq_getElem bs ⟨0, 0⟩ (by
        have : bs ≠ [] := by
          intro hc
          subst hc
          simp at h
        have : 0 < bs.length := List.length_pos.mpr this
        omega)
    rw [hv]
    exact perm_getLast_cons_dropLast _ hD

/-- The whole-ledger effect of swap-with-last removal: the removed
element together with the survivors is a permutation of the original
ledger. -/
theorem perm_cons_removeSwapLast (bs : List semboost_s) (i : Nat)
    (h : i < bs.length) :
    (bs.get ⟨i, h⟩ :: removeSwapLast bs i).Perm bs := by
  have hrm : removeSwapLast bs i = bs.take i ++ (removeSwapLast bs i).drop i := by
    conv_lhs => rw [← List.take_append_drop i (removeSwapLast bs i)]
    rw [take_removeSwapLast bs i h]
  have hbs : bs.take i ++ bs.get ⟨i, h⟩ :: bs.drop (i + 1) = bs := by
    rw [List.get_eq_getElem, ← List.drop_eq_getElem_cons h]
    exact List.take_append_drop i bs
  rw [hrm]
  refine List.Perm.trans List.perm_middle.symm ?_
  conv_rhs => rw [← hbs]
  exact List.Perm.append_left _ ((perm_drop_removeSwapLast bs i h).cons _)

/-- The nested-mode discard-all loop removes exactly the records of the
given semaphore from the suffix it scans: up to permutation (the
swap-with-last compaction reorders survivors), the result is the scanned
prefix followed by the suffix with every matching record removed. -/
theorem discardLoop_perm (semid : Nat) (bs : List semboost_s) (i : Nat) :
    (discardLoop semid bs i).Perm
      (bs.take i ++ (bs.drop i).filter fun b => b.sem != semid) := by
  induction bs, i using discardLoop.induct semid with
  | case1 bs i h hmatch ih =>
      rw [discardLoop, dif_pos h, if_pos hmatch]
      refine ih.trans ?_
      rw [take_removeSwapLast bs i h]
      refine List.Perm.append_left _ ?_
      refine ((perm_drop_removeSwapLast bs i h).filter _).trans ?_
      rw [List.drop_eq_getElem_cons h, List.filter_cons]
      have hb : (bs[i].sem != semid) = false := by
        simp only [List.get_eq_getElem] at hmatch
        simp [hmatch]
      rw [hb]
      simp
  | case2 bs i h hmatch ih =>
      rw [discardLoop, dif_pos h, if_neg hmatch]
      refine ih.trans ?_
      have hb : (bs[i].sem != semid) = true := by
        simp only [List.get_eq_getElem] at hmatch
        simp [hmatch]
      rw [List.drop_eq_getElem_cons h, List.filter_cons, hb]
      have htake : List.take (i + 1) bs = List.take i bs ++ [bs[i]] := by
        rw [List.take_succ, List.getElem?_eq_getElem h]
        rfl
      rw [htake, List.append_assoc]
      simp
  | case3 bs i h =>
      rw [discardLoop, dif_neg h]
      rw [List.drop_eq_nil_of_le (by omega), List.take_of_length_le (by omega)]
      simp

theorem maxMatchPrio_nil (semid : Nat) : maxMatchPrio semid [] = 0 := rfl

theorem maxMatchPrio_cons (semid : Nat) (b : semboost_s)
    (l : List semboost_s) :
    maxMatchPrio semid (b :: l) =
      if b.sem = semid then max b.priority (maxMatchPrio semid l)
      else maxMatchPrio semid l := by
  unfold maxMatchPrio
  by_cases hb : b.sem = semid <;> simp [hb, List.filter_cons]

theorem maxBoostFind_spec (semid : Nat) (bs : List semboost_s) :
    ∀ (i : Nat) (bIdx : Option Nat) (bPrio : Nat),
      ((bIdx = none ∧ bPrio = 0) ∨
        (∃ j, bIdx = some j ∧ ∃ hj : j < bs.length,
          (bs.get ⟨j, hj⟩).sem = semid ∧ (bs.get ⟨j, hj⟩).priority = bPrio ∧
          0 < bPrio)) →
      (maxBoostFind semid bs i bIdx bPrio).2 =
          max bPrio (maxMatchPrio semid (bs.drop i)) ∧
      ((maxBoostFind semid bs i bIdx bPrio).1 = none →
          (maxBoostFind semid bs i bIdx bPrio).2 = 0) ∧
      (∀ j, (maxBoostFind semid bs i bIdx bPrio).1 = some j →
          ∃ hj : j < bs.length, (bs.get ⟨j, hj⟩).sem = semid ∧
            (bs.get ⟨j, hj⟩).priority = (maxBoostFind semid bs i bIdx bPrio).2 ∧
            0 < (maxBoostFind semid bs i bIdx bPrio).2) := by
  intro i bIdx bPrio
  induction i, bIdx, bPrio using maxBoostFind.induct semid bs with
  | case1 i bIdx bPrio h hcond ih =>
      intro _
      obtain ⟨hsem, hlt⟩ := hcond
      have hres : maxBoostFind semid bs i bIdx bPrio =
          maxBoostFind semid bs (i + 1) (some i) (bs.get ⟨i, h⟩).priority := by
        rw [maxBoostFind, dif_pos h, if_pos ⟨hsem, hlt⟩]
      rw [hres]
      have hInv1 : ((some i : Option Nat) = none ∧
            (bs.get ⟨i, h⟩).priority = 0) ∨
          (∃ j, (some i : Option Nat) = some j ∧ ∃ hj : j < bs.length,
            (bs.get ⟨j, hj⟩).sem = semid ∧
            (bs.get ⟨j, hj⟩).priority = (bs.get ⟨i, h⟩).priority ∧
            0 < (bs.get ⟨i, h⟩).priority) :=
        Or.inr ⟨i, rfl, h, hsem, rfl, by omega⟩
      obtain ⟨c1, c2, c3⟩ := ih hInv1
      refine ⟨?_, c2, c3⟩
      rw [c1]
      rw [List.drop_eq_getElem_cons h, maxMatchPrio_cons]
      rw [if_pos (show bs[i].sem = semid from hsem)]
      have hlt' : bPrio < bs[i].priority := hlt
      have hg : (bs.get ⟨i, h⟩).priority = bs[i].priority := rfl
      rw [hg]
      omega
  | case2 i bIdx bPrio h hcond ih =>
      intro hInv
      have hres : maxBoostFind semid bs i bIdx bPrio =
          maxBoostFind semid bs (i + 1) bIdx bPrio := by
        rw [maxBoostFind, dif_pos h, if_neg hcond]
      rw [hres]
      obtain ⟨c1, c2, c3⟩ := ih hInv
      refine ⟨?_, c2, c3⟩
      rw [c1]
      rw [List.drop_eq_getElem_cons h, maxMatchPrio_cons]
      by_cases hsem : bs[i].sem = semid
      · rw [if_pos hsem]
        have hle : ¬ bPrio < bs[i].priority := by
          intro hc
          exact hcond ⟨hsem, hc⟩
        omega
      · rw [if_neg hsem]
  | case3 i bIdx bPrio h =>
      intro hInv
      have hres : maxBoostFind semid bs i bIdx bPrio = (bIdx, bPrio) := by
        rw [maxBoostFind, dif_neg h]
      rw [hres]
      rw [List.drop_eq_nil_of_le (by omega), maxMatchPrio_nil]
      refine ⟨by omega, ?_, ?_⟩
      · intro hnone
        rcases hInv with ⟨_, h0⟩ | ⟨j, hj, _⟩
        · exact h0
        · rw [hj] at hnone
          exact Option.noConfusion hnone
      · intro j hj
        rcases hInv with ⟨hn, _⟩ | ⟨j', hj', hlt, hsem, hprio, hpos⟩
        · rw [hn] at hj
          exact Option.noConfusion hj
        · rw [hj'] at hj
          have : j' = j := Option.some.inj hj
          subst this
          exact ⟨hlt, hsem, hprio, hpos⟩

theorem newPriorityOf_spec (base : Nat) (bs : List semboost_s) :
    base ≤ newPriorityOf base bs ∧
    (∀ b ∈ bs, b.priority ≤ newPriorityOf base bs) ∧
    (newPriorityOf base bs = base ∨
      ∃ b ∈ bs, newPriorityOf base bs = b.priority) := by
  induction bs generalizing base with
  | nil => simp [newPriorityOf]
  | cons b l ih =>
      have hrec : newPriorityOf base (b :: l) =
          newPriorityOf (if b.priority > base then b.priority else base) l := rfl
      rw [hrec]
      by_cases hbp : b.priority > base
      · rw [if_pos hbp]
        obtain ⟨i1, i2, i3⟩ := ih b.priority
        refine ⟨by omega, ?_, ?_⟩
        · intro c hc
          rcases List.mem_cons.mp hc with hcb | hcl
          · subst hcb
            exact i1
          · exact i2 c hcl
        · rcases i3 with he | ⟨c, hcl, hce⟩
          · exact Or.inr ⟨b, List.mem_cons_self b l, he⟩
          · exact Or.inr ⟨c, List.mem_cons_of_mem b hcl, hce⟩
      · rw [if_neg hbp]
        obtain ⟨i1, i2, i3⟩ := ih base
        refine ⟨i1, ?_, ?_⟩
        · intro c hc
          rcases List.mem_cons.mp hc with hcb | hcl
          · subst hcb
            omega
          · exact i2 c hcl
        · rcases i3 with he | ⟨c, hcl, hce⟩
          · exact Or.inl he
          · exact Or.inr ⟨c, List.mem_cons_of_mem b hcl, hce⟩

theorem maxMatchPrio_pos (semid : Nat) (bs : List semboost_s) :
    0 < maxMatchPrio semid bs ↔ ∃ b ∈ bs, b.sem = semid ∧ 0 < b.priority := by
  induction bs with
  | nil => simp [maxMatchPrio_nil]
  | cons b l ih =>
      rw [maxMatchPrio_cons]
      by_cases hb : b.sem = semid
      · rw [if_pos hb]
        constructor
        · intro hpos
          rcases Nat.lt_or_ge 0 b.priority with hp | hp
          · exact ⟨b, List.mem_cons_self b l, hb, hp⟩
          · have : 0 < maxMatchPrio semid l := by omega
            obtain ⟨c, hcl, hcs, hcp⟩ := ih.mp this
            exact ⟨c, List.mem_cons_of_mem b hcl, hcs, hcp⟩
        · intro ⟨c, hc, hcs, hcp⟩
          rcases List.mem_cons.mp hc with hcb | hcl
          · subst hcb
            omega
          · have := ih.mpr ⟨c, hcl, hcs, hcp⟩
            omega
      · rw [if_neg hb]
        constructor
        · intro hpos
          obtain ⟨c, hcl, hcs, hcp⟩ := ih.mp hpos
          exact ⟨c, List.mem_cons_of_mem b hcl, hcs, hcp⟩
        · intro ⟨c, hc, hcs, hcp⟩
          rcases List.mem_cons.mp hc with hcb | hcl
          · subst hcb
            exact absurd hcs hb
          · exact ih.mpr ⟨c, hcl, hcs, hcp⟩

/-- The nested-mode branch of the per-thread restore: ledger and priority
characterization.  With `deadslot` (holder gone or out of counts) the
matching records are all removed; otherwise exactly one matching record
of maximal priority is removed provided some matching record has positive
priority, and none otherwise (in particular none when no record
matches); the resulting priority is the maximum of the base priority and
the remaining records. -/
theorem restoreTcb_spec (nnest semid t : Nat) (deadslot : Bool)
    (h : tcb_s) (events : List Event) (hn : 0 < nnest) :
    (deadslot = true →
      ((restoreTcb nnest semid t deadslot h events).1.sem_boosts).Perm
        (h.sem_boosts.filter fun b => b.sem != semid)) ∧
    (deadslot = false →
      ((∃ b ∈ h.sem_boosts, b.sem = semid ∧ 0 < b.priority) →
        ((⟨semid, maxMatchPrio semid h.sem_boosts⟩ :: (restoreTcb nnest semid t
            deadslot h events).1.sem_boosts).Perm h.sem_boosts)) ∧
      ((∀ b ∈ h.sem_boosts, b.sem = semid → b.priority = 0) →
        (restoreTcb nnest semid t deadslot h events).1.sem_boosts =
          h.sem_boosts)) ∧
    (restoreTcb nnest semid t deadslot h events).1.base_priority =
      h.base_priority ∧
    (restoreTcb nnest semid t deadslot h events).1.sched_priority =
      newPriorityOf h.base_priority
        (restoreTcb nnest semid t deadslot h events).1.sem_boosts := by
  have hmb := maxBoostFind_spec semid h.sem_boosts 0 none 0 (Or.inl ⟨rfl, rfl⟩)
  obtain ⟨c1, c2, c3⟩ := hmb
  rw [List.drop_zero] at c1
  have hmax : (maxBoostFind semid h.sem_boosts 0 none 0).2 =
      maxMatchPrio semid h.sem_boosts := by
    omega
  have hfields : (restoreTcb nnest semid t deadslot h events).1.sem_boosts =
        (if deadslot then discardLoop semid h.sem_boosts 0
         else match (maxBoostFind semid h.sem_boosts 0 none 0).1 with
           | some idx => removeSwapLast h.sem_boosts idx
           | none => h.sem_boosts) ∧
      (restoreTcb nnest semid t deadslot h events).1.base_priority =
        h.base_priority ∧
      (restoreTcb nnest semid t deadslot h events).1.sched_priority =
        newPriorityOf h.base_priority
          (if deadslot then discardLoop semid h.sem_boosts 0
           else match (maxBoostFind semid h.sem_boosts 0 none 0).1 with
             | some idx => removeSwapLast h.sem_boosts idx
             | none => h.sem_boosts) := by
    unfold restoreTcb
    rw [if_pos hn]
    dsimp only
    cases deadslot with
    | true =>
        simp only [if_true]
        split
        · exact ⟨rfl, rfl, rfl⟩
        · next hnp => exact ⟨rfl, rfl, (not_ne_iff.mp hnp).symm⟩
    | false =>
        simp only [Bool.false_eq_true, if_false]
        split
        · exact ⟨rfl, rfl, rfl⟩
        · next hnp => exact ⟨rfl, rfl, (not_ne_iff.mp hnp).symm⟩
  obtain ⟨hbs, hbase, hsched⟩ := hfields
  refine ⟨?_, ?_, hbase, by rw [hbs, hsched]⟩
  · intro hds
    rw [hbs, hds, if_pos rfl]
    have hperm := discardLoop_perm semid h.sem_boosts 0
    simpa using hperm
  · intro hds
    rw [hbs, hds]
    simp only [Bool.false_eq_true, if_false]
    constructor
    · intro hex
      have hpos : 0 < maxMatchPrio semid h.sem_boosts :=
        (maxMatchPrio_pos semid h.sem_boosts).mpr hex
      cases hidx : (maxBoostFind semid h.sem_boosts 0 none 0).1 with
      | none =>
          have := c2 hidx
          omega
      | some idx =>
          obtain ⟨hj, hsem, hprio, _⟩ := c3 idx hidx
          have hrec : h.sem_boosts.get ⟨idx, hj⟩ =
              ⟨semid, maxMatchPrio semid h.sem_boosts⟩ := by
            cases hb : h.sem_boosts.get ⟨idx, hj⟩ with
            | mk bsem bprio =>
                rw [hb] at hsem hprio
                simp only at hsem hprio
                rw [hsem, hprio, hmax]
          have hperm := perm_cons_removeSwapLast h.sem_boosts idx hj
          rw [hrec] at hperm
          exact hperm
    · intro hall
      have hz : maxMatchPrio semid h.sem_boosts = 0 := by
        by_contra hnz
        have hpos : 0 < maxMatchPrio semid h.sem_boosts := by omega
        obtain ⟨b, hbm, hbs2, hbp⟩ := (maxMatchPrio_pos semid _).mp hpos
        have := hall b hbm hbs2
        omega
      cases hidx : (maxBoostFind semid h.sem_boosts 0 none 0).1 with
      | none => rfl
      | some idx =>
          obtain ⟨hj, _, _, hlt⟩ := c3 idx hidx
          omega

/-- C3, counterexample: thread 7 is a live holder of semaphore 1 with
counts 2 (so the remove-one branch runs), is boosted (sched 9, base 5),
and its ledger holds exactly one record for this semaphore, (sem 1,
priority 0).  The claim requires removing one record; the code removes
none, because the find-maximum loop starts from priority 0 with a strict
comparison and never selects a priority-0 record. -/
theorem restoreholderprio_keeps_zero_priority_record :
    (stC3.tcbs 7).sem_boosts = [⟨1, 0⟩] ∧
    (stC3.tcbs 7).sched_priority ≠ (stC3.tcbs 7).base_priority ∧
    nxsem_findholderI (stC3.sems 1) (some 7) = some 0 ∧
    (getHolderI (stC3.sems 1) 0).counts ≠ 0 ∧
    ((nxsem_restoreholderprioI 4 1 7 stC3).2.tcbs 7).sem_boosts = [⟨1, 0⟩] := by
  refine ⟨by decide, by decide, by decide, by decide, ?_⟩
  simp [nxsem_restoreholderprioI, nxsem_findholderI, restoreTcb, stC3,
    addEvI, updTcbI, getHolderI, maxBoostFind, newPriorityOf, tcbDefault]

/-- C3 (amended): in nested-boost mode, for a live boosted holder thread,
restore_one edits the ledger as follows.  If the holder entry is absent
or its counts are 0, every record for this semaphore is removed (up to
permutation of the survivors).  Otherwise exactly one record for this
semaphore with the maximum priority among its records is removed,
provided some record for this semaphore has positive priority; when no
record for this semaphore has positive priority (in particular when none
exists), none is removed.  Afterwards the thread's priority equals the
maximum of its base priority and the remaining record priorities. -/
theorem nxsem_restoreholderprio_nested_ledger (nnest k t : Nat) (s : StI)
    (hn : 0 < nnest) (halive : (s.tcbs t).alive = true)
    (hboost : (s.tcbs t).sched_priority ≠ (s.tcbs t).base_priority) :
    ((nxsem_findholderI (s.sems k) (some t) = none ∨
      (∃ i, nxsem_findholderI (s.sems k) (some t) = some i ∧
        (getHolderI (s.sems k) i).counts = 0)) →
      (((nxsem_restoreholderprioI nnest k t s).2.tcbs t).sem_boosts).Perm
        ((s.tcbs t).sem_boosts.filter fun b => b.sem != k)) ∧
    (∀ i, nxsem_findholderI (s.sems k) (some t) = some i →
      (getHolderI (s.sems k) i).counts ≠ 0 →
      ((∃ b ∈ (s.tcbs t).sem_boosts, b.sem = k ∧ 0 < b.priority) →
        ((⟨k, maxMatchPrio k (s.tcbs t).sem_boosts⟩ ::
          ((nxsem_restoreholderprioI nnest k t s).2.tcbs t).sem_boosts).Perm
          (s.tcbs t).sem_boosts)) ∧
      ((∀ b ∈ (s.tcbs t).sem_boosts, b.sem = k → b.priority = 0) →
        ((nxsem_restoreholderprioI nnest k t s).2.tcbs t).sem_boosts =
          (s.tcbs t).sem_boosts)) ∧
    ((s.tcbs t).base_priority ≤
        ((nxsem_restoreholderprioI nnest k t s).2.tcbs t).sched_priority ∧
      (∀ b ∈ ((nxsem_restoreholderprioI nnest k t s).2.tcbs t).sem_boosts,
        b.priority ≤
          ((nxsem_restoreholderprioI nnest k t s).2.tcbs t).sched_priority) ∧
      (((nxsem_restoreholderprioI nnest k t s).2.tcbs t).sched_priority =
          (s.tcbs t).base_priority ∨
        ∃ b ∈ ((nxsem_restoreholderprioI nnest k t s).2.tcbs t).sem_boosts,
          ((nxsem_restoreholderprioI nnest k t s).2.tcbs t).sched_priority =
            b.priority)) := by
  have hbr : (nxsem_restoreholderprioI nnest k t s).2.tcbs t =
      (restoreTcb nnest k t
        (match nxsem_findholderI (s.sems k) (some t) with
          | none => true
          | some i => decide ((getHolderI (s.sems k) i).counts = 0))
        (s.tcbs t) (s.events ++ [Event.restoreCall t])).1 := by
    simp only [nxsem_restoreholderprioI, tcbs_addEvI, sems_addEvI,
      events_addEvI, halive, hboost, not_true_eq_false, if_false, ne_eq,
      not_false_eq_true, if_true, tcbs_updTcbI_same]
  set D : Bool := (match nxsem_findholderI (s.sems k) (some t) with
    | none => true
    | some i => decide ((getHolderI (s.sems k) i).counts = 0)) with hD
  have hspec := restoreTcb_spec nnest k t D (s.tcbs t)
    (s.events ++ [Event.restoreCall t]) hn
  obtain ⟨sp1, sp2, spbase, spsched⟩ := hspec
  refine ⟨?_, ?_, ?_⟩
  · intro hdead
    rw [hbr]
    apply sp1
    rw [hD]
    rcases hdead with hnone | ⟨i, hi, hc⟩
    · rw [hnone]
    · rw [hi]
      simp [hc]
  · intro i hi hc
    rw [hbr]
    have hDfalse : D = false := by
      rw [hD, hi]
      simp [hc]
    exact sp2 hDfalse
  · rw [hbr]
    rw [spsched, ← spbase]
    exact newPriorityOf_spec _ _

/-- Witness for the amended C3 theorem at the concrete counterexample
state: the only record for this semaphore has priority 0, so the theorem
yields that no record is removed. -/
theorem nxsem_restoreholderprio_nested_ledger_witness :
    ((nxsem_restoreholderprioI 4 1 7 stC3).2.tcbs 7).sem_boosts =
      (stC3.tcbs 7).sem_boosts :=
  ((nxsem_restoreholderprio_nested_ledger 4 1 7 stC3 (by decide) (by decide)
      (by decide)).2.1 0 (by decide) (by decide)).2 (by decide)

/-- C6, code bug: with the holder store exhausted, alloc logs the error
and returns `NULL`, and add_holder then makes no store change — matching
the specified silent degradation — but the trailing
`DEBUGASSERT(pholder != NULL)` of `nxsem_allocholder` is reached with
`pholder == NULL`, so in a debug build an assertion fires on capacity
exhaustion.  Both storage regimes evaluated at a full store. -/
theorem allocholder_capacity_exhaustion_asserts :
    ((nxsem_allocholderI stTwoI 0).1 = none ∧
      (nxsem_allocholderI stTwoI 0).2.events =
        [.serrEvent, .assertFailed] ∧
      (nxsem_allocholderI stTwoI 0).2.sems 0 = stTwoI.sems 0 ∧
      (nxsem_add_holder_tcbI 9 0 stTwoI).sems 0 = stTwoI.sems 0 ∧
      (nxsem_add_holder_tcbI 9 0 stTwoI).events =
        [.serrEvent, .assertFailed]) ∧
    ((nxsem_allocholderP stFullP 0).1 = none ∧
      (nxsem_allocholderP stFullP 0).2.events =
        [.serrEvent, .assertFailed] ∧
      (nxsem_allocholderP stFullP 0).2.nodes = stFullP.nodes ∧
      (nxsem_allocholderP stFullP 0).2.freeHead = stFullP.freeHead ∧
      (nxsem_add_holder_tcbP 9 0 stFullP).nodes = stFullP.nodes ∧
      (nxsem_add_holder_tcbP 9 0 stFullP).events =
        [.serrEvent, .assertFailed]) := by
  decide

@[simp] theorem tcbs_setNodeP (s : StP) (i : Nat) (nd : semholder_s) :
    (setNodeP s i nd).tcbs = s.tcbs := rfl

@[simp] theorem sems_setNodeP (s : StP) (i : Nat) (nd : semholder_s) :
    (setNodeP s i nd).sems = s.sems := rfl

@[simp] theorem events_setNodeP (s : StP) (i : Nat) (nd : semholder_s) :
    (setNodeP s i nd).events = s.events := rfl

@[simp] theorem freeHead_setNodeP (s : StP) (i : Nat) (nd : semholder_s) :
    (setNodeP s i nd).freeHead = s.freeHead := rfl

@[simp] theorem nodes_setNodeP (s : StP) (i : Nat) (nd : semholder_s) :
    (setNodeP s i nd).nodes = s.nodes.set i nd := rfl

@[simp] theorem tcbs_updSemP (s : StP) (k : Nat) (f : sem_t_p → sem_t_p) :
    (updSemP s k f).tcbs = s.tcbs := rfl

@[simp] theorem nodes_updSemP (s : StP) (k : Nat) (f : sem_t_p → sem_t_p) :
    (updSemP s k f).nodes = s.nodes := rfl

@[simp] theorem events_updSemP (s : StP) (k : Nat) (f : sem_t_p → sem_t_p) :
    (updSemP s k f).events = s.events := rfl

@[simp] theorem freeHead_updSemP (s : StP) (k : Nat) (f : sem_t_p → sem_t_p) :
    (updSemP s k f).freeHead = s.freeHead := rfl

@[simp] theorem sems_updSemP_same (s : StP) (k : Nat) (f : sem_t_p → sem_t_p) :
    (updSemP s k f).sems k = f (s.sems k) := by
  simp [updSemP]

@[simp] theorem tcbs_addEvP (s : StP) (es : List Event) :
    (addEvP s es).tcbs = s.tcbs := rfl

@[simp] theorem sems_addEvP (s : StP) (es : List Event) :
    (addEvP s es).sems = s.sems := rfl

@[simp] theorem nodes_addEvP (s : StP) (es : List Event) :
    (addEvP s es).nodes = s.nodes := rfl

@[simp] theorem freeHead_addEvP (s : StP) (es : List Event) :
    (addEvP s es).freeHead = s.freeHead := rfl

@[simp] theorem events_addEvP (s : StP) (es : List Event) :
    (addEvP s es).events = s.events ++ es := rfl

@[simp] theorem sems_updTcbP (s : StP) (t : Nat) (h : tcb_s) :
    (updTcbP s t h).sems = s.sems := rfl

@[simp] theorem nodes_updTcbP (s : StP) (t : Nat) (h : tcb_s) :
    (updTcbP s t h).nodes = s.nodes := rfl

@[simp] theorem events_updTcbP (s : StP) (t : Nat) (h : tcb_s) :
    (updTcbP s t h).events = s.events := rfl

@[simp] theorem freeHead_updTcbP (s : StP) (t : Nat) (h : tcb_s) :
    (updTcbP s t h).freeHead = s.freeHead := rfl

@[simp] theorem tcbs_updTcbP_same (s : StP) (t : Nat) (h : tcb_s) :
    (updTcbP s t h).tcbs t = h := by
  simp [updTcbP]

theorem tcbs_updTcbP_ne (s : StP) (t t' : Nat) (h : tcb_s) (hne : t' ≠ t) :
    (updTcbP s t h).tcbs t' = s.tcbs t' := by
  simp [updTcbP, Function.update_noteq hne]

theorem tcbs_freeholderP (s : StP) (k i : Nat) :
    (nxsem_freeholderP s k i).tcbs = s.tcbs := by
  unfold nxsem_freeholderP
  dsimp only
  split
  · rfl
  · split <;> rfl

theorem tcbs_freeholderI (s : StI) (k i : Nat) :
    (nxsem_freeholderI s k i).tcbs = s.tcbs := rfl

theorem boostTcb_sched_mono (nnest semid rtcbPrio t : Nat) (h : tcb_s)
    (events : List Event) :
    h.sched_priority ≤ (boostTcb nnest semid rtcbPrio t h events).1.sched_priority := by
  unfold boostTcb
  dsimp only
  repeat' split
  all_goals dsimp only
  all_goals omega

theorem boostholderprioI_sched_mono (nnest rtcb k i : Nat) (s : StI)
    (u : Nat) :
    (s.tcbs u).sched_priority ≤
      (((nxsem_boostholderprioI nnest rtcb k i s).2).tcbs u).sched_priority := by
  unfold nxsem_boostholderprioI
  cases hh : (getHolderI (s.sems k) i).htcb with
  | none => exact Nat.le_refl _
  | some t =>
      dsimp only
      by_cases ha : (s.tcbs t).alive
      · rw [if_neg (not_not_intro ha)]
        dsimp only
        by_cases hu : u = t
        · subst hu
          simp only [tcbs_updTcbI_same]
          exact boostTcb_sched_mono nnest k _ u (s.tcbs u) s.events
        · rw [tcbs_updTcbI_ne s t u _ hu]
      · rw [if_pos ha]
        dsimp only
        rw [tcbs_freeholderI]
        simp

theorem boostholderprioP_sched_mono (nnest rtcb k i : Nat) (s : StP)
    (u : Nat) :
    (s.tcbs u).sched_priority ≤
      (((nxsem_boostholderprioP nnest rtcb k i s).2).tcbs u).sched_priority := by
  unfold nxsem_boostholderprioP
  cases hh : (getNodeP s i).htcb with
  | none => exact Nat.le_refl _
  | some t =>
      dsimp only
      by_cases ha : (s.tcbs t).alive
      · rw [if_neg (not_not_intro ha)]
        dsimp only
        by_cases hu : u = t
        · subst hu
          simp only [tcbs_updTcbP_same]
          exact boostTcb_sched_mono nnest k _ u (s.tcbs u) s.events
        · rw [tcbs_updTcbP_ne s t u _ hu]
      · rw [if_pos ha]
        dsimp only
        rw [tcbs_freeholderP]
        simp

theorem foreachP_go_sched_mono (handler : Nat → StP → Int × StP)
    (hstep : ∀ i s u, (s.tcbs u).sched_priority ≤
      (((handler i s).2).tcbs u).sched_priority) :
    ∀ (fuel : Nat) (cur : Option Nat) (s : StP) (u : Nat),
      (s.tcbs u).sched_priority ≤
        ((foreachP_go handler fuel cur s).2.tcbs u).sched_priority := by
  intro fuel
  induction fuel with
  | zero =>
      intro cur s u
      cases cur <;> exact Nat.le_refl _
  | succ fuel ih =>
      intro cur s u
      cases cur with
      | none => exact Nat.le_refl _
      | some i =>
          by_cases hht : (getNodeP s i).htcb = none
          · have : foreachP_go handler (fuel + 1) (some i) s =
                foreachP_go handler fuel (getNodeP s i).flink s := by
              simp [foreachP_go, hht]
            rw [this]
            exact ih _ s u
          · by_cases hr : (handler i s).1 = 0
            · have : foreachP_go handler (fuel + 1) (some i) s =
                  foreachP_go handler fuel (getNodeP s i).flink (handler i s).2 := by
                simp [foreachP_go, hht, hr]
              rw [this]
              exact Nat.le_trans (hstep i s u) (ih _ _ u)
            · have : foreachP_go handler (fuel + 1) (some i) s = handler i s := by
                simp [foreachP_go, hht, hr]
              rw [this]
              exact hstep i s u

/-- C8: boosting is monotone.  In both storage regimes and both boost
modes, no thread's scheduling priority is lower after a boost_priority
call than before it. -/
theorem nxsem_boost_priority_monotone :
    (∀ (nnest rtcb k : Nat) (s : StI) (t : Nat),
      (s.tcbs t).sched_priority ≤
        ((nxsem_boost_priorityI nnest rtcb k s).tcbs t).sched_priority) ∧
    (∀ (nnest rtcb k : Nat) (s : StP) (t : Nat),
      (s.tcbs t).sched_priority ≤
        ((nxsem_boost_priorityP nnest rtcb k s).tcbs t).sched_priority) := by
  constructor
  · intro nnest rtcb k s t
    unfold nxsem_boost_priorityI nxsem_foreachholderI
    dsimp only
    by_cases h0 : (s.sems k).holder0.htcb ≠ none
    · rw [if_pos h0]
      split
      · exact Nat.le_trans (boostholderprioI_sched_mono nnest rtcb k 0 s t)
          (boostholderprioI_sched_mono nnest rtcb k 1 _ t)
      · exact boostholderprioI_sched_mono nnest rtcb k 0 s t
    · rw [if_neg h0]
      split
      · exact boostholderprioI_sched_mono nnest rtcb k 1 s t
      · exact Nat.le_refl _
  · intro nnest rtcb k s t
    unfold nxsem_boost_priorityP nxsem_foreachholderP
    exact foreachP_go_sched_mono _
      (fun i s u => boostholderprioP_sched_mono nnest rtcb k i s u) _ _ s t

@[simp] theorem length_initNodesP (n : Nat) : (initNodesP n).length = n := by
  simp [initNodesP]

theorem getD_initNodesP (n k : Nat) (hk : k < n) :
    (initNodesP n).getD k {} =
      { flink := if k + 1 < n then some (k + 1) else none,
        htcb := none, counts := 0 } := by
  rw [List.getD_eq_getElem _ _ (by simpa using hk)]
  simp [initNodesP]

theorem nodeChain_initNodesP (n : Nat) :
    ∀ (m k : Nat), k + m = n → 0 < m →
      NodeChain (initNodesP n) (some k) (List.range' k m) := by
  intro m
  induction m with
  | zero => omega
  | succ m ih =>
      intro k hk _
      rw [List.range'_succ]
      refine NodeChain.cons (by simp; omega) ?_
      rw [getD_initNodesP n k (by omega)]
      by_cases hm : m = 0
      · subst hm
        have : ¬ k + 1 < n := by omega
        simp only [this, if_false]
        exact NodeChain.nil
      · have : k + 1 < n := by omega
        simp only [this, if_true]
        exact ih (k + 1) (by omega) (by omega)

theorem len_freeholderP (s : StP) (k i : Nat) :
    (nxsem_freeholderP s k i).nodes.length = s.nodes.length := by
  unfold nxsem_freeholderP
  dsimp only
  split
  · simp
  · split <;> simp

theorem len_allocholderP (s : StP) (k : Nat) :
    ((nxsem_allocholderP s k).2).nodes.length = s.nodes.length := by
  unfold nxsem_allocholderP
  split <;> simp

theorem len_restoreholderprioP (nnest k t : Nat) (s : StP) :
    ((nxsem_restoreholderprioP nnest k t s).2).nodes.length =
      s.nodes.length := by
  unfold nxsem_restoreholderprioP
  dsimp only
  split
  · split
    · rw [len_freeholderP]
      simp
    · simp
  · split
    · simp
    · simp

theorem len_boostholderprioP (nnest rtcb k i : Nat) (s : StP) :
    ((nxsem_boostholderprioP nnest rtcb k i s).2).nodes.length =
      s.nodes.length := by
  unfold nxsem_boostholderprioP
  dsimp only
  split
  · rfl
  · split
    · rw [len_freeholderP]
      simp
    · simp

theorem len_foreachP_go (handler : Nat → StP → Int × StP)
    (hstep : ∀ i s, ((handler i s).2).nodes.length = s.nodes.length) :
    ∀ (fuel : Nat) (cur : Option Nat) (s : StP),
      ((foreachP_go handler fuel cur s).2).nodes.length = s.nodes.length := by
  intro fuel
  induction fuel with
  | zero =>
      intro cur s
      cases cur <;> rfl
  | succ fuel ih =>
      intro cur s
      cases cur with
      | none => rfl
      | some i =>
          by_cases hht : (getNodeP s i).htcb = none
          · have : foreachP_go handler (fuel + 1) (some i) s =
                foreachP_go handler fuel (getNodeP s i).flink s := by
              simp [foreachP_go, hht]
            rw [this, ih]
          · by_cases hr : (handler i s).1 = 0
            · have : foreachP_go handler (fuel + 1) (some i) s =
                  foreachP_go handler fuel (getNodeP s i).flink (handler i s).2 := by
                simp [foreachP_go, hht, hr]
              rw [this, ih, hstep]
            · have : foreachP_go handler (fuel + 1) (some i) s = handler i s := by
                simp [foreachP_go, hht, hr]
              rw [this, hstep]

theorem len_findorallocateholderP (s : StP) (k : Nat) (x : Option Nat) :
    ((nxsem_findorallocateholderP s k x).2).nodes.length = s.nodes.length := by
  unfold nxsem_findorallocateholderP
  split
  · rfl
  · exact len_allocholderP s k

theorem len_add_holder_tcbP (t k : Nat) (s : StP) :
    (nxsem_add_holder_tcbP t k s).nodes.length = s.nodes.length := by
  unfold nxsem_add_holder_tcbP
  split
  · split
    · next i s1 heq =>
        have h2 := congrArg Prod.snd heq
        dsimp only at h2
        have hs1 : s1.nodes.length = s.nodes.length := by
          rw [← h2]
          exact len_findorallocateholderP s k (some t)
        simp [hs1]
    · next s1 heq =>
        have h2 := congrArg Prod.snd heq
        dsimp only at h2
        rw [← h2]
        exact len_findorallocateholderP s k (some t)
  · rfl

theorem len_applyP (nnest : Nat) (op : OpP) (s : StP) :
    (applyP nnest op s).nodes.length = s.nodes.length := by
  cases op with
  | addHolder rtcb k => exact len_add_holder_tcbP rtcb k s
  | addHolderTcb t k => exact len_add_holder_tcbP t k s
  | releaseHolder rtcb k =>
      show (nxsem_release_holderP rtcb k s).nodes.length = s.nodes.length
      unfold nxsem_release_holderP
      split
      · split <;> simp
      · rfl
  | boost rtcb k =>
      exact len_foreachP_go _ (fun i s => len_boostholderprioP nnest rtcb k i s)
        _ _ s
  | restore rtcb irq stcb k =>
      show (nxsem_restore_baseprioP nnest rtcb irq stcb k s).nodes.length =
        s.nodes.length
      have hall : ∀ i s', ((nxsem_restoreholderprioallP nnest k i s').2).nodes.length = s'.nodes.length := by
        intro i s'
        unfold nxsem_restoreholderprioallP
        split
        · exact len_restoreholderprioP nnest k _ s'
        · rfl
      have hoth : ∀ i s', ((nxsem_restoreholderprio_othersP nnest rtcb k i s').2).nodes.length = s'.nodes.length := by
        intro i s'
        unfold nxsem_restoreholderprio_othersP
        split
        · split
          · exact len_restoreholderprioP nnest k _ s'
          · rfl
        · rfl
      have hself : ∀ i s', ((nxsem_restoreholderprio_selfP nnest rtcb k i s').2).nodes.length = s'.nodes.length := by
        intro i s'
        unfold nxsem_restoreholderprio_selfP
        split
        · exact len_restoreholderprioP nnest k _ s'
        · rfl
      have hver : ∀ i s', ((nxsem_verifyholderP i s').2).nodes.length = s'.nodes.length :=
        fun _ _ => rfl
      have hfe : ∀ (handler : Nat → StP → Int × StP),
          (∀ i s', ((handler i s').2).nodes.length = s'.nodes.length) →
          ∀ s' : StP, ((nxsem_foreachholderP s' k handler).2).nodes.length = s'.nodes.length := by
        intro handler hstep s'
        exact len_foreachP_go handler hstep _ _ s'
      have hfaf : ∀ s' : StP, (nxsem_findandfreeholderP s' k (some rtcb)).nodes.length = s'.nodes.length := by
        intro s'
        unfold nxsem_findandfreeholderP
        split
        · split
          · exact len_freeholderP _ _ _
          · rfl
        · rfl
      unfold nxsem_restore_baseprioP nxsem_restore_baseprio_irqP
        nxsem_restore_baseprio_taskP
      split
      · split
        · exact hfe _ hall s
        · exact hfe _ hver s
      · dsimp only
        rw [hfaf]
        split
        · rw [hfe _ hself]
          exact hfe _ hoth s
        · exact hfe _ hver s
  | canceled stcb k =>
      show (nxsem_canceledP nnest stcb k s).nodes.length = s.nodes.length
      have hall : ∀ i s', ((nxsem_restoreholderprioallP nnest k i s').2).nodes.length = s'.nodes.length := by
        intro i s'
        unfold nxsem_restoreholderprioallP
        split
        · exact len_restoreholderprioP nnest k _ s'
        · rfl
      have hfe : ∀ s' : StP,
          ((nxsem_foreachholderP s' k (nxsem_restoreholderprioallP nnest k)).2).nodes.length = s'.nodes.length :=
        fun s' => len_foreachP_go _ hall _ _ s'
      unfold nxsem_canceledP
      dsimp only
      split
      · exact hfe s
      · rw [hfe]
        rfl
  | destroy k =>
      show (nxsem_destroyholderP s k).nodes.length = s.nodes.length
      have hrec : ∀ i s', ((nxsem_recoverholdersP k i s').2).nodes.length = s'.nodes.length := by
        intro i s'
        unfold nxsem_recoverholdersP
        exact len_freeholderP s' k i
      have hfe : ∀ s' : StP,
          ((nxsem_foreachholderP s' k (nxsem_recoverholdersP k)).2).nodes.length = s'.nodes.length :=
        fun s' => len_foreachP_go _ hrec _ _ s'
      unfold nxsem_destroyholderP
      split
      · rfl
      · dsimp only
        split
        · exact hfe s
        · rw [hfe]
          rfl
  | kill t => rfl

/-- C10: after `nxsem_initialize_holders` in the pooled regime (n > 0
preallocated nodes), the global free list is a null-terminated chain
containing each of the n preallocated nodes exactly once — the chain is
the duplicate-free list [0, 1, ..., n-1] of all node indices.
Consequently, in any state reachable from that state by any sequence of
public operations, at most n holder entries are live across all
semaphores simultaneously. -/
theorem init_holders_free_list_exact (n nnest : Nat) (hn : 0 < n)
    (flagsf : Nat → Nat) (scf : Nat → Int) (tcbs : Nat → tcb_s) :
    (NodeChain (nxsem_init_holdersP n flagsf scf tcbs).nodes
      (nxsem_init_holdersP n flagsf scf tcbs).freeHead (List.range n) ∧
     (List.range n).Nodup ∧
     (∀ i, i < n ↔ i ∈ List.range n)) ∧
    (∀ s : StP, ReachableP nnest n s → countLiveP s ≤ n) := by
  constructor
  · refine ⟨?_, List.nodup_range n, fun i => (List.mem_range (n := n)).symm⟩
    have hfh : (nxsem_init_holdersP n flagsf scf tcbs).freeHead = some 0 := by
      simp [nxsem_init_holdersP]
      omega
    rw [hfh]
    show NodeChain (initNodesP n) (some 0) (List.range n)
    rw [List.range_eq_range']
    exact nodeChain_initNodesP n n 0 (by omega) hn
  · have hlen : ∀ s : StP, ReachableP nnest n s → s.nodes.length = n := by
      intro s hs
      induction hs with
      | init f sc tb => simp [nxsem_init_holdersP]
      | step op h ih =>
          rw [len_applyP]
          exact ih
    intro s hs
    calc countLiveP s ≤ s.nodes.length := List.length_filter_le _ _
      _ = n := hlen s hs

/-- Witness for C10 at n = 3: the initialized free list is the chain
[0, 1, 2] and the initial state's live count is within the bound. -/
theorem init_holders_free_list_exact_witness :
    NodeChain (nxsem_init_holdersP 3 (fun _ => 0) (fun _ => 0)
      (fun _ => tcbDefault)).nodes
      (nxsem_init_holdersP 3 (fun _ => 0) (fun _ => 0)
        (fun _ => tcbDefault)).freeHead (List.range 3) ∧
    countLiveP (nxsem_init_holdersP 3 (fun _ => 0) (fun _ => 0)
      (fun _ => tcbDefault)) ≤ 3 :=
  ⟨(init_holders_free_list_exact 3 0 (by decide) (fun _ => 0) (fun _ => 0)
      (fun _ => tcbDefault)).1.1,
   (init_holders_free_list_exact 3 0 (by decide) (fun _ => 0) (fun _ => 0)
      (fun _ => tcbDefault)).2 _
     (ReachableP.init (fun _ => 0) (fun _ => 0) (fun _ => tcbDefault))⟩

theorem nodeChain_headPtr {nd : List semholder_s} {h : Option Nat}
    {L : List Nat} (hc : NodeChain nd h L) : h = headPtr L := by
  cases hc with
  | nil => rfl
  | cons hlt hnext => rfl

theorem nodeChain_bound {nd : List semholder_s} {h : Option Nat}
    {L : List Nat} (hc : NodeChain nd h L) : ∀ i ∈ L, i < nd.length := by
  induction hc with
  | nil => intro i hi; exact absurd hi (List.not_mem_nil i)
  | cons hlt hnext ih =>
      intro j hj
      rcases List.mem_cons.mp hj with hji | hjL
      · subst hji; exact hlt
      · exact ih j hjL

theorem nodeChain_deterministic {nd : List semholder_s} {h : Option Nat}
    {L1 : List Nat} (hc1 : NodeChain nd h L1) :
    ∀ {L2 : List Nat}, NodeChain nd h L2 → L1 = L2 := by
  induction hc1 with
  | nil =>
      intro L2 hc2
      cases hc2 with
      | nil => rfl
  | cons hlt hnext ih =>
      intro L2 hc2
      cases hc2 with
      | cons hlt2 hnext2 => rw [ih hnext2]

theorem chainFrom_eq_of_nodeChain {nd : List semholder_s} {h : Option Nat}
    {L : List Nat} (hc : NodeChain nd h L) :
    ∀ fuel : Nat, L.length ≤ fuel → chainFrom nd fuel h = L := by
  induction hc with
  | nil =>
      intro fuel _
      cases fuel <;> rfl
  | cons hlt hnext ih =>
      intro fuel hfuel
      cases fuel with
      | zero => simp at hfuel
      | succ f =>
          show chainFrom nd (f + 1) (some _) = _
      
          rw [chainFrom]
          rw [ih f (by simpa using hfuel)]

theorem nodeChain_length_le {nd : List semholder_s} {h : Option Nat}
    {L : List Nat} (hc : NodeChain nd h L) (hnd : L.Nodup) :
    L.length ≤ nd.length := by
  have hsub : L ⊆ List.range nd.length := by
    intro i hi
    exact List.mem_range.mpr (nodeChain_bound hc i hi)
  calc L.length ≤ (List.range nd.length).length :=
        (List.subperm_of_subset hnd hsub).length_le
    _ = nd.length := List.length_range _

/-- The canonical chain function agrees with any genuine chain. -/
theorem theChain_eq {s : StP} {k : Nat} {L : List Nat}
    (hc : NodeChain s.nodes (s.sems k).hhead L) (hnd : L.Nodup) :
    theChain s k = L :=
  chainFrom_eq_of_nodeChain hc _ (nodeChain_length_le hc hnd)

theorem theFree_eq {s : StP} {F : List Nat}
    (hc : NodeChain s.nodes s.freeHead F) (hnd : F.Nodup) :
    theFree s = F :=
  chainFrom_eq_of_nodeChain hc _ (nodeChain_length_le hc hnd)

/-- A chain is insensitive to node edits that keep the `flink` of every
chain member (and the pool size). -/
theorem nodeChain_of_flink_eq {nd nd' : List semholder_s}
    (hlen : nd'.length = nd.length) :
    ∀ {h : Option Nat} {L : List Nat}, NodeChain nd h L →
      (∀ j ∈ L, (nd'.getD j {}).flink = (nd.getD j {}).flink) →
      NodeChain nd' h L := by
  intro h L hc
  induction hc with
  | nil => intro _; exact NodeChain.nil
  | cons hlt hnext ih =>
      intro hagree
      refine NodeChain.cons (by omega) ?_
      rw [hagree _ (List.mem_cons_self _ _)]
      exact ih fun j hj => hagree j (List.mem_cons_of_mem _ hj)

/-- Decomposing a chain at a member: the suffix from the member is
itself a chain, and the member's `flink` points at the rest. -/
theorem nodeChain_append_elim {nd : List semholder_s} {i : Nat}
    {B : List Nat} :
    ∀ (A : List Nat) (h : Option Nat), NodeChain nd h (A ++ i :: B) →
      i < nd.length ∧ (nd.getD i {}).flink = headPtr B ∧
      NodeChain nd (headPtr B) B := by
  intro A
  induction A with
  | nil =>
      intro h hc
      cases hc with
      | cons hlt hnext =>
          refine ⟨hlt, nodeChain_headPtr hnext, ?_⟩
          rw [← nodeChain_headPtr hnext]
          exact hnext
  | cons a A' ih =>
      intro h hc
      cases hc with
      | cons hlt hnext => exact ih _ hnext

/-- The prev/curr scan of `nxsem_freeholder` finds the target on its
chain and reports the preceding node (`prev` for an empty prefix). -/
theorem freeScan_spec (s : StP) (i : Nat) {B : List Nat} :
    ∀ (A : List Nat) (p : Option Nat) (cur : Option Nat) (fuel : Nat),
      NodeChain s.nodes cur (A ++ i :: B) → i ∉ A →
      (A ++ i :: B).length ≤ fuel →
      freeScan s i fuel p cur =
        some (match A.getLast? with
          | none => p
          | some a => some a) := by
  intro A
  induction A with
  | nil =>
      intro p cur fuel hc _ hfuel
      cases hc with
      | cons hlt hnext =>
          cases fuel with
          | zero => simp at hfuel
          | succ f =>
              show freeScan s i (f + 1) p (some i) = _
              rw [freeScan]
              simp
  | cons a A' ih =>
      intro p cur fuel hc hnA hfuel
      cases hc with
      | cons hlt hnext =>
          cases fuel with
          | zero => simp at hfuel
          | succ f =>
              have hai : a ≠ i := by
                intro hcon
                exact hnA (by rw [hcon]; exact List.mem_cons_self _ _)
              show freeScan s i (f + 1) p (some a) = _
              rw [freeScan]
              rw [if_neg hai]
              have hrec := ih (some a) ((getNodeP s a).flink) f hnext
                (fun hmem => hnA (List.mem_cons_of_mem _ hmem))
                (by simp at hfuel ⊢; omega)
              rw [hrec]
              cases hA' : A' with
              | nil => simp
              | cons c A'' =>
                  cases hg : (c :: A'').getLast? with
                  | none =>
                      rw [List.getLast?_eq_none_iff] at hg
                      exact List.noConfusion hg
                  | some x => rw [List.getLast?_cons_cons, hg]

/-- Rerouting a chain around a removed member: when only the
predecessor's `flink` is redirected to the removed member's successor
(the removed member itself may be edited arbitrarily, and all other
chain members keep their `flink`), the chain with the member dropped is
again a chain, from the old head (or from the successor when the member
was the head). -/
theorem nodeChain_unlink {nd nd' : List semholder_s} {i : Nat}
    {B : List Nat} (hlen : nd'.length = nd.length) :
    ∀ (A : List Nat) (h : Option Nat),
      NodeChain nd h (A ++ i :: B) →
      (A ++ i :: B).Nodup →
      (∀ j ∈ A ++ B, A.getLast? ≠ some j →
        (nd'.getD j {}).flink = (nd.getD j {}).flink) →
      (∀ a, A.getLast? = some a → (nd'.getD a {}).flink = headPtr B) →
      NodeChain nd' (if A = [] then headPtr B else h) (A ++ B) := by
  intro A
  induction A with
  | nil =>
      intro h hc _ hAgree _
      simp only [if_pos rfl, List.nil_append]
      obtain ⟨_, _, hB⟩ := nodeChain_append_elim [] h hc
      exact nodeChain_of_flink_eq hlen hB
        (fun j hj => hAgree j (by simpa using hj) (by simp))
  | cons a A' ih =>
      intro h hc hND hAgree hLast
      cases hc with
      | cons hlt hnext =>
          have hnm : a ∉ A' ++ i :: B := (List.nodup_cons.mp hND).1
          have haB : a ∉ B := fun hcon =>
            hnm (List.mem_append.mpr (Or.inr (List.mem_cons_of_mem _ hcon)))
          have haA' : a ∉ A' := fun hcon =>
            hnm (List.mem_append.mpr (Or.inl hcon))
          simp only [List.cons_ne_nil, if_false, List.cons_append]
          cases hA' : A' with
          | nil =>
              subst hA'
              have hfa : (nd'.getD a {}).flink = headPtr B :=
                hLast a (by simp)
              refine NodeChain.cons (by omega) ?_
              rw [hfa]
              obtain ⟨_, _, hB⟩ := nodeChain_append_elim [] _ hnext
              exact nodeChain_of_flink_eq hlen hB
                (fun j hj => hAgree j
                  (List.mem_append.mpr (Or.inr hj))
                  (by
                    simp only [List.getLast?_singleton, ne_eq,
                      Option.some.injEq]
                    intro hcon
                    exact haB (hcon ▸ hj)))
          | cons c A'' =>
              subst hA'
              have hlastne : (a :: c :: A'').getLast? ≠ some a := by
                rw [List.getLast?_cons_cons]
                intro hcon
                exact haA' (List.mem_of_mem_getLast? hcon)
              have hfa : (nd'.getD a {}).flink = (nd.getD a {}).flink :=
                hAgree a (by simp) hlastne
              refine NodeChain.cons (by omega) ?_
              have hih := ih ((nd.getD a {}).flink) hnext
                ((List.nodup_cons.mp hND).2)
                (fun j hj hne => hAgree j
                  (by
                    simp only [List.mem_append, List.mem_cons] at hj ⊢
                    rcases hj with hj | hj
                    · exact Or.inl (Or.inr hj)
                    · exact Or.inr hj)
                  (by rwa [List.getLast?_cons_cons]))
                (fun b hb => hLast b (by rwa [List.getLast?_cons_cons]))
              simp only [List.cons_ne_nil, if_false] at hih
              rw [hfa]
              exact hih

theorem getNodeP_set_same (s : StP) (i : Nat) (nd : semholder_s)
    (h : i < s.nodes.length) : getNodeP (setNodeP s i nd) i = nd := by
  unfold getNodeP setNodeP
  dsimp only
  rw [List.getD_eq_getElem?_getD, List.getElem?_set_eq_of_lt _ h]
  rfl

theorem getNodeP_set_ne (s : StP) (i j : Nat) (nd : semholder_s)
    (hne : j ≠ i) : getNodeP (setNodeP s i nd) j = getNodeP s j := by
  unfold getNodeP setNodeP
  dsimp only
  rw [List.getD_eq_getElem?_getD, List.getElem?_set_ne (fun hc => hne hc.symm),
    ← List.getD_eq_getElem?_getD]

@[simp] theorem getNodeP_addEvP (s : StP) (es : List Event) (j : Nat) :
    getNodeP (addEvP s es) j = getNodeP s j := rfl

@[simp] theorem getNodeP_updSemP (s : StP) (k : Nat) (f : sem_t_p → sem_t_p)
    (j : Nat) : getNodeP (updSemP s k f) j = getNodeP s j := rfl

@[simp] theorem getNodeP_updTcbP (s : StP) (t : Nat) (h : tcb_s) (j : Nat) :
    getNodeP (updTcbP s t h) j = getNodeP s j := rfl

theorem nodes_freeholderAux1 (s : StP) (i : Nat) :
    (freeholderAux1 s i).nodes =
      s.nodes.set i { getNodeP s i with htcb := none, counts := 0 } := rfl

@[simp] theorem sems_freeholderAux1 (s : StP) (i : Nat) :
    (freeholderAux1 s i).sems = s.sems := rfl

@[simp] theorem freeHead_freeholderAux1 (s : StP) (i : Nat) :
    (freeholderAux1 s i).freeHead = s.freeHead := rfl

@[simp] theorem tcbs_freeholderAux1 (s : StP) (i : Nat) :
    (freeholderAux1 s i).tcbs = s.tcbs := rfl

@[simp] theorem events_freeholderAux1 (s : StP) (i : Nat) :
    (freeholderAux1 s i).events =
      s.events ++ [.freeEntry (getNodeP s i).htcb] := rfl

theorem len_freeholderAux1 (s : StP) (i : Nat) :
    (freeholderAux1 s i).nodes.length = s.nodes.length := by
  rw [nodes_freeholderAux1]
  simp

theorem getNodeP_freeholderAux1_same (s : StP) (i : Nat)
    (h : i < s.nodes.length) :
    getNodeP (freeholderAux1 s i) i =
      { getNodeP s i with htcb := none, counts := 0 } := by
  show getNodeP (setNodeP s i _) i = _
  exact getNodeP_set_same s i _ h

theorem getNodeP_freeholderAux1_ne (s : StP) (i j : Nat) (hne : j ≠ i) :
    getNodeP (freeholderAux1 s i) j = getNodeP s j := by
  show getNodeP (setNodeP s i _) j = _
  exact getNodeP_set_ne s i j _ hne

/-- Branch form of `nxsem_freeholder`, pooled build, with the
field-clearing first half factored out. -/
theorem freeholderP_branch (s : StP) (k i : Nat) :
    nxsem_freeholderP s k i =
      (match freeScan (freeholderAux1 s i) i (freeholderAux1 s i).nodes.length
          none ((freeholderAux1 s i).sems k).hhead with
      | none => freeholderAux1 s i
      | some prev =>
          let s1 := freeholderAux1 s i
          let fl := (getNodeP s1 i).flink
          let s2 :=
            match prev with
            | some p => setNodeP s1 p { getNodeP s1 p with flink := fl }
            | none => updSemP s1 k fun m => { m with hhead := fl }
          let s3 := setNodeP s2 i { getNodeP s2 i with flink := s2.freeHead }
          { s3 with freeHead := some i }) := rfl

/-- Full effect of `nxsem_freeholder` (pooled build) on a well-formed
state: the freed node is removed from the semaphore's holder chain
(which remains a chain over the remaining members), becomes the new
free-list head with the old free chain intact behind it, its `htcb` and
`counts` are cleared, every other node keeps its `htcb` and `counts`,
nodes outside the holder chain keep their `flink`, other semaphores and
all tcbs are untouched, and the free is traced. -/
theorem freeholderP_chain (s : StP) (k i : Nat) {L F : List Nat}
    (hL : NodeChain s.nodes (s.sems k).hhead L) (hndL : L.Nodup)
    (hiL : i ∈ L)
    (hF : NodeChain s.nodes s.freeHead F)
    (hdisj : ∀ j ∈ F, j ∉ L) :
    NodeChain (nxsem_freeholderP s k i).nodes
      ((nxsem_freeholderP s k i).sems k).hhead (L.erase i) ∧
    NodeChain (nxsem_freeholderP s k i).nodes
      (nxsem_freeholderP s k i).freeHead (i :: F) ∧
    (nxsem_freeholderP s k i).nodes.length = s.nodes.length ∧
    (∀ j, j ≠ i →
      (getNodeP (nxsem_freeholderP s k i) j).htcb = (getNodeP s j).htcb ∧
      (getNodeP (nxsem_freeholderP s k i) j).counts =
        (getNodeP s j).counts) ∧
    (getNodeP (nxsem_freeholderP s k i) i).htcb = none ∧
    (getNodeP (nxsem_freeholderP s k i) i).counts = 0 ∧
    (∀ j, j ∉ L →
      (getNodeP (nxsem_freeholderP s k i) j).flink = (getNodeP s j).flink) ∧
    (∀ m, m ≠ k → (nxsem_freeholderP s k i).sems m = s.sems m) ∧
    (nxsem_freeholderP s k i).tcbs = s.tcbs ∧
    (nxsem_freeholderP s k i).events =
      s.events ++ [.freeEntry (getNodeP s i).htcb] := by
  obtain ⟨A, B, hLAB⟩ := List.append_of_mem hiL
  subst hLAB
  have hsplit := List.nodup_append.mp hndL
  have hiA : i ∉ A := fun hmem => (hsplit.2.2 hmem) (List.mem_cons_self i B)
  have hiB : i ∉ B := (List.nodup_cons.mp hsplit.2.1).1
  have hilt : i < s.nodes.length := nodeChain_bound hL i hiL
  obtain ⟨_, hflinki, hBchain⟩ := nodeChain_append_elim A _ hL
  have hc1 : NodeChain (freeholderAux1 s i).nodes
      ((freeholderAux1 s i).sems k).hhead (A ++ i :: B) := by
    refine nodeChain_of_flink_eq (len_freeholderAux1 s i) hL ?_
    intro j _
    by_cases hji : j = i
    · rw [hji]
      show (getNodeP (freeholderAux1 s i) i).flink = (getNodeP s i).flink
      rw [getNodeP_freeholderAux1_same s i hilt]
    · show (getNodeP (freeholderAux1 s i) j).flink = (getNodeP s j).flink
      rw [getNodeP_freeholderAux1_ne s i j hji]
  have hfuel : (A ++ i :: B).length ≤ (freeholderAux1 s i).nodes.length := by
    rw [len_freeholderAux1]
    exact nodeChain_length_le hL hndL
  have hscan := freeScan_spec (freeholderAux1 s i) i A none
    ((freeholderAux1 s i).sems k).hhead (freeholderAux1 s i).nodes.length
    hc1 hiA hfuel
  have hjF : ∀ j ∈ F, j ≠ i := fun j hj hc => hdisj j hj (hc ▸ hiL)
  cases hAl : A.getLast? with
  | none =>
      have hA : A = [] := List.getLast?_eq_none_iff.mp hAl
      subst hA
      rw [hAl] at hscan
      have hres : nxsem_freeholderP s k i =
          { setNodeP
              (updSemP (freeholderAux1 s i) k fun m =>
                { m with hhead := (getNodeP (freeholderAux1 s i) i).flink }) i
              { getNodeP
                  (updSemP (freeholderAux1 s i) k fun m =>
                    { m with hhead := (getNodeP (freeholderAux1 s i) i).flink })
                  i with
                flink := (updSemP (freeholderAux1 s i) k fun m =>
                  { m with hhead :=
                    (getNodeP (freeholderAux1 s i) i).flink }).freeHead } with
            freeHead := some i } := by
        rw [freeholderP_branch, hscan]
      have hlen' : (nxsem_freeholderP s k i).nodes.length = s.nodes.length := by
        rw [hres]
        show ((s.nodes.set i _).set i _).length = s.nodes.length
        simp
      have hnode_ne : ∀ j, j ≠ i →
          getNodeP (nxsem_freeholderP s k i) j = getNodeP s j := by
        intro j hji
        rw [hres]
        show getNodeP (setNodeP _ i _) j = _
        rw [getNodeP_set_ne _ i j _ hji, getNodeP_updSemP,
          getNodeP_freeholderAux1_ne s i j hji]
      have hnode_i : getNodeP (nxsem_freeholderP s k i) i =
          { getNodeP s i with
            htcb := none
            counts := 0
            flink := s.freeHead } := by
        rw [hres]
        show getNodeP (setNodeP _ i _) i = _
        rw [getNodeP_set_same _ i _ (by
          show i < ((s.nodes.set i _)).length
          simpa using hilt)]
        show { getNodeP (freeholderAux1 s i) i with flink := s.freeHead } = _
        rw [getNodeP_freeholderAux1_same s i hilt]
      have hsemk : ((nxsem_freeholderP s k i).sems k).hhead = headPtr B := by
        rw [hres]
        show (Function.update s.sems k
          { s.sems k with
            hhead := (getNodeP (freeholderAux1 s i) i).flink } k).hhead = _
        rw [Function.update_same]
        show (getNodeP (freeholderAux1 s i) i).flink = _
        rw [getNodeP_freeholderAux1_same s i hilt]
        exact hflinki
      refine ⟨?_, ?_, hlen', ?_, ?_, ?_, ?_, ?_, ?_, ?_⟩
      · simp only [List.nil_append, List.erase_cons_head]
        rw [hsemk]
        refine nodeChain_of_flink_eq hlen' hBchain ?_
        intro j hj
        show (getNodeP (nxsem_freeholderP s k i) j).flink =
          (getNodeP s j).flink
        rw [hnode_ne j (fun hc => hiB (hc ▸ hj))]
      · have hfh : (nxsem_freeholderP s k i).freeHead = some i := by
          rw [hres]
        rw [hfh]
        refine NodeChain.cons (by rw [hlen']; exact hilt) ?_
        have : ((nxsem_freeholderP s k i).nodes.getD i {}).flink =
            s.freeHead := by
          show (getNodeP (nxsem_freeholderP s k i) i).flink = _
          rw [hnode_i]
        rw [this]
        refine nodeChain_of_flink_eq hlen' hF ?_
        intro j hj
        show (getNodeP (nxsem_freeholderP s k i) j).flink =
          (getNodeP s j).flink
        rw [hnode_ne j (hjF j hj)]
      · intro j hji
        rw [hnode_ne j hji]
        exact ⟨rfl, rfl⟩
      · rw [hnode_i]
      · rw [hnode_i]
      · intro j hjL
        have hji : j ≠ i := fun hc => hjL (hc ▸ hiL)
        rw [hnode_ne j hji]
      · intro m hm
        rw [hres]
        show Function.update s.sems k _ m = s.sems m
        rw [Function.update_noteq hm]
      · rw [hres]
        rfl
      · rw [hres]
        show (s.events ++ [Event.freeEntry (getNodeP s i).htcb]) = _
        rfl
  | some a =>
      have haA : a ∈ A := List.mem_of_mem_getLast? hAl
      have hAne : A ≠ [] := List.ne_nil_of_mem haA
      have hai : a ≠ i := fun hc => hiA (hc ▸ haA)
      have halt : a < s.nodes.length :=
        nodeChain_bound hL a (List.mem_append.mpr (Or.inl haA))
      rw [hAl] at hscan
      have hres : nxsem_freeholderP s k i =
          { setNodeP
              (setNodeP (freeholderAux1 s i) a
                { getNodeP (freeholderAux1 s i) a with
                  flink := (getNodeP (freeholderAux1 s i) i).flink }) i
              { getNodeP
                  (setNodeP (freeholderAux1 s i) a
                    { getNodeP (freeholderAux1 s i) a with
                      flink := (getNodeP (freeholderAux1 s i) i).flink }) i with
                flink := (setNodeP (freeholderAux1 s i) a
                  { getNodeP (freeholderAux1 s i) a with
                    flink :=
                      (getNodeP (freeholderAux1 s i) i).flink }).freeHead } with
            freeHead := some i } := by
        rw [freeholderP_branch, hscan]
      have hlen' : (nxsem_freeholderP s k i).nodes.length = s.nodes.length := by
        rw [hres]
        show (((s.nodes.set i _).set a _).set i _).length = s.nodes.length
        simp
      have hnode_ne : ∀ j, j ≠ i → j ≠ a →
          getNodeP (nxsem_freeholderP s k i) j = getNodeP s j := by
        intro j hji hja
        rw [hres]
        show getNodeP (setNodeP _ i _) j = _
        rw [getNodeP_set_ne _ i j _ hji, getNodeP_set_ne _ a j _ hja,
          getNodeP_freeholderAux1_ne s i j hji]
      have hnode_a : getNodeP (nxsem_freeholderP s k i) a =
          { getNodeP s a with flink := headPtr B } := by
        rw [hres]
        show getNodeP (setNodeP _ i _) a = _
        rw [getNodeP_set_ne _ i a _ hai]
        rw [getNodeP_set_same _ a _ (by
          show a < ((s.nodes.set i _)).length
          simpa using halt)]
        rw [getNodeP_freeholderAux1_ne s i a hai,
          getNodeP_freeholderAux1_same s i hilt]
        show { getNodeP s a with flink := (getNodeP s i).flink } = _
        rw [show (getNodeP s i).flink = headPtr B from hflinki]
      have hnode_i : getNodeP (nxsem_freeholderP s k i) i =
          { getNodeP s i with
            htcb := none
            counts := 0
            flink := s.freeHead } := by
        rw [hres]
        show getNodeP (setNodeP _ i _) i = _
        rw [getNodeP_set_same _ i _ (by
          show i < (((s.nodes.set i _).set a _)).length
          simpa using hilt)]
        show { getNodeP (setNodeP (freeholderAux1 s i) a _) i with
          flink := s.freeHead } = _
        rw [getNodeP_set_ne _ a i _ (fun hc => hai hc.symm),
          getNodeP_freeholderAux1_same s i hilt]
      have hsems : (nxsem_freeholderP s k i).sems = s.sems := by
        rw [hres]
        rfl
      refine ⟨?_, ?_, hlen', ?_, ?_, ?_, ?_, ?_, ?_, ?_⟩
      · rw [List.erase_append_right _ hiA, List.erase_cons_head]
        rw [show ((nxsem_freeholderP s k i).sems k).hhead =
          (s.sems k).hhead from by rw [hsems]]
        have hun := nodeChain_unlink (i := i) (B := B) hlen' A
          ((s.sems k).hhead) hL hndL
          (fun j hj hne => by
            have hji : j ≠ i := fun hc => by
              rcases List.mem_append.mp hj with hj' | hj'
              · exact hiA (hc ▸ hj')
              · exact hiB (hc ▸ hj')
            have hja : j ≠ a := fun hc => hne (by rw [hAl, hc])
            show (getNodeP (nxsem_freeholderP s k i) j).flink =
              (getNodeP s j).flink
            rw [hnode_ne j hji hja])
          (fun b hb => by
            have hba : b = a := (Option.some.inj (hAl.symm.trans hb)).symm
            rw [hba]
            show (getNodeP (nxsem_freeholderP s k i) a).flink = headPtr B
            rw [hnode_a])
        rw [if_neg hAne] at hun
        exact hun
      · have hfh : (nxsem_freeholderP s k i).freeHead = some i := by
          rw [hres]
        rw [hfh]
        refine NodeChain.cons (by rw [hlen']; exact hilt) ?_
        have : ((nxsem_freeholderP s k i).nodes.getD i {}).flink =
            s.freeHead := by
          show (getNodeP (nxsem_freeholderP s k i) i).flink = _
          rw [hnode_i]
        rw [this]
        refine nodeChain_of_flink_eq hlen' hF ?_
        intro j hj
        have hjL : j ∉ A ++ i :: B := hdisj j hj
        have hja : j ≠ a := fun hc =>
          hjL (List.mem_append.mpr (Or.inl (hc ▸ haA)))
        show (getNodeP (nxsem_freeholderP s k i) j).flink =
          (getNodeP s j).flink
        rw [hnode_ne j (hjF j hj) hja]
      · intro j hji
        by_cases hja : j = a
        · subst hja
          rw [hnode_a]
          exact ⟨rfl, rfl⟩
        · rw [hnode_ne j hji hja]
          exact ⟨rfl, rfl⟩
      · rw [hnode_i]
      · rw [hnode_i]
      · intro j hjL
        have hji : j ≠ i := fun hc => hjL (hc ▸ hiL)
        have hja : j ≠ a := fun hc =>
          hjL (List.mem_append.mpr (Or.inl (hc ▸ haA)))
        rw [hnode_ne j hji hja]
      · intro m _
        rw [hsems]
      · rw [hres]
        rfl
      · rw [hres]
        show (s.events ++ [Event.freeEntry (getNodeP s i).htcb]) = _
        rfl

theorem findP_go_nil (s : StP) (x : Option Nat) :
    ∀ fuel, findP_go s x fuel none = none := by
  intro fuel
  cases fuel <;> rfl

/-- The `nxsem_recoverholders` sweep of `nxsem_destroyholder`, pooled
build: walking the semaphore's holder chain with the recover handler
frees every chain node (the chain members migrate, last-freed first,
onto the free list), empties the semaphore's holder list, and leaves the
pool size, the tcbs and the other semaphores unchanged. -/
theorem recover_go_spec (k : Nat) :
    ∀ (L : List Nat) (F : List Nat) (fuel : Nat) (s : StP),
      NodeChain s.nodes (s.sems k).hhead L → L.Nodup →
      NodeChain s.nodes s.freeHead F → F.Nodup →
      (∀ j ∈ F, j ∉ L) →
      (∀ j ∈ L, (getNodeP s j).htcb ≠ none) →
      L.length ≤ fuel →
      (foreachP_go (nxsem_recoverholdersP k) fuel (s.sems k).hhead s).1 = 0 ∧
      (((foreachP_go (nxsem_recoverholdersP k) fuel (s.sems k).hhead
        s).2).sems k).hhead = none ∧
      NodeChain ((foreachP_go (nxsem_recoverholdersP k) fuel (s.sems k).hhead
          s).2).nodes
        ((foreachP_go (nxsem_recoverholdersP k) fuel (s.sems k).hhead
          s).2).freeHead (L.reverse ++ F) ∧
      ((foreachP_go (nxsem_recoverholdersP k) fuel (s.sems k).hhead
        s).2).nodes.length = s.nodes.length ∧
      ((foreachP_go (nxsem_recoverholdersP k) fuel (s.sems k).hhead
        s).2).tcbs = s.tcbs ∧
      (∀ m, m ≠ k → ((foreachP_go (nxsem_recoverholdersP k) fuel
        (s.sems k).hhead s).2).sems m = s.sems m) := by
  intro L
  induction L with
  | nil =>
      intro F fuel s hL _ hF _ _ _ _
      have hh : (s.sems k).hhead = none := nodeChain_headPtr hL
      rw [hh]
      have hgo : foreachP_go (nxsem_recoverholdersP k) fuel none s = (0, s) := by
        cases fuel <;> rfl
      rw [hgo]
      exact ⟨rfl, hh, hF, rfl, rfl, fun m _ => rfl⟩
  | cons i L' ih =>
      intro F fuel s hL hndL hF hndF hdisj hlive hfuel
      cases fuel with
      | zero => simp at hfuel
      | succ f =>
          have hh : (s.sems k).hhead = some i := nodeChain_headPtr hL
          have hiL' : i ∉ L' := (List.nodup_cons.mp hndL).1
          have hflink : (getNodeP s i).flink = headPtr L' := by
            rw [hh] at hL
            cases hL with
            | cons hlt hnext => exact nodeChain_headPtr hnext
          have hchain := freeholderP_chain s k i hL hndL
            (List.mem_cons_self i L') hF hdisj
          obtain ⟨hc', hf', hlen', hkeep, _, _, _, hsems', htcbs', _⟩ := hchain
          rw [List.erase_cons_head] at hc'
          have hstep : foreachP_go (nxsem_recoverholdersP k) (f + 1)
              ((s.sems k).hhead) s =
              foreachP_go (nxsem_recoverholdersP k) f
                ((getNodeP s i).flink) (nxsem_freeholderP s k i) := by
            rw [hh]
            show (let next := (getNodeP s i).flink
              if (getNodeP s i).htcb ≠ none then
                let r := nxsem_recoverholdersP k i s
                if r.1 = 0 then foreachP_go (nxsem_recoverholdersP k) f next r.2
                else r
              else foreachP_go (nxsem_recoverholdersP k) f next s) = _
            rw [if_pos (hlive i (List.mem_cons_self i L'))]
            rfl
          have hhead' : ((nxsem_freeholderP s k i).sems k).hhead =
              headPtr L' := nodeChain_headPtr hc'
          have hih := ih (i :: F) f (nxsem_freeholderP s k i)
            (by rw [hhead', ← hflink] at hc' ⊢; exact hc')
            ((List.nodup_cons.mp hndL).2)
            hf'
            (List.nodup_cons.mpr ⟨fun hc => hdisj i hc
              (List.mem_cons_self i L'), hndF⟩)
            (by
              intro j hj
              rcases List.mem_cons.mp hj with hji | hjF
              · exact hji ▸ hiL'
              · exact fun hc => hdisj j hjF (List.mem_cons_of_mem _ hc))
            (by
              intro j hj
              have hji : j ≠ i := fun hc => hiL' (hc ▸ hj)
              rw [(hkeep j hji).1]
              exact hlive j (List.mem_cons_of_mem _ hj))
            (by simp at hfuel ⊢; omega)
          rw [hhead', ← hflink] at hih
          rw [hstep]
          refine ⟨hih.1, hih.2.1, ?_, ?_, ?_, ?_⟩
          · have := hih.2.2.1
            rw [List.reverse_cons, List.append_assoc]
            simpa using this
          · rw [hih.2.2.2.1, hlen']
          · rw [hih.2.2.2.2.1, htcbs']
          · intro m hm
            rw [hih.2.2.2.2.2 m hm, hsems' m hm]

/-- C7 (counterexample): in the inline (2-slot) build, after
`nxsem_destroyholder` clears both slots' `htcb`, `nxsem_findholder` with
the null handle returns slot 0 rather than no entry: the inline scan
compares the key against free slots too, so `find(sem, NULL)` never
reports `none` — refuting "find returns `none` for every argument x
(including the null/none handle)". -/
theorem destroyholderI_find_null_returns_slot :
    nxsem_findholderI ((nxsem_destroyholderI stEmptyI 1).sems 1) none =
      some 0 := by decide

/-- C7 (amended): in the pooled build, `nxsem_destroyholder` frees every
holder entry of the semaphore back onto the free list (given a
well-formed pool whose chain entries are occupied), after which
`nxsem_findholder` on that semaphore returns `none` for every key,
including the null handle; in the inline build, both slots' `htcb` are
cleared, and `nxsem_findholder` then returns `none` for every non-null
key — but not for the null key (see the counterexample). -/
theorem nxsem_destroyholder_empties_and_find_none (s : StP) (k : Nat)
    {L F : List Nat}
    (hL : NodeChain s.nodes (s.sems k).hhead L) (hndL : L.Nodup)
    (hF : NodeChain s.nodes s.freeHead F) (hndF : F.Nodup)
    (hdisj : ∀ j ∈ F, j ∉ L)
    (hlive : ∀ j ∈ L, (getNodeP s j).htcb ≠ none)
    (si : StI) (ki : Nat) :
    (∀ x, nxsem_findholderP (nxsem_destroyholderP s k) k x = none) ∧
    NodeChain (nxsem_destroyholderP s k).nodes
      (nxsem_destroyholderP s k).freeHead (L.reverse ++ F) ∧
    (∀ x, x ≠ none →
      nxsem_findholderI ((nxsem_destroyholderI si ki).sems ki) x = none) := by
  have hdnone : (s.sems k).hhead = none → nxsem_destroyholderP s k = s := by
    intro hh
    unfold nxsem_destroyholderP
    rw [hh]
  have hdsome : ∀ h0, (s.sems k).hhead = some h0 →
      nxsem_destroyholderP s k =
        (nxsem_foreachholderP
          (if (getNodeP s h0).flink = none then s
           else addEvP s [.assertFailed])
          k (nxsem_recoverholdersP k)).2 := by
    intro h0 hh
    unfold nxsem_destroyholderP
    rw [hh]
  have hP : ((nxsem_destroyholderP s k).sems k).hhead = none ∧
      NodeChain (nxsem_destroyholderP s k).nodes
        (nxsem_destroyholderP s k).freeHead (L.reverse ++ F) := by
    cases hh : (s.sems k).hhead with
    | none =>
        have hLnil : L = [] := by
          rw [hh] at hL
          cases hL
          rfl
        subst hLnil
        rw [hdnone hh]
        exact ⟨hh, by simpa using hF⟩
    | some h0 =>
        obtain ⟨s1, hds, hn1, hsm1, hfh1⟩ :
            ∃ s1, nxsem_destroyholderP s k =
                (nxsem_foreachholderP s1 k (nxsem_recoverholdersP k)).2 ∧
              s1.nodes = s.nodes ∧ s1.sems = s.sems ∧
              s1.freeHead = s.freeHead := by
          refine ⟨_, hdsome h0 hh, ?_⟩
          by_cases hdb : (getNodeP s h0).flink = none
          · rw [if_pos hdb]
            exact ⟨rfl, rfl, rfl⟩
          · rw [if_neg hdb]
            exact ⟨rfl, rfl, rfl⟩
        have hspec := recover_go_spec k L F s1.nodes.length s1
          (by rw [hn1, hsm1]; exact hL) hndL
          (by rw [hn1, hfh1]; exact hF) hndF hdisj
          (by
            intro j hj
            show (s1.nodes.getD j _).htcb ≠ none
            rw [hn1]
            exact hlive j hj)
          (by rw [hn1]; exact nodeChain_length_le hL hndL)
        rw [hds]
        exact ⟨hspec.2.1, hspec.2.2.1⟩
  refine ⟨?_, hP.2, ?_⟩
  · intro x
    unfold nxsem_findholderP
    rw [hP.1]
    exact findP_go_nil _ x _
  · intro x hx
    have hfind : ∀ m : sem_t_i, m.holder0.htcb = none →
        m.holder1.htcb = none → nxsem_findholderI m x = none := by
      intro m h0 h1
      unfold nxsem_findholderI
      rw [h0, h1, if_neg (fun hc => hx hc.symm),
        if_neg (fun hc => hx hc.symm)]
    unfold nxsem_destroyholderI
    dsimp only
    by_cases hdb : (si.sems ki).holder0.htcb = none ∨
        (si.sems ki).holder1.htcb = none
    · rw [if_pos hdb, sems_updSemI_same]
      exact hfind _ rfl rfl
    · rw [if_neg hdb, sems_updSemI_same]
      exact hfind _ rfl rfl

/-- C7 witness: a concrete pooled state with one held node and the empty
inline semaphore store. -/
theorem nxsem_destroyholder_empties_and_find_none_witness :
    nxsem_findholderP (nxsem_destroyholderP stFullP 1) 1 (some 7) = none ∧
    nxsem_findholderI ((nxsem_destroyholderI stEmptyI 1).sems 1)
      (some 7) = none :=
  ⟨(nxsem_destroyholder_empties_and_find_none stFullP 1 (L := [0]) (F := [])
      (NodeChain.cons (by decide) NodeChain.nil) (by decide)
      NodeChain.nil (by decide)
      (fun j hj => absurd hj (List.not_mem_nil j))
      (fun j hj => by
        have hj0 : j = 0 := by simpa using hj
        subst hj0
        decide)
      stEmptyI 1).1 (some 7),
   (nxsem_destroyholder_empties_and_find_none stFullP 1 (L := [0]) (F := [])
      (NodeChain.cons (by decide) NodeChain.nil) (by decide)
      NodeChain.nil (by decide)
      (fun j hj => absurd hj (List.not_mem_nil j))
      (fun j hj => by
        have hj0 : j = 0 := by simpa using hj
        subst hj0
        decide)
      stEmptyI 1).2.2 (some 7) (by decide)⟩

theorem events_freeholderP (s : StP) (k i : Nat) :
    (nxsem_freeholderP s k i).events =
      s.events ++ [.freeEntry (getNodeP s i).htcb] := by
  unfold nxsem_freeholderP
  dsimp only
  split
  · rfl
  · split <;> rfl

theorem boostTcb_alive (nnest semid rtcbPrio t : Nat) (h : tcb_s)
    (events : List Event) :
    (boostTcb nnest semid rtcbPrio t h events).1.alive = h.alive := by
  unfold boostTcb
  dsimp only
  repeat' split
  all_goals rfl

theorem boostTcb_setPriority_mem (nnest semid rtcbPrio t : Nat) (h : tcb_s)
    (events : List Event) (t' p : Nat) :
    Event.setPriority t' p ∈ (boostTcb nnest semid rtcbPrio t h events).2 →
      Event.setPriority t' p ∈ events ∨ t' = t := by
  unfold boostTcb
  dsimp only
  repeat' split
  all_goals intro hmem
  all_goals simp at hmem
  all_goals try exact Or.inl hmem
  all_goals try rcases hmem with hmem | hmem
  all_goals try exact Or.inl hmem
  all_goals simp_all

/-- Branch equation: the pooled boost handler on a stale (dead) holder
warns and frees the entry. -/
theorem boostholderprioP_stale (nnest rtcb k i : Nat) (s : StP) (t : Nat)
    (ht : (getNodeP s i).htcb = some t) (ha : ¬ (s.tcbs t).alive) :
    nxsem_boostholderprioP nnest rtcb k i s =
      (0, nxsem_freeholderP (addEvP s [.swarnEvent t]) k i) := by
  unfold nxsem_boostholderprioP
  rw [ht]
  simp [ha]

/-- Branch equation: the pooled boost handler on a live holder applies
`boostTcb` to that thread only. -/
theorem boostholderprioP_live (nnest rtcb k i : Nat) (s : StP) (t : Nat)
    (ht : (getNodeP s i).htcb = some t) (ha : (s.tcbs t).alive) :
    nxsem_boostholderprioP nnest rtcb k i s =
      (0, { updTcbP s t
          (boostTcb nnest k ((s.tcbs rtcb).sched_priority) t
            (s.tcbs t) s.events).1 with
        events := (boostTcb nnest k ((s.tcbs rtcb).sched_priority) t
          (s.tcbs t) s.events).2 }) := by
  unfold nxsem_boostholderprioP
  rw [ht]
  simp [ha]

theorem boostholderprioP_ret0 (nnest rtcb k i : Nat) (s : StP) :
    (nxsem_boostholderprioP nnest rtcb k i s).1 = 0 := by
  unfold nxsem_boostholderprioP
  dsimp only
  repeat' split
  all_goals rfl

/-- The boost walk of `nxsem_boost_priority`, pooled build, over a
well-formed pool whose semaphore chain is `P ++ L` with suffix `L` still
to visit: the walk returns 0 and preserves the pool size; every visited
entry held by a dead thread is freed (htcb cleared, counts zeroed) while
every entry held by a live thread keeps its `htcb` and `counts`; entries
off the suffix keep `htcb` and `counts`; dead threads' tcbs are never
touched; alive flags are preserved; and every `setPriority` event added
during the walk targets a thread that was alive at the start. -/
theorem boost_go_spec (nnest rtcb k : Nat) :
    ∀ (L P F : List Nat) (fuel : Nat) (s : StP) (r : Int × StP),
      NodeChain s.nodes (s.sems k).hhead (P ++ L) → (P ++ L).Nodup →
      NodeChain s.nodes s.freeHead F → F.Nodup →
      (∀ j ∈ F, j ∉ P ++ L) →
      (∀ j ∈ P ++ L, (getNodeP s j).htcb ≠ none) →
      L.length ≤ fuel →
      r = foreachP_go (nxsem_boostholderprioP nnest rtcb k) fuel
        (headPtr L) s →
      r.1 = 0 ∧
      (r.2).nodes.length = s.nodes.length ∧
      (∀ j ∈ L, ∀ t, (getNodeP s j).htcb = some t →
        (¬ (s.tcbs t).alive →
          (getNodeP r.2 j).htcb = none ∧ (getNodeP r.2 j).counts = 0) ∧
        ((s.tcbs t).alive →
          (getNodeP r.2 j).htcb = some t ∧
          (getNodeP r.2 j).counts = (getNodeP s j).counts)) ∧
      (∀ j, j ∉ L → (getNodeP r.2 j).htcb = (getNodeP s j).htcb ∧
        (getNodeP r.2 j).counts = (getNodeP s j).counts) ∧
      (∀ u, ¬ (s.tcbs u).alive → r.2.tcbs u = s.tcbs u) ∧
      (∀ u, (r.2.tcbs u).alive = (s.tcbs u).alive) ∧
      (∀ u p, Event.setPriority u p ∈ r.2.events →
        Event.setPriority u p ∈ s.events ∨ (s.tcbs u).alive) := by
  intro L
  induction L with
  | nil =>
      intro P F fuel s r _ _ _ _ _ _ _ hr
      have hgo : foreachP_go (nxsem_boostholderprioP nnest rtcb k) fuel
          (headPtr []) s = (0, s) := by
        cases fuel <;> rfl
      rw [hgo] at hr
      subst hr
      refine ⟨rfl, rfl, ?_, ?_, ?_, ?_, ?_⟩
      · intro j hj
        exact absurd hj (List.not_mem_nil j)
      · intro j _
        exact ⟨rfl, rfl⟩
      · intro u _
        rfl
      · intro u
        rfl
      · intro u p hm
        exact Or.inl hm
  | cons i L' ih =>
      intro P F fuel s r hchain hnd hF hndF hdisj hlive hfuel hr
      cases fuel with
      | zero => simp at hfuel
      | succ f =>
          have hiPL : i ∈ P ++ i :: L' :=
            List.mem_append.mpr (Or.inr (List.mem_cons_self i L'))
          have hiP : i ∉ P := fun hm =>
            (List.nodup_append.mp hnd).2.2 hm (List.mem_cons_self i L')
          have hiL' : i ∉ L' :=
            (List.nodup_cons.mp (List.nodup_append.mp hnd).2.1).1
          obtain ⟨hilt, hfl, _⟩ := nodeChain_append_elim P _ hchain
          have hfl2 : (getNodeP s i).flink = headPtr L' := hfl
          obtain ⟨t, ht⟩ : ∃ t, (getNodeP s i).htcb = some t :=
            Option.ne_none_iff_exists'.mp (hlive i hiPL)
          have hstep : foreachP_go (nxsem_boostholderprioP nnest rtcb k)
              (f + 1) (headPtr (i :: L')) s =
              foreachP_go (nxsem_boostholderprioP nnest rtcb k) f
                ((getNodeP s i).flink)
                ((nxsem_boostholderprioP nnest rtcb k i s).2) := by
            show (let next := (getNodeP s i).flink
              if (getNodeP s i).htcb ≠ none then
                let q := nxsem_boostholderprioP nnest rtcb k i s
                if q.1 = 0 then foreachP_go
                  (nxsem_boostholderprioP nnest rtcb k) f next q.2
                else q
              else foreachP_go (nxsem_boostholderprioP nnest rtcb k)
                f next s) = _
            rw [if_pos (hlive i hiPL)]
            dsimp only
            rw [if_pos (boostholderprioP_ret0 nnest rtcb k i s)]
          rw [hstep, hfl2] at hr
          by_cases ha : (s.tcbs t).alive
          · have hq2 : (nxsem_boostholderprioP nnest rtcb k i s).2 =
                { updTcbP s t
                    (boostTcb nnest k ((s.tcbs rtcb).sched_priority) t
                      (s.tcbs t) s.events).1 with
                  events := (boostTcb nnest k ((s.tcbs rtcb).sched_priority)
                    t (s.tcbs t) s.events).2 } :=
              congrArg Prod.snd
                (boostholderprioP_live nnest rtcb k i s t ht ha)
            have hn2 : ((nxsem_boostholderprioP nnest rtcb k i s).2).nodes =
                s.nodes := by
              rw [hq2]
              rfl
            have hsm2 : ((nxsem_boostholderprioP nnest rtcb k i s).2).sems =
                s.sems := by
              rw [hq2]
              rfl
            have hfh2 :
                ((nxsem_boostholderprioP nnest rtcb k i s).2).freeHead =
                s.freeHead := by
              rw [hq2]
              rfl
            have hnode2 : ∀ j,
                getNodeP ((nxsem_boostholderprioP nnest rtcb k i s).2) j =
                getNodeP s j := by
              intro j
              unfold getNodeP
              rw [hn2]
            have halive2 : ∀ u,
                ((((nxsem_boostholderprioP nnest rtcb k i s).2).tcbs u)).alive =
                (s.tcbs u).alive := by
              intro u
              rw [hq2]
              by_cases hu : u = t
              · rw [hu]
                show ((updTcbP s t _).tcbs t).alive = _
                rw [tcbs_updTcbP_same]
                exact boostTcb_alive nnest k _ t (s.tcbs t) s.events
              · show ((updTcbP s t _).tcbs u).alive = _
                rw [tcbs_updTcbP_ne s t u _ hu]
            have htcbne2 : ∀ u, u ≠ t →
                ((nxsem_boostholderprioP nnest rtcb k i s).2).tcbs u =
                s.tcbs u := by
              intro u hu
              rw [hq2]
              show (updTcbP s t _).tcbs u = _
              exact tcbs_updTcbP_ne s t u _ hu
            have hev2 : ((nxsem_boostholderprioP nnest rtcb k i s).2).events =
                (boostTcb nnest k ((s.tcbs rtcb).sched_priority) t
                  (s.tcbs t) s.events).2 := by
              rw [hq2]
            have happ : (P ++ [i]) ++ L' = P ++ i :: L' := by simp
            have hih := ih (P ++ [i]) F f
              ((nxsem_boostholderprioP nnest rtcb k i s).2) r
              (by rw [hn2, hsm2, happ]; exact hchain)
              (by rw [happ]; exact hnd)
              (by rw [hn2, hfh2]; exact hF)
              hndF
              (by
                intro j hj
                rw [happ]
                exact hdisj j hj)
              (by
                intro j hj
                rw [happ] at hj
                rw [hnode2 j]
                exact hlive j hj)
              (by simp at hfuel ⊢; omega) hr
            obtain ⟨hr1, hrlen, hrL, hrout, hrtcb, hralive, hrev⟩ := hih
            refine ⟨hr1, by rw [hrlen, hn2], ?_, ?_, ?_, ?_, ?_⟩
            · intro j hj t0 ht0
              rcases List.mem_cons.mp hj with hji | hjL'
              · rw [hji] at ht0 ⊢
                rw [ht] at ht0
                cases ht0
                refine ⟨fun hna => absurd ha hna, fun _ => ?_⟩
                have hout := hrout i hiL'
                rw [hout.1, hout.2, hnode2 i]
                exact ⟨ht, rfl⟩
              · have hthis := hrL j hjL' t0 (by rw [hnode2 j]; exact ht0)
                rw [halive2 t0, hnode2 j] at hthis
                exact hthis
            · intro j hj
              have hjL' : j ∉ L' := fun hc =>
                hj (List.mem_cons_of_mem _ hc)
              have hout := hrout j hjL'
              rw [hout.1, hout.2, hnode2 j]
              exact ⟨rfl, rfl⟩
            · intro u hu
              have hut : u ≠ t := fun hc => hu (hc ▸ ha)
              have hthis := hrtcb u (by rw [halive2 u]; exact hu)
              rw [hthis]
              exact htcbne2 u hut
            · intro u
              rw [hralive u, halive2 u]
            · intro u p hm
              rcases hrev u p hm with hm2 | hal
              · rw [hev2] at hm2
                rcases boostTcb_setPriority_mem nnest k _ t (s.tcbs t)
                    s.events u p hm2 with hm3 | hut
                · exact Or.inl hm3
                · rw [hut]
                  exact Or.inr ha
              · rw [halive2 u] at hal
                exact Or.inr hal
          · have hq2 : (nxsem_boostholderprioP nnest rtcb k i s).2 =
                nxsem_freeholderP (addEvP s [.swarnEvent t]) k i :=
              congrArg Prod.snd
                (boostholderprioP_stale nnest rtcb k i s t ht ha)
            have hchainW : NodeChain (addEvP s [.swarnEvent t]).nodes
                ((addEvP s [.swarnEvent t]).sems k).hhead (P ++ i :: L') :=
              hchain
            have hFW : NodeChain (addEvP s [.swarnEvent t]).nodes
                (addEvP s [.swarnEvent t]).freeHead F := hF
            have hfc := freeholderP_chain (addEvP s [.swarnEvent t]) k i
              hchainW hnd hiPL hFW hdisj
            obtain ⟨hc', hf', hlen', hkeep, hhi, hci, _, _, htc', hev'⟩ := hfc
            rw [List.erase_append_right _ hiP, List.erase_cons_head] at hc'
            have htcbs2 : (nxsem_freeholderP (addEvP s [.swarnEvent t]) k
                i).tcbs = s.tcbs := htc'
            have hev2 : (nxsem_freeholderP (addEvP s [.swarnEvent t]) k
                i).events = s.events ++
                  [.swarnEvent t, .freeEntry (some t)] := by
              rw [hev']
              show (s.events ++ [Event.swarnEvent t]) ++
                [Event.freeEntry (getNodeP s i).htcb] = _
              rw [ht, List.append_assoc]
              rfl
            rw [hq2] at hr
            have hih := ih P (i :: F) f
              (nxsem_freeholderP (addEvP s [.swarnEvent t]) k i) r hc'
              (List.Nodup.sublist
                (List.Sublist.append_left (List.sublist_cons_self i L') P)
                hnd)
              hf'
              (List.nodup_cons.mpr ⟨fun hc => hdisj i hc hiPL, hndF⟩)
              (by
                intro j hj
                rcases List.mem_cons.mp hj with hji | hjF
                · rw [hji]
                  intro hc
                  rcases List.mem_append.mp hc with hc2 | hc2
                  · exact hiP hc2
                  · exact hiL' hc2
                · intro hc
                  rcases List.mem_append.mp hc with hc2 | hc2
                  · exact hdisj j hjF (List.mem_append.mpr (Or.inl hc2))
                  · exact hdisj j hjF (List.mem_append.mpr
                      (Or.inr (List.mem_cons_of_mem _ hc2))))
              (by
                intro j hj
                have hji : j ≠ i := fun hc => by
                  rw [hc] at hj
                  rcases List.mem_append.mp hj with hc2 | hc2
                  · exact hiP hc2
                  · exact hiL' hc2
                rw [(hkeep j hji).1]
                show (getNodeP s j).htcb ≠ none
                rcases List.mem_append.mp hj with hc2 | hc2
                · exact hlive j (List.mem_append.mpr (Or.inl hc2))
                · exact hlive j (List.mem_append.mpr
                    (Or.inr (List.mem_cons_of_mem _ hc2))))
              (by simp at hfuel ⊢; omega)
              hr
            obtain ⟨hr1, hrlen, hrL, hrout, hrtcb, hralive, hrev⟩ := hih
            refine ⟨hr1, by rw [hrlen, hlen']; rfl, ?_, ?_, ?_, ?_, ?_⟩
            · intro j hj t0 ht0
              rcases List.mem_cons.mp hj with hji | hjL'
              · rw [hji] at ht0 ⊢
                rw [ht] at ht0
                cases ht0
                refine ⟨fun _ => ?_, fun hal => absurd hal ha⟩
                have hout := hrout i hiL'
                rw [hout.1, hout.2, hhi, hci]
                exact ⟨rfl, rfl⟩
              · have hji : j ≠ i := fun hc => hiL' (hc ▸ hjL')
                have hkj := hkeep j hji
                have hthis := hrL j hjL' t0 (by rw [hkj.1]; exact ht0)
                rw [htcbs2, hkj.2] at hthis
                exact hthis
            · intro j hj
              have hji : j ≠ i := fun hc =>
                hj (hc ▸ List.mem_cons_self i L')
              have hjL' : j ∉ L' := fun hc =>
                hj (List.mem_cons_of_mem _ hc)
              have hkj := hkeep j hji
              have hout := hrout j hjL'
              rw [hout.1, hout.2, hkj.1, hkj.2]
              exact ⟨rfl, rfl⟩
            · intro u hu
              have hthis := hrtcb u (by rw [htcbs2]; exact hu)
              rw [hthis, htcbs2]
            · intro u
              rw [hralive u, htcbs2]
            · intro u p hm
              rcases hrev u p hm with hm2 | hal
              · rw [hev2] at hm2
                rcases List.mem_append.mp hm2 with hm3 | hm3
                · exact Or.inl hm3
                · simp at hm3
              · rw [htcbs2] at hal
                exact Or.inr hal

theorem getHolderI_setHolderI_same (m : sem_t_i) (i : Nat)
    (e : semholder_s) : getHolderI (setHolderI m i e) i = e := by
  unfold getHolderI setHolderI
  by_cases h : i = 0 <;> simp [h]

/-- C5: stale-holder recovery during boosting.  Pooled build, whole
call: over a well-formed pool, `nxsem_boost_priority` frees exactly the
entries whose holder thread is dead (their `htcb` cleared, `counts`
zeroed) while every entry of a live holder keeps its `htcb` and
`counts` (so freeing stale entries is the only recovery path); dead
threads' tcbs — their ledger included — are never touched; and every
`setPriority` issued during the call targets a thread that is alive.
Inline build, per entry: the handler on a slot held by a dead thread
returns 0 (iteration proceeds to the remaining holders), frees the
slot, leaves every tcb untouched, and adds only the warn and free-trace
events — in particular no `setPriority`. -/
theorem nxsem_boost_priority_stale_recovery (nnest rtcb k : Nat) (s : StP)
    {L F : List Nat}
    (hL : NodeChain s.nodes (s.sems k).hhead L) (hndL : L.Nodup)
    (hF : NodeChain s.nodes s.freeHead F) (hndF : F.Nodup)
    (hdisj : ∀ j ∈ F, j ∉ L)
    (hlive : ∀ j ∈ L, (getNodeP s j).htcb ≠ none)
    (si : StI) (ki ii ti : Nat)
    (hti : (getHolderI (si.sems ki) ii).htcb = some ti)
    (hsti : ¬ (si.tcbs ti).alive) :
    (∀ j ∈ L, ∀ t, (getNodeP s j).htcb = some t →
      (¬ (s.tcbs t).alive →
        (getNodeP (nxsem_boost_priorityP nnest rtcb k s) j).htcb = none ∧
        (getNodeP (nxsem_boost_priorityP nnest rtcb k s) j).counts = 0) ∧
      ((s.tcbs t).alive →
        (getNodeP (nxsem_boost_priorityP nnest rtcb k s) j).htcb = some t ∧
        (getNodeP (nxsem_boost_priorityP nnest rtcb k s) j).counts =
          (getNodeP s j).counts)) ∧
    (∀ u, ¬ (s.tcbs u).alive →
      (nxsem_boost_priorityP nnest rtcb k s).tcbs u = s.tcbs u) ∧
    (∀ u p,
      Event.setPriority u p ∈
        (nxsem_boost_priorityP nnest rtcb k s).events →
      Event.setPriority u p ∈ s.events ∨ (s.tcbs u).alive) ∧
    (nxsem_boostholderprioI nnest rtcb ki ii si).1 = 0 ∧
    (getHolderI (((nxsem_boostholderprioI nnest rtcb ki ii si).2).sems ki)
      ii).htcb = none ∧
    (getHolderI (((nxsem_boostholderprioI nnest rtcb ki ii si).2).sems ki)
      ii).counts = 0 ∧
    ((nxsem_boostholderprioI nnest rtcb ki ii si).2).tcbs = si.tcbs ∧
    ((nxsem_boostholderprioI nnest rtcb ki ii si).2).events =
      si.events ++ [.swarnEvent ti, .freeEntry (some ti)] := by
  have hhp : (s.sems k).hhead = headPtr L := nodeChain_headPtr hL
  have hspec := boost_go_spec nnest rtcb k L [] F s.nodes.length s
    (nxsem_foreachholderP s k (nxsem_boostholderprioP nnest rtcb k))
    hL hndL hF hndF hdisj hlive (nodeChain_length_le hL hndL)
    (by
      unfold nxsem_foreachholderP
      rw [hhp])
  obtain ⟨_, _, hrL, _, hrtcb, _, hrev⟩ := hspec
  have hqI : nxsem_boostholderprioI nnest rtcb ki ii si =
      (0, nxsem_freeholderI (addEvI si [.swarnEvent ti]) ki ii) := by
    unfold nxsem_boostholderprioI
    rw [hti]
    simp [hsti]
  have holdh :
      (getHolderI (((addEvI si [.swarnEvent ti]).sems ki)) ii).htcb =
        some ti := hti
  refine ⟨hrL, hrtcb, hrev, ?_, ?_, ?_, ?_, ?_⟩
  · rw [hqI]
  · rw [hqI]
    show (getHolderI ((nxsem_freeholderI (addEvI si [.swarnEvent ti]) ki
      ii).sems ki) ii).htcb = none
    unfold nxsem_freeholderI
    dsimp only
    rw [sems_addEvI, sems_updSemI_same, getHolderI_setHolderI_same]
  · rw [hqI]
    show (getHolderI ((nxsem_freeholderI (addEvI si [.swarnEvent ti]) ki
      ii).sems ki) ii).counts = 0
    unfold nxsem_freeholderI
    dsimp only
    rw [sems_addEvI, sems_updSemI_same, getHolderI_setHolderI_same]
  · rw [hqI]
    rfl
  · rw [hqI]
    show ((si.events ++ [Event.swarnEvent ti]) ++
      [Event.freeEntry
        (getHolderI ((addEvI si [.swarnEvent ti]).sems ki) ii).htcb]) = _
    rw [holdh, List.append_assoc]
    rfl

/-- C5 witness: the pooled pool with one node held by dead thread 7 has
that entry freed by the boost call, and the inline handler on such a
slot leaves every tcb untouched. -/
theorem nxsem_boost_priority_stale_recovery_witness :
    (getNodeP (nxsem_boost_priorityP 0 3 1 stStaleP) 0).htcb = none ∧
    ((nxsem_boostholderprioI 0 3 1 0 stStaleI).2).tcbs = stStaleI.tcbs :=
  ⟨(((nxsem_boost_priority_stale_recovery 0 3 1 stStaleP (L := [0])
      (F := []) (NodeChain.cons (by decide) NodeChain.nil) (by decide)
      NodeChain.nil (by decide)
      (fun j hj => absurd hj (List.not_mem_nil j))
      (fun j hj => by
        have hj0 : j = 0 := by simpa using hj
        rw [hj0]
        decide)
      stStaleI 1 0 7 (by decide) (by decide)).1 0 (by decide) 7
        (by decide)).1 (by decide)).1,
   (nxsem_boost_priority_stale_recovery 0 3 1 stStaleP (L := [0])
      (F := []) (NodeChain.cons (by decide) NodeChain.nil) (by decide)
      NodeChain.nil (by decide)
      (fun j hj => absurd hj (List.not_mem_nil j))
      (fun j hj => by
        have hj0 : j = 0 := by simpa using hj
        rw [hj0]
        decide)
      stStaleI 1 0 7 (by decide) (by decide)).2.2.2.2.2.2.1⟩


theorem restoreTcb_events (nnest semid t : Nat) (ds : Bool) (h : tcb_s)
    (ev : List Event) :
    ∃ d, (restoreTcb nnest semid t ds h ev).2 = ev ++ d ∧
      ∀ u, Event.restoreCall u ∉ d := by
  unfold restoreTcb
  dsimp only
  repeat' split
  all_goals first
  | exact ⟨_, rfl, by simp⟩
  | exact ⟨[], by simp, by simp⟩

theorem restoreholderprioP_events (nnest k t : Nat) (s : StP) :
    ∃ d, (((nxsem_restoreholderprioP nnest k t s).2)).events =
      s.events ++ Event.restoreCall t :: d ∧
      ∀ u, Event.restoreCall u ∉ d := by
  unfold nxsem_restoreholderprioP
  dsimp only
  split
  · split
    · rename_i i heq
      refine ⟨[.swarnEvent t, .freeEntry (getNodeP s i).htcb], ?_, by simp⟩
      show (nxsem_freeholderP (addEvP (addEvP s [.restoreCall t])
        [.swarnEvent t]) k i).events = _
      rw [events_freeholderP]
      simp
    · exact ⟨[.swarnEvent t], by simp, by simp⟩
  · split
    · obtain ⟨d, hd, hnd⟩ := restoreTcb_events nnest k t _
        ((addEvP s [.restoreCall t]).tcbs t)
        (addEvP s [.restoreCall t]).events
      refine ⟨d, ?_, hnd⟩
      show (restoreTcb nnest k t _ _ _).2 = _
      rw [hd]
      simp [addEvP]
    · exact ⟨[], by simp, by simp⟩

theorem restoreholderprioI_events (nnest k t : Nat) (s : StI) :
    ∃ d, (((nxsem_restoreholderprioI nnest k t s).2)).events =
      s.events ++ Event.restoreCall t :: d ∧
      ∀ u, Event.restoreCall u ∉ d := by
  unfold nxsem_restoreholderprioI
  dsimp only
  split
  · split
    · rename_i i heq
      refine ⟨[.swarnEvent t,
        .freeEntry (getHolderI (s.sems k) i).htcb], ?_, by simp⟩
      show (nxsem_freeholderI (addEvI (addEvI s [.restoreCall t])
        [.swarnEvent t]) k i).events = _
      unfold nxsem_freeholderI
      dsimp only
      show ((addEvI (addEvI s [.restoreCall t]) [.swarnEvent t]).events ++
        [Event.freeEntry (getHolderI ((addEvI (addEvI s [.restoreCall t])
          [.swarnEvent t]).sems k) i).htcb]) = _
      simp [addEvI]
    · exact ⟨[.swarnEvent t], by simp, by simp⟩
  · split
    · obtain ⟨d, hd, hnd⟩ := restoreTcb_events nnest k t _
        ((addEvI s [.restoreCall t]).tcbs t)
        (addEvI s [.restoreCall t]).events
      refine ⟨d, ?_, hnd⟩
      show (restoreTcb nnest k t _ _ _).2 = _
      rw [hd]
      simp [addEvI]
    · exact ⟨[], by simp, by simp⟩

/-- Event-trace composition over the pooled `foreach` walk: any
per-entry event guarantee of the handler lifts to the whole walk. -/
theorem foreachP_go_events (handler : Nat → StP → Int × StP)
    (Pr : Event → Prop)
    (hstep : ∀ i s, ∃ d, ((handler i s).2).events = s.events ++ d ∧
      ∀ e ∈ d, Pr e) :
    ∀ (fuel : Nat) (cur : Option Nat) (s : StP),
      ∃ d, ((foreachP_go handler fuel cur s).2).events = s.events ++ d ∧
        ∀ e ∈ d, Pr e := by
  intro fuel
  induction fuel with
  | zero =>
      intro cur s
      cases cur with
      | none => exact ⟨[], by simp [foreachP_go], by simp⟩
      | some i => exact ⟨[], by simp [foreachP_go], by simp⟩
  | succ fuel ih =>
      intro cur s
      cases cur with
      | none => exact ⟨[], by simp [foreachP_go], by simp⟩
      | some i =>
          by_cases hht : (getNodeP s i).htcb = none
          · have hgo : foreachP_go handler (fuel + 1) (some i) s =
                foreachP_go handler fuel (getNodeP s i).flink s := by
              simp [foreachP_go, hht]
            rw [hgo]
            exact ih _ s
          · by_cases hr : (handler i s).1 = 0
            · have hgo : foreachP_go handler (fuel + 1) (some i) s =
                  foreachP_go handler fuel (getNodeP s i).flink
                    (handler i s).2 := by
                simp [foreachP_go, hht, hr]
              rw [hgo]
              obtain ⟨d1, hd1, hp1⟩ := hstep i s
              obtain ⟨d2, hd2, hp2⟩ := ih ((getNodeP s i).flink)
                (handler i s).2
              refine ⟨d1 ++ d2, ?_, ?_⟩
              · rw [hd2, hd1, List.append_assoc]
              · intro e he
                rcases List.mem_append.mp he with he | he
                · exact hp1 e he
                · exact hp2 e he
            · have hgo : foreachP_go handler (fuel + 1) (some i) s =
                  handler i s := by
                simp [foreachP_go, hht, hr]
              rw [hgo]
              exact hstep i s

/-- Event-trace composition over the inline two-slot `foreach`. -/
theorem foreachI_events (k : Nat) (handler : Nat → StI → Int × StI)
    (Pr : Event → Prop)
    (hstep : ∀ i s, ∃ d, ((handler i s).2).events = s.events ++ d ∧
      ∀ e ∈ d, Pr e) (s : StI) :
    ∃ d, ((nxsem_foreachholderI s k handler).2).events = s.events ++ d ∧
      ∀ e ∈ d, Pr e := by
  unfold nxsem_foreachholderI
  dsimp only
  by_cases h0 : (s.sems k).holder0.htcb ≠ none
  · rw [if_pos h0]
    obtain ⟨d1, hd1, hp1⟩ := hstep 0 s
    split
    · obtain ⟨d2, hd2, hp2⟩ := hstep 1 (handler 0 s).2
      refine ⟨d1 ++ d2, ?_, ?_⟩
      · rw [hd2, hd1, List.append_assoc]
      · intro e he
        rcases List.mem_append.mp he with he | he
        · exact hp1 e he
        · exact hp2 e he
    · exact ⟨d1, hd1, hp1⟩
  · rw [if_neg h0]
    split
    · exact hstep 1 s
    · exact ⟨[], by simp, by simp⟩

theorem findandfreeholderP_events (s : StP) (k : Nat) (x : Option Nat) :
    ∃ d, (nxsem_findandfreeholderP s k x).events = s.events ++ d ∧
      ∀ u, Event.restoreCall u ∉ d := by
  unfold nxsem_findandfreeholderP
  split
  · split
    · rename_i i heq _
      refine ⟨[.freeEntry (getNodeP s i).htcb], ?_, by simp⟩
      rw [events_freeholderP]
    · exact ⟨[], by simp, by simp⟩
  · exact ⟨[], by simp, by simp⟩

theorem findandfreeholderI_events (s : StI) (k : Nat) (x : Option Nat) :
    ∃ d, (nxsem_findandfreeholderI s k x).events = s.events ++ d ∧
      ∀ u, Event.restoreCall u ∉ d := by
  unfold nxsem_findandfreeholderI
  split
  · split
    · rename_i i heq _
      refine ⟨[.freeEntry (getHolderI (s.sems k) i).htcb], ?_, by simp⟩
      show (nxsem_freeholderI s k i).events = _
      rfl
    · exact ⟨[], by simp, by simp⟩
  · exact ⟨[], by simp, by simp⟩

theorem othersP_events (nnest rtcb k : Nat) (i : Nat) (s : StP) :
    ∃ d, ((nxsem_restoreholderprio_othersP nnest rtcb k i s).2).events =
      s.events ++ d ∧
      ∀ e ∈ d, ∀ u, e = Event.restoreCall u → u ≠ rtcb := by
  unfold nxsem_restoreholderprio_othersP
  split
  · rename_i hne
    split
    · rename_i t heq
      obtain ⟨d, hd, hnd⟩ := restoreholderprioP_events nnest k t s
      refine ⟨Event.restoreCall t :: d, by simpa using hd, ?_⟩
      intro e he u heu
      rcases List.mem_cons.mp he with he2 | he2
      · have htu : t = u := by injection (he2.symm.trans heu)
        rw [← htu]
        intro hc
        exact hne (by rw [heq, hc])
      · exact absurd (heu ▸ he2) (hnd u)
    · exact ⟨[], by simp, by simp⟩
  · exact ⟨[], by simp, by simp⟩

theorem selfP_events (nnest rtcb k : Nat) (i : Nat) (s : StP) :
    ∃ d, ((nxsem_restoreholderprio_selfP nnest rtcb k i s).2).events =
      s.events ++ d ∧
      ∀ e ∈ d, ∀ u, e = Event.restoreCall u → u = rtcb := by
  unfold nxsem_restoreholderprio_selfP
  split
  · obtain ⟨d, hd, hnd⟩ := restoreholderprioP_events nnest k rtcb s
    refine ⟨Event.restoreCall rtcb :: d, by simpa using hd, ?_⟩
    intro e he u heu
    rcases List.mem_cons.mp he with he2 | he2
    · have htu : rtcb = u := by injection (he2.symm.trans heu)
      exact htu.symm
    · exact absurd (heu ▸ he2) (hnd u)
  · exact ⟨[], by simp, by simp⟩

theorem othersI_events (nnest rtcb k : Nat) (i : Nat) (s : StI) :
    ∃ d, ((nxsem_restoreholderprio_othersI nnest rtcb k i s).2).events =
      s.events ++ d ∧
      ∀ e ∈ d, ∀ u, e = Event.restoreCall u → u ≠ rtcb := by
  unfold nxsem_restoreholderprio_othersI
  split
  · rename_i hne
    split
    · rename_i t heq
      obtain ⟨d, hd, hnd⟩ := restoreholderprioI_events nnest k t s
      refine ⟨Event.restoreCall t :: d, by simpa using hd, ?_⟩
      intro e he u heu
      rcases List.mem_cons.mp he with he2 | he2
      · have htu : t = u := by injection (he2.symm.trans heu)
        rw [← htu]
        intro hc
        exact hne (by rw [heq, hc])
      · exact absurd (heu ▸ he2) (hnd u)
    · exact ⟨[], by simp, by simp⟩
  · exact ⟨[], by simp, by simp⟩

theorem selfI_events (nnest rtcb k : Nat) (i : Nat) (s : StI) :
    ∃ d, ((nxsem_restoreholderprio_selfI nnest rtcb k i s).2).events =
      s.events ++ d ∧
      ∀ e ∈ d, ∀ u, e = Event.restoreCall u → u = rtcb := by
  unfold nxsem_restoreholderprio_selfI
  split
  · obtain ⟨df, hdf, hndf⟩ := findandfreeholderI_events s k (some rtcb)
    obtain ⟨d, hd, hnd⟩ := restoreholderprioI_events nnest k rtcb
      (nxsem_findandfreeholderI s k (some rtcb))
    refine ⟨df ++ Event.restoreCall rtcb :: d, ?_, ?_⟩
    · show ((nxsem_restoreholderprioI nnest k rtcb
        (nxsem_findandfreeholderI s k (some rtcb))).2).events = _
      rw [hd, hdf, List.append_assoc]
    · intro e he u heu
      rcases List.mem_append.mp he with he2 | he2
      · exact absurd (heu ▸ he2) (hndf u)
      · rcases List.mem_cons.mp he2 with he3 | he3
        · have htu : rtcb = u := by injection (he3.symm.trans heu)
          exact htu.symm
        · exact absurd (heu ▸ he3) (hnd u)
  · exact ⟨[], by simp, by simp⟩

theorem findP_go_finds (s : StP) (x : Option Nat) :
    ∀ (fuel : Nat) (cur : Option Nat) (i : Nat),
      findP_go s x fuel cur = some i → (getNodeP s i).htcb = x := by
  intro fuel
  induction fuel with
  | zero =>
      intro cur i h
      cases cur <;> simp [findP_go] at h
  | succ f ih =>
      intro cur i h
      cases cur with
      | none => simp [findP_go] at h
      | some j =>
          rw [findP_go] at h
          by_cases hj : (getNodeP s j).htcb = x
          · rw [if_pos hj] at h
            have hji : j = i := Option.some.inj h
            rw [← hji]
            exact hj
          · rw [if_neg hj] at h
            exact ih _ i h

/-- `nxsem_freeholder` always clears the freed in-range node, with or
without a well-formed chain. -/
theorem freeholderP_clears (s : StP) (k i : Nat)
    (hilt : i < s.nodes.length) :
    (getNodeP (nxsem_freeholderP s k i) i).htcb = none ∧
    (getNodeP (nxsem_freeholderP s k i) i).counts = 0 := by
  have haux : i < (freeholderAux1 s i).nodes.length := by
    rw [len_freeholderAux1]
    exact hilt
  cases hscan : freeScan (freeholderAux1 s i) i
      (freeholderAux1 s i).nodes.length none
      ((freeholderAux1 s i).sems k).hhead with
  | none =>
      have hres : nxsem_freeholderP s k i = freeholderAux1 s i := by
        rw [freeholderP_branch, hscan]
      rw [hres, getNodeP_freeholderAux1_same s i hilt]
      exact ⟨rfl, rfl⟩
  | some prev =>
      cases prev with
      | none =>
          have hres : nxsem_freeholderP s k i =
              { setNodeP (updSemP (freeholderAux1 s i) k fun m =>
                  { m with hhead := (getNodeP (freeholderAux1 s i) i).flink })
                  i
                  { getNodeP (updSemP (freeholderAux1 s i) k fun m =>
                      { m with hhead :=
                        (getNodeP (freeholderAux1 s i) i).flink }) i with
                    flink := (updSemP (freeholderAux1 s i) k fun m =>
                      { m with hhead :=
                        (getNodeP (freeholderAux1 s i) i).flink }).freeHead }
                  with
                freeHead := some i } := by
            rw [freeholderP_branch, hscan]
          rw [hres]
          constructor
          · show (getNodeP (setNodeP _ i _) i).htcb = none
            rw [getNodeP_set_same _ i _ (by
              show i < ((s.nodes.set i _)).length
              simpa using hilt)]
            show (getNodeP (freeholderAux1 s i) i).htcb = none
            rw [getNodeP_freeholderAux1_same s i hilt]
          · show (getNodeP (setNodeP _ i _) i).counts = 0
            rw [getNodeP_set_same _ i _ (by
              show i < ((s.nodes.set i _)).length
              simpa using hilt)]
            show (getNodeP (freeholderAux1 s i) i).counts = 0
            rw [getNodeP_freeholderAux1_same s i hilt]
      | some p =>
          have hres : nxsem_freeholderP s k i =
              { setNodeP (setNodeP (freeholderAux1 s i) p
                  { getNodeP (freeholderAux1 s i) p with
                    flink := (getNodeP (freeholderAux1 s i) i).flink }) i
                  { getNodeP (setNodeP (freeholderAux1 s i) p
                      { getNodeP (freeholderAux1 s i) p with
                        flink := (getNodeP (freeholderAux1 s i) i).flink })
                      i with
                    flink := (setNodeP (freeholderAux1 s i) p
                      { getNodeP (freeholderAux1 s i) p with
                        flink :=
                          (getNodeP (freeholderAux1 s i) i).flink }).freeHead }
                  with
                freeHead := some i } := by
            rw [freeholderP_branch, hscan]
          rw [hres]
          by_cases hpi : p = i
          · rw [hpi]
            constructor
            · show (getNodeP (setNodeP _ i _) i).htcb = none
              rw [getNodeP_set_same _ i _ (by
                show i < ((s.nodes.set i _).set i _).length
                simpa using hilt)]
              show (getNodeP (setNodeP (freeholderAux1 s i) i _) i).htcb =
                none
              rw [getNodeP_set_same _ i _ haux]
              show (getNodeP (freeholderAux1 s i) i).htcb = none
              rw [getNodeP_freeholderAux1_same s i hilt]
            · show (getNodeP (setNodeP _ i _) i).counts = 0
              rw [getNodeP_set_same _ i _ (by
                show i < ((s.nodes.set i _).set i _).length
                simpa using hilt)]
              show (getNodeP (setNodeP (freeholderAux1 s i) i _) i).counts = 0
              rw [getNodeP_set_same _ i _ haux]
              show (getNodeP (freeholderAux1 s i) i).counts = 0
              rw [getNodeP_freeholderAux1_same s i hilt]
          · constructor
            · show (getNodeP (setNodeP _ i _) i).htcb = none
              rw [getNodeP_set_same _ i _ (by
                show i < ((s.nodes.set i _).set p _).length
                simpa using hilt)]
              show (getNodeP (setNodeP (freeholderAux1 s i) p _) i).htcb =
                none
              rw [getNodeP_set_ne _ p i _ (fun hc => hpi hc.symm)]
              show (getNodeP (freeholderAux1 s i) i).htcb = none
              rw [getNodeP_freeholderAux1_same s i hilt]
            · show (getNodeP (setNodeP _ i _) i).counts = 0
              rw [getNodeP_set_same _ i _ (by
                show i < ((s.nodes.set i _).set p _).length
                simpa using hilt)]
              show (getNodeP (setNodeP (freeholderAux1 s i) p _) i).counts = 0
              rw [getNodeP_set_ne _ p i _ (fun hc => hpi hc.symm)]
              show (getNodeP (freeholderAux1 s i) i).counts = 0
              rw [getNodeP_freeholderAux1_same s i hilt]

/-- `nxsem_findandfreeholder`, pooled build, leaves the found zero-count
entry cleared. -/
theorem findandfreeholderP_zero_clears (s1 : StP) (k : Nat)
    (x : Option Nat) (i : Nat)
    (hfind : nxsem_findholderP s1 k x = some i)
    (hc0 : (getNodeP s1 i).counts = 0) (hx : x ≠ none) :
    (getNodeP (nxsem_findandfreeholderP s1 k x) i).htcb = none ∧
    (getNodeP (nxsem_findandfreeholderP s1 k x) i).counts = 0 := by
  have hxv : (getNodeP s1 i).htcb = x :=
    findP_go_finds s1 x _ _ i hfind
  have hilt : i < s1.nodes.length := by
    by_contra hge
    push_neg at hge
    have hdef : getNodeP s1 i = {} := by
      unfold getNodeP
      exact List.getD_eq_default _ _ hge
    rw [hdef] at hxv
    exact hx hxv.symm
  have heq2 : nxsem_findandfreeholderP s1 k x = nxsem_freeholderP s1 k i := by
    unfold nxsem_findandfreeholderP
    rw [hfind]
    simp [hc0]
  rw [heq2]
  exact freeholderP_clears s1 k i hilt

/-- C4: two-pass restore ordering of `nxsem_restore_baseprio_task`.
With a waiter present (`stcb != NULL`), in both storage regimes the
trace grows by `d1 ++ d2` where every `restoreCall` in `d1` (the
others pass) targets a thread other than `rtcb` and every `restoreCall`
in `d2` (the self pass and the final free) targets `rtcb` itself: all
non-self holders are restored before any restore of `rtcb`.  In the
inline regime the self-pass handler on `rtcb`'s slot frees the slot
first when all counts are gone — the `freeEntry` for `rtcb` precedes
the `restoreCall rtcb` — then restores.  And for every `stcb`
(including `NULL`), the call ends by freeing `rtcb`'s zero-count entry:
inline, any slot still found for `rtcb` afterwards holds counts (under
slot uniqueness); pooled, the call is the final find-and-free for
`rtcb`, which leaves a found zero-count node cleared. -/
theorem nxsem_restore_baseprio_task_two_pass (nnest rtcb k : Nat)
    (stcb stcb2 : Option Nat) (hstcb : stcb ≠ none)
    (s : StI) (hu : UniqueHoldersI (s.sems k)) (sp : StP)
    (ss : StI) (ii : Nat) (hii : ii = 0 ∨ ii = 1)
    (hslot : (getHolderI (ss.sems k) ii).htcb = some rtcb)
    (huss : UniqueHoldersI (ss.sems k)) :
    (∃ d1 d2,
      (nxsem_restore_baseprio_taskI nnest rtcb stcb k s).events =
        s.events ++ d1 ++ d2 ∧
      (∀ u, Event.restoreCall u ∈ d1 → u ≠ rtcb) ∧
      (∀ u, Event.restoreCall u ∈ d2 → u = rtcb)) ∧
    (∃ d1 d2,
      (nxsem_restore_baseprio_taskP nnest rtcb stcb k sp).events =
        sp.events ++ d1 ++ d2 ∧
      (∀ u, Event.restoreCall u ∈ d1 → u ≠ rtcb) ∧
      (∀ u, Event.restoreCall u ∈ d2 → u = rtcb)) ∧
    (∃ drest,
      ((nxsem_restoreholderprio_selfI nnest rtcb k ii ss).2).events =
        ss.events ++
          (if (getHolderI (ss.sems k) ii).counts = 0 then
            [Event.freeEntry (some rtcb)] else []) ++
          Event.restoreCall rtcb :: drest ∧
      ∀ u, Event.restoreCall u ∉ drest) ∧
    (∀ i, nxsem_findholderI
        ((nxsem_restore_baseprio_taskI nnest rtcb stcb2 k s).sems k)
        (some rtcb) = some i →
      0 < (getHolderI ((nxsem_restore_baseprio_taskI nnest rtcb stcb2 k
        s).sems k) i).counts) ∧
    (∃ s1, nxsem_restore_baseprio_taskP nnest rtcb stcb2 k sp =
        nxsem_findandfreeholderP s1 k (some rtcb) ∧
      ∀ i, nxsem_findholderP s1 k (some rtcb) = some i →
        (getNodeP s1 i).counts = 0 →
        (getNodeP (nxsem_restore_baseprio_taskP nnest rtcb stcb2 k sp)
          i).htcb = none ∧
        (getNodeP (nxsem_restore_baseprio_taskP nnest rtcb stcb2 k sp)
          i).counts = 0) := by
  refine ⟨?_, ?_, ?_, ?_, ?_⟩
  · have heq : nxsem_restore_baseprio_taskI nnest rtcb stcb k s =
        nxsem_findandfreeholderI
          ((nxsem_foreachholderI ((nxsem_foreachholderI s k
            (nxsem_restoreholderprio_othersI nnest rtcb k)).2) k
            (nxsem_restoreholderprio_selfI nnest rtcb k)).2) k
          (some rtcb) := by
      unfold nxsem_restore_baseprio_taskI
      rw [if_pos hstcb]
    obtain ⟨d1, hd1, hp1⟩ := foreachI_events k
      (nxsem_restoreholderprio_othersI nnest rtcb k)
      (fun e => ∀ u, e = Event.restoreCall u → u ≠ rtcb)
      (fun i s' => othersI_events nnest rtcb k i s') s
    obtain ⟨d2a, hd2a, hp2a⟩ := foreachI_events k
      (nxsem_restoreholderprio_selfI nnest rtcb k)
      (fun e => ∀ u, e = Event.restoreCall u → u = rtcb)
      (fun i s' => selfI_events nnest rtcb k i s')
      ((nxsem_foreachholderI s k
        (nxsem_restoreholderprio_othersI nnest rtcb k)).2)
    obtain ⟨d2b, hd2b, hp2b⟩ := findandfreeholderI_events
      ((nxsem_foreachholderI ((nxsem_foreachholderI s k
        (nxsem_restoreholderprio_othersI nnest rtcb k)).2) k
        (nxsem_restoreholderprio_selfI nnest rtcb k)).2) k (some rtcb)
    refine ⟨d1, d2a ++ d2b, ?_, ?_, ?_⟩
    · rw [heq, hd2b, hd2a, hd1,
        List.append_assoc (s.events ++ d1) d2a d2b]
    · intro u hm
      exact hp1 _ hm u rfl
    · intro u hm
      rcases List.mem_append.mp hm with hm2 | hm2
      · exact hp2a _ hm2 u rfl
      · exact absurd hm2 (hp2b u)
  · have heq : nxsem_restore_baseprio_taskP nnest rtcb stcb k sp =
        nxsem_findandfreeholderP
          ((nxsem_foreachholderP ((nxsem_foreachholderP sp k
            (nxsem_restoreholderprio_othersP nnest rtcb k)).2) k
            (nxsem_restoreholderprio_selfP nnest rtcb k)).2) k
          (some rtcb) := by
      unfold nxsem_restore_baseprio_taskP
      rw [if_pos hstcb]
    obtain ⟨d1, hd1, hp1⟩ := foreachP_go_events
      (nxsem_restoreholderprio_othersP nnest rtcb k)
      (fun e => ∀ u, e = Event.restoreCall u → u ≠ rtcb)
      (fun i s' => othersP_events nnest rtcb k i s')
      sp.nodes.length ((sp.sems k).hhead) sp
    obtain ⟨d2a, hd2a, hp2a⟩ := foreachP_go_events
      (nxsem_restoreholderprio_selfP nnest rtcb k)
      (fun e => ∀ u, e = Event.restoreCall u → u = rtcb)
      (fun i s' => selfP_events nnest rtcb k i s')
      ((nxsem_foreachholderP sp k
        (nxsem_restoreholderprio_othersP nnest rtcb k)).2).nodes.length
      ((((nxsem_foreachholderP sp k
        (nxsem_restoreholderprio_othersP nnest rtcb k)).2).sems k).hhead)
      ((nxsem_foreachholderP sp k
        (nxsem_restoreholderprio_othersP nnest rtcb k)).2)
    obtain ⟨d2b, hd2b, hp2b⟩ := findandfreeholderP_events
      ((nxsem_foreachholderP ((nxsem_foreachholderP sp k
        (nxsem_restoreholderprio_othersP nnest rtcb k)).2) k
        (nxsem_restoreholderprio_selfP nnest rtcb k)).2) k (some rtcb)
    have hd1x : ((nxsem_foreachholderP sp k
        (nxsem_restoreholderprio_othersP nnest rtcb k)).2).events =
        sp.events ++ d1 := hd1
    have hd2ax : ((nxsem_foreachholderP ((nxsem_foreachholderP sp k
        (nxsem_restoreholderprio_othersP nnest rtcb k)).2) k
        (nxsem_restoreholderprio_selfP nnest rtcb k)).2).events =
        ((nxsem_foreachholderP sp k
          (nxsem_restoreholderprio_othersP nnest rtcb k)).2).events ++
          d2a := hd2a
    refine ⟨d1, d2a ++ d2b, ?_, ?_, ?_⟩
    · rw [heq, hd2b, hd2ax, hd1x,
        List.append_assoc (sp.events ++ d1) d2a d2b]
    · intro u hm
      exact hp1 _ hm u rfl
    · intro u hm
      rcases List.mem_append.mp hm with hm2 | hm2
      · exact hp2a _ hm2 u rfl
      · exact absurd hm2 (hp2b u)
  · have hffev : (nxsem_findandfreeholderI ss k (some rtcb)).events =
        ss.events ++
          (if (getHolderI (ss.sems k) ii).counts = 0 then
            [Event.freeEntry (some rtcb)] else []) := by
      rcases hii with hii0 | hii1
      · rw [hii0] at hslot ⊢
        have hslot0 : (ss.sems k).holder0.htcb = some rtcb := hslot
        have hfk : nxsem_findholderI (ss.sems k) (some rtcb) = some 0 := by
          unfold nxsem_findholderI
          rw [if_pos hslot0]
        unfold nxsem_findandfreeholderI
        rw [hfk]
        show (if (getHolderI (ss.sems k) 0).counts = 0 then
          nxsem_freeholderI ss k 0 else ss).events = _
        by_cases hc : (getHolderI (ss.sems k) 0).counts = 0
        · rw [if_pos hc, if_pos hc]
          show ss.events ++ [Event.freeEntry
            (getHolderI (ss.sems k) 0).htcb] = _
          rw [hslot]
        · rw [if_neg hc, if_neg hc]
          simp
      · rw [hii1] at hslot ⊢
        have hslot1 : (ss.sems k).holder1.htcb = some rtcb := hslot
        have h0ne : (ss.sems k).holder0.htcb ≠ some rtcb := by
          intro hc
          exact huss rtcb ⟨hc, hslot1⟩
        have hfk : nxsem_findholderI (ss.sems k) (some rtcb) = some 1 := by
          unfold nxsem_findholderI
          rw [if_neg h0ne, if_pos hslot1]
        unfold nxsem_findandfreeholderI
        rw [hfk]
        show (if (getHolderI (ss.sems k) 1).counts = 0 then
          nxsem_freeholderI ss k 1 else ss).events = _
        by_cases hc : (getHolderI (ss.sems k) 1).counts = 0
        · rw [if_pos hc, if_pos hc]
          show ss.events ++ [Event.freeEntry
            (getHolderI (ss.sems k) 1).htcb] = _
          rw [hslot]
        · rw [if_neg hc, if_neg hc]
          simp
    obtain ⟨d, hd, hnd⟩ := restoreholderprioI_events nnest k rtcb
      (nxsem_findandfreeholderI ss k (some rtcb))
    refine ⟨d, ?_, hnd⟩
    unfold nxsem_restoreholderprio_selfI
    rw [if_pos hslot]
    show ((nxsem_restoreholderprioI nnest k rtcb
      (nxsem_findandfreeholderI ss k (some rtcb))).2).events = _
    rw [hd, hffev, List.append_assoc]
  · intro i hfind
    have heq : nxsem_restore_baseprio_taskI nnest rtcb stcb2 k s =
        nxsem_findandfreeholderI
          (if stcb2 ≠ none then
            (nxsem_foreachholderI ((nxsem_foreachholderI s k
              (nxsem_restoreholderprio_othersI nnest rtcb k)).2) k
              (nxsem_restoreholderprio_selfI nnest rtcb k)).2
          else (nxsem_foreachholderI s k nxsem_verifyholderI).2) k
          (some rtcb) := rfl
    have hu1 : UniqueHoldersI
        ((if stcb2 ≠ none then
            (nxsem_foreachholderI ((nxsem_foreachholderI s k
              (nxsem_restoreholderprio_othersI nnest rtcb k)).2) k
              (nxsem_restoreholderprio_selfI nnest rtcb k)).2
          else (nxsem_foreachholderI s k nxsem_verifyholderI).2).sems k) := by
      refine uniqueHoldersI_of_htcbLe ?_ hu
      split
      · exact htcbLe_trans
          (htcbLe_foreachI k _
            (fun i s' => htcbLe_othersI nnest rtcb k i s') s)
          (htcbLe_foreachI k _
            (fun i s' => htcbLe_selfI nnest rtcb k i s') _)
      · exact htcbLe_foreachI k _ (fun _ s' => htcbLe_refl _) s
    rw [heq] at hfind ⊢
    exact findandfreeholderI_post _ k rtcb hu1 i hfind
  · refine ⟨_, rfl, ?_⟩
    intro i hfind hc0
    exact findandfreeholderP_zero_clears _ k (some rtcb) i hfind hc0
      (by simp)

/-- C4 witness: a concrete run of the task-level restore with a waiter
(`stcb = 9`), running thread 7, on the inline store. -/
theorem nxsem_restore_baseprio_task_two_pass_witness :
    ∃ d1 d2,
      (nxsem_restore_baseprio_taskI 0 7 (some 9) 0 stEmptyI).events =
        stEmptyI.events ++ d1 ++ d2 ∧
      (∀ u, Event.restoreCall u ∈ d1 → u ≠ 7) ∧
      (∀ u, Event.restoreCall u ∈ d2 → u = 7) :=
  (nxsem_restore_baseprio_task_two_pass 0 7 0 (some 9) none (by decide)
    stEmptyI
    (fun t ht => by
      have h0 : (stEmptyI.sems 0).holder0.htcb = none := by decide
      rw [h0] at ht
      exact Option.noConfusion ht.1)
    stFullP
    (applyI 0 (.addHolder 7 0) stEmptyI) 0 (Or.inl rfl)
    (by decide)
    (fun t ht => by
      have h1 : ((applyI 0 (.addHolder 7 0) stEmptyI).sems 0).holder1.htcb =
          none := by decide
      rw [h1] at ht
      exact Option.noConfusion ht.2)).1

theorem sems_ne_freeholderI (s : StI) (k i k' : Nat) (h : k' ≠ k) :
    (nxsem_freeholderI s k i).sems k' = s.sems k' := by
  unfold nxsem_freeholderI
  dsimp only
  exact sems_updSemI_ne s k k'
    (fun m => setHolderI m i
      { flink := (getHolderI (s.sems k) i).flink, htcb := none,
        counts := 0 }) h

theorem htcbLe_freeholderI_any (s : StI) (k i k' : Nat) :
    HtcbLe (s.sems k') ((nxsem_freeholderI s k i).sems k') := by
  by_cases hk : k' = k
  · subst hk
    exact htcbLe_freeholderI s k' i
  · rw [sems_ne_freeholderI s k i k' hk]
    exact htcbLe_refl _

theorem htcbLe_findandfreeholderI_any (s : StI) (k : Nat) (x : Option Nat)
    (k' : Nat) :
    HtcbLe (s.sems k') ((nxsem_findandfreeholderI s k x).sems k') := by
  unfold nxsem_findandfreeholderI
  split
  · split
    · exact htcbLe_freeholderI_any s k _ k'
    · exact htcbLe_refl _
  · exact htcbLe_refl _

theorem htcbLe_restoreholderprioI_any (nnest k t k' : Nat) (s : StI) :
    HtcbLe (s.sems k')
      (((nxsem_restoreholderprioI nnest k t s).2).sems k') := by
  unfold nxsem_restoreholderprioI
  dsimp only
  split
  · split
    · exact htcbLe_freeholderI_any
        (addEvI (addEvI s [.restoreCall t]) [.swarnEvent t]) k _ k'
    · exact htcbLe_refl _
  · split
    · exact htcbLe_refl _
    · exact htcbLe_refl _

theorem htcbLe_othersI_any (nnest rtcb k i k' : Nat) (s : StI) :
    HtcbLe (s.sems k')
      (((nxsem_restoreholderprio_othersI nnest rtcb k i s).2).sems k') := by
  unfold nxsem_restoreholderprio_othersI
  split
  · split
    · exact htcbLe_restoreholderprioI_any nnest k _ k' s
    · exact htcbLe_refl _
  · exact htcbLe_refl _

theorem htcbLe_selfI_any (nnest rtcb k i k' : Nat) (s : StI) :
    HtcbLe (s.sems k')
      (((nxsem_restoreholderprio_selfI nnest rtcb k i s).2).sems k') := by
  unfold nxsem_restoreholderprio_selfI
  split
  · refine htcbLe_trans (htcbLe_findandfreeholderI_any s k (some rtcb) k') ?_
    exact htcbLe_restoreholderprioI_any nnest k rtcb k'
      (nxsem_findandfreeholderI s k (some rtcb))
  · exact htcbLe_refl _

theorem htcbLe_allI_any (nnest k i k' : Nat) (s : StI) :
    HtcbLe (s.sems k')
      (((nxsem_restoreholderprioallI nnest k i s).2).sems k') := by
  unfold nxsem_restoreholderprioallI
  split
  · exact htcbLe_restoreholderprioI_any nnest k _ k' s
  · exact htcbLe_refl _

theorem htcbLe_boostI_any (nnest rtcb k i k' : Nat) (s : StI) :
    HtcbLe (s.sems k')
      (((nxsem_boostholderprioI nnest rtcb k i s).2).sems k') := by
  unfold nxsem_boostholderprioI
  split
  · exact htcbLe_refl _
  · dsimp only
    split
    · exact htcbLe_freeholderI_any (addEvI s [.swarnEvent _]) k i k'
    · exact htcbLe_refl _

theorem htcbLe_foreachI_any (k j : Nat) (handler : Nat → StI → Int × StI)
    (hstep : ∀ i s, HtcbLe (s.sems j) (((handler i s).2).sems j))
    (s : StI) :
    HtcbLe (s.sems j) (((nxsem_foreachholderI s k handler).2).sems j) := by
  unfold nxsem_foreachholderI
  dsimp only
  by_cases h0 : (s.sems k).holder0.htcb ≠ none
  · rw [if_pos h0]
    split
    · exact htcbLe_trans (hstep 0 s) (hstep 1 _)
    · exact hstep 0 s
  · rw [if_neg h0]
    split
    · exact hstep 1 s
    · exact htcbLe_refl _

theorem htcbLe_releaseI_any (rtcb k k' : Nat) (s : StI) :
    HtcbLe (s.sems k') ((nxsem_release_holderI rtcb k s).sems k') := by
  by_cases hk : k' = k
  · subst hk
    exact htcbLe_releaseI rtcb k' s
  · unfold nxsem_release_holderI
    split
    · split
      · show HtcbLe _ ((updSemI s k _).sems k')
        rw [sems_updSemI_ne s k k' _ hk]
        exact htcbLe_refl _
      · exact htcbLe_refl _
    · exact htcbLe_refl _

theorem htcbLe_destroyI_any (k k' : Nat) (s : StI) :
    HtcbLe (s.sems k') ((nxsem_destroyholderI s k).sems k') := by
  unfold nxsem_destroyholderI
  dsimp only
  by_cases hk : k' = k
  · subst hk
    split
    · rw [sems_updSemI_same]
      exact ⟨Or.inr rfl, Or.inr rfl⟩
    · rw [sems_updSemI_same]
      exact ⟨Or.inr rfl, Or.inr rfl⟩
  · split
    · rw [sems_updSemI_ne _ k k' _ hk]
      exact htcbLe_refl _
    · rw [sems_updSemI_ne _ k k' _ hk]
      exact htcbLe_refl _

/-- `nxsem_add_holder_tcb`, inline build, preserves slot uniqueness on
every semaphore: the entry is allocated only when the find fails, so the
stored thread never gains a second slot. -/
theorem uniq_add_holder_tcbI (t k : Nat) (s : StI)
    (hu : ∀ m, UniqueHoldersI (s.sems m)) :
    ∀ m, UniqueHoldersI ((nxsem_add_holder_tcbI t k s).sems m) := by
  intro m
  unfold nxsem_add_holder_tcbI
  by_cases hfl : (s.sems k).flags &&& PRIOINHERIT_FLAGS_DISABLE = 0
  · rw [if_pos hfl]
    by_cases hm : m = k
    · subst hm
      unfold nxsem_findorallocateholderI nxsem_findholderI
        nxsem_allocholderI
      dsimp only
      by_cases h0 : (s.sems m).holder0.htcb = some t
      · rw [if_pos h0]
        rw [sems_updSemI_same]
        intro u hcon
        obtain ⟨hc0, hc1⟩ := hcon
        have hc0' : u = t := by
          simp [setHolderI, getHolderI] at hc0
          exact hc0.symm
        have hc1' : (s.sems m).holder1.htcb = some u := by
          simpa [setHolderI, getHolderI] using hc1
        exact hu m u ⟨by rw [h0, hc0'], hc1'⟩
      · rw [if_neg h0]
        by_cases h1 : (s.sems m).holder1.htcb = some t
        · rw [if_pos h1]
          rw [sems_updSemI_same]
          intro u hcon
          obtain ⟨hc0, hc1⟩ := hcon
          have hc1' : u = t := by
            simp [setHolderI, getHolderI] at hc1
            exact hc1.symm
          have hc0' : (s.sems m).holder0.htcb = some u := by
            simpa [setHolderI, getHolderI] using hc0
          exact hu m u ⟨hc0', by rw [h1, hc1']⟩
        · rw [if_neg h1]
          by_cases ha0 : (s.sems m).holder0.htcb = none
          · rw [if_pos ha0]
            rw [sems_updSemI_same, sems_updSemI_same]
            intro u hcon
            obtain ⟨hc0, hc1⟩ := hcon
            have hc1' : (s.sems m).holder1.htcb = some u := by
              simpa [setHolderI, getHolderI] using hc1
            have hc0' : u = t := by
              simp [setHolderI, getHolderI] at hc0
              exact hc0.symm
            rw [hc0'] at hc1'
            exact h1 hc1'
          · rw [if_neg ha0]
            by_cases ha1 : (s.sems m).holder1.htcb = none
            · rw [if_pos ha1]
              rw [sems_updSemI_same, sems_updSemI_same]
              intro u hcon
              obtain ⟨hc0, hc1⟩ := hcon
              have hc0' : (s.sems m).holder0.htcb = some u := by
                simpa [setHolderI, getHolderI] using hc0
              have hc1' : u = t := by
                simp [setHolderI, getHolderI] at hc1
                exact hc1.symm
              rw [hc1'] at hc0'
              exact h0 hc0'
            · rw [if_neg ha1]
              exact hu m
    · have hne : (nxsem_findorallocateholderI s k (some t)).2.sems m =
          s.sems m := by
        unfold nxsem_findorallocateholderI nxsem_findholderI
          nxsem_allocholderI
        dsimp only
        repeat' split
        all_goals dsimp only
        all_goals first
        | rfl
        | exact sems_updSemI_ne _ k m _ hm
      cases hfa : nxsem_findorallocateholderI s k (some t) with
      | mk oi s1 =>
          cases oi with
          | some i =>
              dsimp only
              rw [sems_updSemI_ne _ k m _ hm]
              have hs1 : s1.sems m = s.sems m := by
                have hpr : (nxsem_findorallocateholderI s k (some t)).2 =
                    s1 := congrArg Prod.snd hfa
                rw [← hpr]
                exact hne
              rw [hs1]
              exact hu m
          | none =>
              dsimp only
              have hs1 : s1.sems m = s.sems m := by
                have hpr : (nxsem_findorallocateholderI s k (some t)).2 =
                    s1 := congrArg Prod.snd hfa
                rw [← hpr]
                exact hne
              rw [hs1]
              exact hu m
  · rw [if_neg hfl]
    exact hu m

theorem htcbLe_boost_priorityI_any (nnest rtcb k k' : Nat) (s : StI) :
    HtcbLe (s.sems k') ((nxsem_boost_priorityI nnest rtcb k s).sems k') :=
  htcbLe_foreachI_any k k' _
    (fun i s' => htcbLe_boostI_any nnest rtcb k i k' s') s

theorem htcbLe_restore_baseprioI_any (nnest rtcb : Nat) (irq : Bool)
    (stcb : Option Nat) (k k' : Nat) (s : StI) :
    HtcbLe (s.sems k')
      ((nxsem_restore_baseprioI nnest rtcb irq stcb k s).sems k') := by
  unfold nxsem_restore_baseprioI nxsem_restore_baseprio_irqI
    nxsem_restore_baseprio_taskI
  dsimp only
  split
  · split
    · exact htcbLe_foreachI_any k k' _
        (fun i s' => htcbLe_allI_any nnest k i k' s') s
    · exact htcbLe_foreachI_any k k' _ (fun _ _ => htcbLe_refl _) s
  · split
    · refine htcbLe_trans ?_
        (htcbLe_findandfreeholderI_any _ k (some rtcb) k')
      refine htcbLe_trans
        (htcbLe_foreachI_any k k' _
          (fun i s' => htcbLe_othersI_any nnest rtcb k i k' s') s) ?_
      exact htcbLe_foreachI_any k k' _
        (fun i s' => htcbLe_selfI_any nnest rtcb k i k' s') _
    · exact htcbLe_trans
        (htcbLe_foreachI_any k k' _ (fun _ _ => htcbLe_refl _) s)
        (htcbLe_findandfreeholderI_any _ k (some rtcb) k')

theorem htcbLe_canceledI_any (nnest : Nat) (stcb : Option Nat)
    (k k' : Nat) (s : StI) :
    HtcbLe (s.sems k') ((nxsem_canceledI nnest stcb k s).sems k') := by
  unfold nxsem_canceledI
  dsimp only
  split
  · exact htcbLe_foreachI_any k k' _
      (fun i s' => htcbLe_allI_any nnest k i k' s') s
  · exact htcbLe_foreachI_any k k' _
      (fun i s' => htcbLe_allI_any nnest k i k' s') (addEvI s [.assertFailed])

/-- Slot uniqueness holds in every reachable inline-build state. -/
theorem uniq_reachableI (nnest : Nat) (s : StI) (h : ReachableI nnest s) :
    ∀ k, UniqueHoldersI (s.sems k) := by
  induction h with
  | init flagsf scf tcbs =>
      intro k t ht
      exact Option.noConfusion ht.1
  | step op h ih =>
      intro k
      cases op with
      | addHolder rtcb k0 => exact uniq_add_holder_tcbI rtcb k0 _ ih k
      | addHolderTcb t k0 => exact uniq_add_holder_tcbI t k0 _ ih k
      | releaseHolder rtcb k0 =>
          exact uniqueHoldersI_of_htcbLe (htcbLe_releaseI_any rtcb k0 k _)
            (ih k)
      | boost rtcb k0 =>
          exact uniqueHoldersI_of_htcbLe
            (htcbLe_boost_priorityI_any nnest rtcb k0 k _) (ih k)
      | restore rtcb irq stcb k0 =>
          exact uniqueHoldersI_of_htcbLe
            (htcbLe_restore_baseprioI_any nnest rtcb irq stcb k0 k _) (ih k)
      | canceled stcb k0 =>
          exact uniqueHoldersI_of_htcbLe
            (htcbLe_canceledI_any nnest stcb k0 k _) (ih k)
      | destroy k0 =>
          exact uniqueHoldersI_of_htcbLe (htcbLe_destroyI_any k0 k _) (ih k)
      | kill t => exact ih k

/-- `InvP` depends only on the store (nodes, semaphores, free head). -/
theorem InvP_storeEq {s s' : StP} (hn : s'.nodes = s.nodes)
    (hs : s'.sems = s.sems) (hf : s'.freeHead = s.freeHead)
    (h : InvP s) : InvP s' := by
  have hc : ∀ k, theChain s' k = theChain s k := by
    intro k
    unfold theChain
    rw [hn, hs]
  have hfr : theFree s' = theFree s := by
    unfold theFree
    rw [hn, hf]
  have hg : ∀ j, getNodeP s' j = getNodeP s j := by
    intro j
    unfold getNodeP
    rw [hn]
  refine ⟨?_, ?_, ?_, ?_, ?_, ?_, ?_, ?_⟩
  · intro k
    rw [hc k, hn, hs]
    exact h.chainOK k
  · rw [hfr, hn, hf]
    exact h.freeOK
  · intro k
    rw [hc k]
    exact h.chainNodup k
  · rw [hfr]
    exact h.freeNodup
  · intro k i hi
    rw [hc k]
    exact h.disjFree k i (hfr ▸ hi)
  · intro k l hkl i hi
    rw [hc l]
    exact h.disjChains k l hkl i (hc k ▸ hi)
  · intro i hi
    rw [hg i]
    exact h.freeClear i (hfr ▸ hi)
  · intro k
    rw [hc k]
    refine (h.uniqHtcb k).imp ?_
    intro a b hab t hat
    rw [hg a] at hat
    rw [hg b]
    exact hab t hat

/-- The chain walk of `nxsem_findholder`, pooled build, returns the
first chain member holding the key. -/
theorem findP_go_eq_find? (s : StP) (x : Option Nat) :
    ∀ {cur : Option Nat} {L : List Nat}, NodeChain s.nodes cur L →
      ∀ fuel, L.length ≤ fuel →
      findP_go s x fuel cur =
        L.find? (fun j => decide ((getNodeP s j).htcb = x)) := by
  intro cur L hc
  induction hc with
  | nil =>
      intro fuel _
      cases fuel <;> rfl
  | cons hlt hnext ih =>
      rename_i i L'
      intro fuel hfuel
      cases fuel with
      | zero => simp at hfuel
      | succ f =>
          rw [findP_go]
          by_cases h : (getNodeP s i).htcb = x
          · rw [if_pos h, List.find?_cons_of_pos _ (by simpa using h)]
          · rw [if_neg h, List.find?_cons_of_neg _ (by simpa using h)]
            exact ih f (by simpa using Nat.le_of_succ_le_succ hfuel)

theorem pairwise_uniq {L : List Nat} {f : Nat → Option Nat}
    (hp : L.Pairwise (fun a b => ∀ t, f a = some t → f b ≠ some t)) :
    ∀ i ∈ L, ∀ j ∈ L, ∀ t, f i = some t → f j = some t → i = j := by
  induction L with
  | nil =>
      intro i hi
      exact absurd hi (List.not_mem_nil i)
  | cons a L ih =>
      obtain ⟨ha, hp'⟩ := List.pairwise_cons.mp hp
      intro i hi j hj t hit hjt
      rcases List.mem_cons.mp hi with hia | hiL
      · rcases List.mem_cons.mp hj with hja | hjL
        · rw [hia, hja]
        · exact absurd hjt (ha j hjL t (hia ▸ hit))
      · rcases List.mem_cons.mp hj with hja | hjL
        · exact absurd hit (ha i hiL t (hja ▸ hjt))
        · exact ih hp' i hiL j hjL t hit hjt

/-- Under the pool invariant, `nxsem_findholder` is the first-match
search of the semaphore's chain. -/
theorem findholderP_eq_find? {s : StP} (inv : InvP s) (k : Nat)
    (x : Option Nat) :
    nxsem_findholderP s k x =
      (theChain s k).find?
        (fun j => decide ((getNodeP s j).htcb = x)) := by
  unfold nxsem_findholderP
  exact findP_go_eq_find? s x (inv.chainOK k) s.nodes.length
    (nodeChain_length_le (inv.chainOK k) (inv.chainNodup k))

/-- Under the pool invariant, `find` locates the member of the chain
holding a thread, and at most one chain member holds it. -/
theorem findholderP_unique {s : StP} (inv : InvP s) (k : Nat) (t : Nat)
    (i : Nat) (hi : i ∈ theChain s k)
    (ht : (getNodeP s i).htcb = some t) :
    nxsem_findholderP s k (some t) = some i := by
  rw [findholderP_eq_find? inv k (some t)]
  cases hfd : (theChain s k).find?
      (fun j => decide ((getNodeP s j).htcb = some t)) with
  | none =>
      rw [List.find?_eq_none] at hfd
      exact absurd (by simpa using ht) (hfd i hi)
  | some j =>
      have hjm : j ∈ theChain s k := List.mem_of_find?_eq_some hfd
      have hjt : (getNodeP s j).htcb = some t := by
        simpa using List.find?_some hfd
      have := pairwise_uniq (inv.uniqHtcb k) j hjm i hi t hjt ht
      rw [this]

/-- Freeing a chain member preserves the pool invariant: the member
moves from its semaphore's chain to the head of the free list, cleared;
all other chains, nodes, semaphores and tcbs are untouched. -/
theorem freeholderP_InvP {s : StP} (inv : InvP s) (k i : Nat)
    (hi : i ∈ theChain s k) :
    InvP (nxsem_freeholderP s k i) ∧
    theChain (nxsem_freeholderP s k i) k = (theChain s k).erase i ∧
    (∀ m, m ≠ k → theChain (nxsem_freeholderP s k i) m = theChain s m) ∧
    theFree (nxsem_freeholderP s k i) = i :: theFree s ∧
    (∀ j, j ≠ i →
      (getNodeP (nxsem_freeholderP s k i) j).htcb = (getNodeP s j).htcb ∧
      (getNodeP (nxsem_freeholderP s k i) j).counts =
        (getNodeP s j).counts) ∧
    (getNodeP (nxsem_freeholderP s k i) i).htcb = none ∧
    (nxsem_freeholderP s k i).nodes.length = s.nodes.length ∧
    (nxsem_freeholderP s k i).tcbs = s.tcbs := by
  obtain ⟨hc', hf', hlen', hkeep, hhi, hci, hflout, hsems', htcbs', _⟩ :=
    freeholderP_chain s k i (inv.chainOK k) (inv.chainNodup k) hi
      (inv.freeOK) (inv.disjFree k)
  have hndE : ((theChain s k).erase i).Nodup := (inv.chainNodup k).erase i
  have hiF : i ∉ theFree s := fun hc => inv.disjFree k i hc hi
  have hndF' : (i :: theFree s).Nodup :=
    List.nodup_cons.mpr ⟨hiF, inv.freeNodup⟩
  have hcEq : theChain (nxsem_freeholderP s k i) k =
      (theChain s k).erase i := theChain_eq hc' hndE
  have hchainM : ∀ m, m ≠ k →
      NodeChain (nxsem_freeholderP s k i).nodes
        ((nxsem_freeholderP s k i).sems m).hhead (theChain s m) := by
    intro m hm
    rw [hsems' m hm]
    refine nodeChain_of_flink_eq hlen' (inv.chainOK m) ?_
    intro j hj
    show (getNodeP (nxsem_freeholderP s k i) j).flink =
      (getNodeP s j).flink
    exact hflout j (inv.disjChains m k hm j hj)
  have hcEqM : ∀ m, m ≠ k →
      theChain (nxsem_freeholderP s k i) m = theChain s m := fun m hm =>
    theChain_eq (hchainM m hm) (inv.chainNodup m)
  have hfEq : theFree (nxsem_freeholderP s k i) = i :: theFree s :=
    theFree_eq hf' hndF'
  have hmemNe : ∀ m, ∀ j ∈ theChain (nxsem_freeholderP s k i) m, j ≠ i := by
    intro m j hj
    by_cases hm : m = k
    · rw [hm, hcEq] at hj
      intro hc
      rw [hc] at hj
      exact (inv.chainNodup k).not_mem_erase hj
    · rw [hcEqM m hm] at hj
      intro hc
      rw [hc] at hj
      exact inv.disjChains k m (fun hx => hm hx.symm) i hi hj
  have hmemOld : ∀ m, ∀ j ∈ theChain (nxsem_freeholderP s k i) m,
      j ∈ theChain s m := by
    intro m j hj
    by_cases hm : m = k
    · rw [hm, hcEq] at hj
      rw [hm]
      exact List.mem_of_mem_erase hj
    · rw [hcEqM m hm] at hj
      exact hj
  refine ⟨⟨?_, ?_, ?_, ?_, ?_, ?_, ?_, ?_⟩, hcEq, hcEqM, hfEq, hkeep,
    hhi, hlen', htcbs'⟩
  · intro m
    by_cases hm : m = k
    · rw [hm, hcEq]
      exact hc'
    · rw [hcEqM m hm]
      exact hchainM m hm
  · rw [hfEq]
    exact hf'
  · intro m
    by_cases hm : m = k
    · rw [hm, hcEq]
      exact hndE
    · rw [hcEqM m hm]
      exact inv.chainNodup m
  · rw [hfEq]
    exact hndF'
  · intro m j hj
    rw [hfEq] at hj
    intro hjc
    rcases List.mem_cons.mp hj with hji | hjF
    · exact hmemNe m j hjc hji
    · exact inv.disjFree m j hjF (hmemOld m j hjc)
  · intro m l hml j hj
    intro hjl
    exact inv.disjChains m l hml j (hmemOld m j hj) (hmemOld l j hjl)
  · intro j hj
    rw [hfEq] at hj
    rcases List.mem_cons.mp hj with hji | hjF
    · rw [hji]
      exact hhi
    · have hji : j ≠ i := fun hc => hiF (hc ▸ hjF)
      rw [(hkeep j hji).1]
      exact inv.freeClear j hjF
  · intro m
    by_cases hm : m = k
    · rw [hm, hcEq]
      refine List.Pairwise.imp_of_mem ?_
        (((inv.uniqHtcb k)).sublist (List.erase_sublist i (theChain s k)))
      intro a b ha hb hab t hat
      have hane : a ≠ i := fun hc => by
        rw [hc] at ha
        exact (inv.chainNodup k).not_mem_erase ha
      have hbne : b ≠ i := fun hc => by
        rw [hc] at hb
        exact (inv.chainNodup k).not_mem_erase hb
      rw [(hkeep a hane).1] at hat
      rw [(hkeep b hbne).1]
      exact hab t hat
    · rw [hcEqM m hm]
      refine List.Pairwise.imp_of_mem ?_ (inv.uniqHtcb m)
      intro a b ha hb hab t hat
      have hane : a ≠ i := fun hc =>
        inv.disjChains k m (fun hx => hm hx.symm) i hi (hc ▸ ha)
      have hbne : b ≠ i := fun hc =>
        inv.disjChains k m (fun hx => hm hx.symm) i hi (hc ▸ hb)
      rw [(hkeep a hane).1] at hat
      rw [(hkeep b hbne).1]
      exact hab t hat

/-- The pooled `foreach` walk preserves the pool invariant whenever each
handler invocation either leaves the store untouched (tcbs and trace
aside) or frees the currently visited entry. -/
theorem foreachP_go_InvP (k : Nat) (handler : Nat → StP → Int × StP)
    (hstep : ∀ i s, InvP s → i ∈ theChain s k →
      (getNodeP s i).htcb ≠ none →
      ∃ s', (s'.nodes = s.nodes ∧ s'.sems = s.sems ∧
          s'.freeHead = s.freeHead) ∧
        ((handler i s).2 = s' ∨
          (handler i s).2 = nxsem_freeholderP s' k i)) :
    ∀ (L P : List Nat) (fuel : Nat) (s : StP),
      InvP s → theChain s k = P ++ L → L.length ≤ fuel →
      InvP ((foreachP_go handler fuel (headPtr L) s).2) := by
  intro L
  induction L with
  | nil =>
      intro P fuel s inv _ _
      have hgo : foreachP_go handler fuel (headPtr []) s = (0, s) := by
        cases fuel <;> rfl
      rw [hgo]
      exact inv
  | cons i L' ih =>
      intro P fuel s inv hch hfuel
      cases fuel with
      | zero => simp at hfuel
      | succ f =>
          have hiC : i ∈ theChain s k := by
            rw [hch]
            exact List.mem_append.mpr (Or.inr (List.mem_cons_self i L'))
          have hnd : (P ++ i :: L').Nodup := hch ▸ inv.chainNodup k
          have hiP : i ∉ P := fun hm =>
            (List.nodup_append.mp hnd).2.2 hm (List.mem_cons_self i L')
          have hchainPL : NodeChain s.nodes ((s.sems k).hhead)
              (P ++ i :: L') := hch ▸ inv.chainOK k
          obtain ⟨hilt, hfl, _⟩ := nodeChain_append_elim P _ hchainPL
          have hfl2 : (getNodeP s i).flink = headPtr L' := hfl
          have hfuel' : L'.length ≤ f := by
            simp at hfuel ⊢
            omega
          by_cases hht : (getNodeP s i).htcb = none
          · have hgo : foreachP_go handler (f + 1) (headPtr (i :: L')) s =
                foreachP_go handler f ((getNodeP s i).flink) s := by
              simp [foreachP_go, hht]
            rw [hgo, hfl2]
            exact ih (P ++ [i]) f s inv
              (by rw [hch]; simp) hfuel'
          · obtain ⟨s', hst, hcase⟩ := hstep i s inv hiC hht
            have invS' : InvP s' := InvP_storeEq hst.1 hst.2.1 hst.2.2 inv
            have hchS' : theChain s' k = theChain s k := by
              unfold theChain
              rw [hst.1, hst.2.1]
            rcases hcase with hun | hfr
            · by_cases hret : (handler i s).1 = 0
              · have hgo : foreachP_go handler (f + 1)
                    (headPtr (i :: L')) s =
                    foreachP_go handler f ((getNodeP s i).flink)
                      (handler i s).2 := by
                  simp [foreachP_go, hht, hret]
                rw [hgo, hfl2, hun]
                exact ih (P ++ [i]) f s' invS'
                  (by rw [hchS', hch]; simp) hfuel'
              · have hgo : foreachP_go handler (f + 1)
                    (headPtr (i :: L')) s = handler i s := by
                  simp [foreachP_go, hht, hret]
                rw [hgo, hun]
                exact invS'
            · have hiC' : i ∈ theChain s' k := hchS' ▸ hiC
              obtain ⟨invS2, hcE, _, _, _, _, _, _⟩ :=
                freeholderP_InvP invS' k i hiC'
              have hcE2 : theChain (nxsem_freeholderP s' k i) k =
                  P ++ L' := by
                rw [hcE, hchS', hch, List.erase_append_right _ hiP,
                  List.erase_cons_head]
              by_cases hret : (handler i s).1 = 0
              · have hgo : foreachP_go handler (f + 1)
                    (headPtr (i :: L')) s =
                    foreachP_go handler f ((getNodeP s i).flink)
                      (handler i s).2 := by
                  simp [foreachP_go, hht, hret]
                rw [hgo, hfl2, hfr]
                exact ih P f (nxsem_freeholderP s' k i) invS2 hcE2 hfuel'
              · have hgo : foreachP_go handler (f + 1)
                    (headPtr (i :: L')) s = handler i s := by
                  simp [foreachP_go, hht, hret]
                rw [hgo, hfr]
                exact invS2

theorem findP_go_addEvP (s : StP) (e : List Event) (x : Option Nat) :
    ∀ (fuel : Nat) (cur : Option Nat),
      findP_go (addEvP s e) x fuel cur = findP_go s x fuel cur := by
  intro fuel
  induction fuel with
  | zero =>
      intro cur
      cases cur <;> rfl
  | succ f ih =>
      intro cur
      cases cur with
      | none => rfl
      | some j =>
          rw [findP_go, findP_go]
          simp only [getNodeP_addEvP]
          by_cases h : (getNodeP s j).htcb = x
          · rw [if_pos h, if_pos h]
          · rw [if_neg h, if_neg h]
            exact ih _

theorem findholderP_addEvP (s : StP) (e : List Event) (k : Nat)
    (x : Option Nat) :
    nxsem_findholderP (addEvP s e) k x = nxsem_findholderP s k x := by
  unfold nxsem_findholderP
  exact findP_go_addEvP s e x _ _

/-- `nxsem_restoreholderprio`, pooled build, as seen by the walk
invariant: on a well-formed pool, the call for the holder of chain
member `i` either leaves the store untouched or frees exactly that
member. -/
theorem restoreholderprioP_shape (nnest k t : Nat) (s : StP)
    (inv : InvP s) (i : Nat) (hi : i ∈ theChain s k)
    (ht : (getNodeP s i).htcb = some t) :
    ∃ s', (s'.nodes = s.nodes ∧ s'.sems = s.sems ∧
        s'.freeHead = s.freeHead) ∧
      ((nxsem_restoreholderprioP nnest k t s).2 = s' ∨
        (nxsem_restoreholderprioP nnest k t s).2 =
          nxsem_freeholderP s' k i) := by
  unfold nxsem_restoreholderprioP
  dsimp only
  by_cases ha : ((addEvP s [.restoreCall t]).tcbs t).alive
  · rw [if_neg (not_not_intro ha)]
    split
    · refine ⟨_, ⟨?_, ?_, ?_⟩, Or.inl rfl⟩ <;> rfl
    · refine ⟨_, ⟨?_, ?_, ?_⟩, Or.inl rfl⟩ <;> rfl
  · rw [if_pos ha]
    have hfind : nxsem_findholderP (addEvP s [.restoreCall t]) k
        (some t) = some i := by
      rw [findholderP_addEvP]
      exact findholderP_unique inv k t i hi ht
    rw [hfind]
    exact ⟨addEvP (addEvP s [.restoreCall t]) [.swarnEvent t],
      ⟨rfl, rfl, rfl⟩, Or.inr rfl⟩

theorem shape_allP (nnest k : Nat) :
    ∀ i s, InvP s → i ∈ theChain s k → (getNodeP s i).htcb ≠ none →
      ∃ s', (s'.nodes = s.nodes ∧ s'.sems = s.sems ∧
          s'.freeHead = s.freeHead) ∧
        ((nxsem_restoreholderprioallP nnest k i s).2 = s' ∨
          (nxsem_restoreholderprioallP nnest k i s).2 =
            nxsem_freeholderP s' k i) := by
  intro i s inv hi _
  unfold nxsem_restoreholderprioallP
  cases hh : (getNodeP s i).htcb with
  | none => exact ⟨s, ⟨rfl, rfl, rfl⟩, Or.inl rfl⟩
  | some t => exact restoreholderprioP_shape nnest k t s inv i hi hh

theorem shape_othersP (nnest rtcb k : Nat) :
    ∀ i s, InvP s → i ∈ theChain s k → (getNodeP s i).htcb ≠ none →
      ∃ s', (s'.nodes = s.nodes ∧ s'.sems = s.sems ∧
          s'.freeHead = s.freeHead) ∧
        ((nxsem_restoreholderprio_othersP nnest rtcb k i s).2 = s' ∨
          (nxsem_restoreholderprio_othersP nnest rtcb k i s).2 =
            nxsem_freeholderP s' k i) := by
  intro i s inv hi _
  unfold nxsem_restoreholderprio_othersP
  split
  · cases hh : (getNodeP s i).htcb with
    | none => exact ⟨s, ⟨rfl, rfl, rfl⟩, Or.inl rfl⟩
    | some t => exact restoreholderprioP_shape nnest k t s inv i hi hh
  · exact ⟨s, ⟨rfl, rfl, rfl⟩, Or.inl rfl⟩

theorem shape_selfP (nnest rtcb k : Nat) :
    ∀ i s, InvP s → i ∈ theChain s k → (getNodeP s i).htcb ≠ none →
      ∃ s', (s'.nodes = s.nodes ∧ s'.sems = s.sems ∧
          s'.freeHead = s.freeHead) ∧
        ((nxsem_restoreholderprio_selfP nnest rtcb k i s).2 = s' ∨
          (nxsem_restoreholderprio_selfP nnest rtcb k i s).2 =
            nxsem_freeholderP s' k i) := by
  intro i s inv hi _
  unfold nxsem_restoreholderprio_selfP
  split
  · rename_i hh
    exact restoreholderprioP_shape nnest k rtcb s inv i hi hh
  · exact ⟨s, ⟨rfl, rfl, rfl⟩, Or.inl rfl⟩

theorem shape_boostP (nnest rtcb k : Nat) :
    ∀ i s, InvP s → i ∈ theChain s k → (getNodeP s i).htcb ≠ none →
      ∃ s', (s'.nodes = s.nodes ∧ s'.sems = s.sems ∧
          s'.freeHead = s.freeHead) ∧
        ((nxsem_boostholderprioP nnest rtcb k i s).2 = s' ∨
          (nxsem_boostholderprioP nnest rtcb k i s).2 =
            nxsem_freeholderP s' k i) := by
  intro i s _ _ _
  cases hh : (getNodeP s i).htcb with
  | none =>
      refine ⟨s, ⟨rfl, rfl, rfl⟩, Or.inl ?_⟩
      unfold nxsem_boostholderprioP
      rw [hh]
  | some t =>
      by_cases ha : (s.tcbs t).alive
      · refine ⟨(nxsem_boostholderprioP nnest rtcb k i s).2,
          ⟨?_, ?_, ?_⟩, Or.inl rfl⟩
        · rw [congrArg Prod.snd
            (boostholderprioP_live nnest rtcb k i s t hh ha)]
          rfl
        · rw [congrArg Prod.snd
            (boostholderprioP_live nnest rtcb k i s t hh ha)]
          rfl
        · rw [congrArg Prod.snd
            (boostholderprioP_live nnest rtcb k i s t hh ha)]
          rfl
      · exact ⟨addEvP s [.swarnEvent t], ⟨rfl, rfl, rfl⟩,
          Or.inr (congrArg Prod.snd
            (boostholderprioP_stale nnest rtcb k i s t hh ha))⟩

theorem shape_recoverP (k : Nat) :
    ∀ i s, InvP s → i ∈ theChain s k → (getNodeP s i).htcb ≠ none →
      ∃ s', (s'.nodes = s.nodes ∧ s'.sems = s.sems ∧
          s'.freeHead = s.freeHead) ∧
        ((nxsem_recoverholdersP k i s).2 = s' ∨
          (nxsem_recoverholdersP k i s).2 = nxsem_freeholderP s' k i) :=
  fun _ s _ _ _ => ⟨s, ⟨rfl, rfl, rfl⟩, Or.inr rfl⟩

theorem shape_verifyP (k : Nat) :
    ∀ i s, InvP s → i ∈ theChain s k → (getNodeP s i).htcb ≠ none →
      ∃ s', (s'.nodes = s.nodes ∧ s'.sems = s.sems ∧
          s'.freeHead = s.freeHead) ∧
        ((nxsem_verifyholderP i s).2 = s' ∨
          (nxsem_verifyholderP i s).2 = nxsem_freeholderP s' k i) :=
  fun _ s _ _ _ => ⟨s, ⟨rfl, rfl, rfl⟩, Or.inl rfl⟩

/-- `InvP` is insensitive to node edits that keep every node's `flink`
and `htcb` (only counts may change). -/
theorem InvP_of_nodeFields {s s' : StP}
    (hlen : s'.nodes.length = s.nodes.length)
    (hs : s'.sems = s.sems) (hf : s'.freeHead = s.freeHead)
    (hfl : ∀ j, (getNodeP s' j).flink = (getNodeP s j).flink)
    (hht : ∀ j, (getNodeP s' j).htcb = (getNodeP s j).htcb)
    (h : InvP s) : InvP s' := by
  have hchain : ∀ (cur : Option Nat) (L : List Nat),
      NodeChain s.nodes cur L → NodeChain s'.nodes cur L := by
    intro cur L hc
    exact nodeChain_of_flink_eq hlen hc (fun j _ => hfl j)
  have hcm : ∀ m, NodeChain s'.nodes ((s'.sems m).hhead) (theChain s m) := by
    intro m
    rw [hs]
    exact hchain _ _ (h.chainOK m)
  have hcEq : ∀ m, theChain s' m = theChain s m := fun m =>
    theChain_eq (hcm m) (h.chainNodup m)
  have hfc : NodeChain s'.nodes s'.freeHead (theFree s) := by
    rw [hf]
    exact hchain _ _ h.freeOK
  have hfEq : theFree s' = theFree s := theFree_eq hfc h.freeNodup
  refine ⟨?_, ?_, ?_, ?_, ?_, ?_, ?_, ?_⟩
  · intro m
    rw [hcEq m]
    exact hcm m
  · rw [hfEq]
    exact hfc
  · intro m
    rw [hcEq m]
    exact h.chainNodup m
  · rw [hfEq]
    exact h.freeNodup
  · intro m j hj
    rw [hfEq] at hj
    rw [hcEq m]
    exact h.disjFree m j hj
  · intro m l hml j hj
    rw [hcEq m] at hj
    rw [hcEq l]
    exact h.disjChains m l hml j hj
  · intro j hj
    rw [hfEq] at hj
    rw [hht j]
    exact h.freeClear j hj
  · intro m
    rw [hcEq m]
    refine (h.uniqHtcb m).imp ?_
    intro a b hab t hat
    rw [hht a] at hat
    rw [hht b]
    exact hab t hat

theorem release_holderP_InvP (rtcb k : Nat) (s : StP) (inv : InvP s) :
    InvP (nxsem_release_holderP rtcb k s) := by
  cases hf : nxsem_findholderP s k (some rtcb) with
  | none =>
      have heq : nxsem_release_holderP rtcb k s = s := by
        unfold nxsem_release_holderP
        rw [hf]
      rw [heq]
      exact inv
  | some i =>
      have hht : (getNodeP s i).htcb = some rtcb :=
        findP_go_finds s (some rtcb) _ _ i hf
      have hilt : i < s.nodes.length := by
        by_contra hge
        push_neg at hge
        have hdef : getNodeP s i = {} := by
          unfold getNodeP
          exact List.getD_eq_default _ _ hge
        rw [hdef] at hht
        exact Option.noConfusion hht
      have heq : nxsem_release_holderP rtcb k s =
          if (getNodeP s i).counts > 0 then
            setNodeP s i { getNodeP s i with
              counts := (getNodeP s i).counts - 1 }
          else s := by
        unfold nxsem_release_holderP
        rw [hf]
      rw [heq]
      by_cases hc : (getNodeP s i).counts > 0
      · rw [if_pos hc]
        refine InvP_of_nodeFields ?_ ?_ ?_ ?_ ?_ inv
        · show (s.nodes.set i _).length = s.nodes.length
          simp
        · rfl
        · rfl
        · intro j
          by_cases hj : j = i
          · rw [hj, getNodeP_set_same s i _ hilt]
          · rw [getNodeP_set_ne s i j _ hj]
        · intro j
          by_cases hj : j = i
          · rw [hj, getNodeP_set_same s i _ hilt]
          · rw [getNodeP_set_ne s i j _ hj]
      · rw [if_neg hc]
        exact inv

theorem findandfreeholderP_InvP (s : StP) (k : Nat) (x : Option Nat)
    (inv : InvP s) : InvP (nxsem_findandfreeholderP s k x) := by
  cases hf : nxsem_findholderP s k x with
  | none =>
      have heq : nxsem_findandfreeholderP s k x = s := by
        unfold nxsem_findandfreeholderP
        rw [hf]
      rw [heq]
      exact inv
  | some i =>
      have hmem : i ∈ theChain s k := by
        have hfd := findholderP_eq_find? inv k x
        rw [hfd] at hf
        exact List.mem_of_find?_eq_some hf
      have heq : nxsem_findandfreeholderP s k x =
          if (getNodeP s i).counts = 0 then nxsem_freeholderP s k i
          else s := by
        unfold nxsem_findandfreeholderP
        rw [hf]
      rw [heq]
      by_cases hc : (getNodeP s i).counts = 0
      · rw [if_pos hc]
        exact (freeholderP_InvP inv k i hmem).1
      · rw [if_neg hc]
        exact inv

/-- `nxsem_add_holder_tcb`, pooled build, preserves the pool invariant:
an entry is allocated off the free list only when the find fails, so the
added thread never appears twice on a semaphore's chain. -/
theorem add_holder_tcbP_InvP (t k : Nat) (s : StP) (inv : InvP s) :
    InvP (nxsem_add_holder_tcbP t k s) := by
  by_cases hfl : (s.sems k).flags &&& PRIOINHERIT_FLAGS_DISABLE = 0
  · cases hfind : nxsem_findholderP s k (some t) with
    | some i =>
        have hht : (getNodeP s i).htcb = some t :=
          findP_go_finds s (some t) _ _ i hfind
        have hilt : i < s.nodes.length := by
          by_contra hge
          push_neg at hge
          have hdef : getNodeP s i = {} := by
            unfold getNodeP
            exact List.getD_eq_default _ _ hge
          rw [hdef] at hht
          exact Option.noConfusion hht
        have heq : nxsem_add_holder_tcbP t k s =
            setNodeP s i { getNodeP s i with
              htcb := some t
              counts := (getNodeP s i).counts + 1 } := by
          unfold nxsem_add_holder_tcbP
          rw [if_pos hfl]
          unfold nxsem_findorallocateholderP
          rw [hfind]
        rw [heq]
        refine InvP_of_nodeFields ?_ ?_ ?_ ?_ ?_ inv
        · show (s.nodes.set i _).length = s.nodes.length
          simp
        · rfl
        · rfl
        · intro j
          by_cases hj : j = i
          · rw [hj, getNodeP_set_same s i _ hilt]
          · rw [getNodeP_set_ne s i j _ hj]
        · intro j
          by_cases hj : j = i
          · rw [hj, getNodeP_set_same s i _ hilt]
            show some t = (getNodeP s i).htcb
            rw [hht]
          · rw [getNodeP_set_ne s i j _ hj]
    | none =>
        cases hfh : s.freeHead with
        | none =>
            have heq : nxsem_add_holder_tcbP t k s =
                addEvP s [.serrEvent, .assertFailed] := by
              unfold nxsem_add_holder_tcbP
              rw [if_pos hfl]
              unfold nxsem_findorallocateholderP
              rw [hfind]
              unfold nxsem_allocholderP
              rw [hfh]
            rw [heq]
            refine InvP_storeEq ?_ ?_ ?_ inv <;> rfl
        | some f =>
            have hnochain : ∀ j ∈ theChain s k,
                (getNodeP s j).htcb ≠ some t := by
              intro j hj
              rw [findholderP_eq_find? inv k (some t)] at hfind
              rw [List.find?_eq_none] at hfind
              simpa using hfind j hj
            cases hTF : theFree s with
            | nil =>
                exfalso
                have hhp := nodeChain_headPtr inv.freeOK
                rw [hTF, hfh] at hhp
                exact Option.noConfusion hhp
            | cons f0 F' =>
                have hfo := inv.freeOK
                rw [hTF, hfh] at hfo
                have hff0 : f0 = f := by
                  have := nodeChain_headPtr hfo
                  exact (Option.some.inj this).symm
                rw [hff0] at hfo hTF
                have hndF : (f :: F').Nodup := hTF ▸ inv.freeNodup
                have hfF' : f ∉ F' := (List.nodup_cons.mp hndF).1
                obtain ⟨hflt, hnext⟩ :
                    f < s.nodes.length ∧
                    NodeChain s.nodes ((getNodeP s f).flink) F' := by
                  cases hfo with
                  | cons hlt hnx => exact ⟨hlt, hnx⟩
                have hfmem : f ∈ theFree s := by
                  rw [hTF]
                  exact List.mem_cons_self f F'
                have hfnc : ∀ m, f ∉ theChain s m := fun m =>
                  inv.disjFree m f hfmem
                have heq : nxsem_add_holder_tcbP t k s =
                    setNodeP
                      (updSemP (setNodeP
                        { s with freeHead := (getNodeP s f).flink } f
                        { getNodeP s f with
                          flink := (s.sems k).hhead
                          counts := 0 }) k
                        fun m => { m with hhead := some f }) f
                      { getNodeP (updSemP (setNodeP
                          { s with freeHead := (getNodeP s f).flink } f
                          { getNodeP s f with
                            flink := (s.sems k).hhead
                            counts := 0 }) k
                          fun m => { m with hhead := some f }) f with
                        htcb := some t
                        counts := (getNodeP (updSemP (setNodeP
                          { s with freeHead := (getNodeP s f).flink } f
                          { getNodeP s f with
                            flink := (s.sems k).hhead
                            counts := 0 }) k
                          fun m => { m with hhead := some f }) f).counts +
                          1 } := by
                  unfold nxsem_add_holder_tcbP
                  rw [if_pos hfl]
                  unfold nxsem_findorallocateholderP
                  rw [hfind]
                  unfold nxsem_allocholderP
                  rw [hfh]
                rw [heq]
                have hlen3 : (updSemP (setNodeP
                    { s with freeHead := (getNodeP s f).flink } f
                    { getNodeP s f with
                      flink := (s.sems k).hhead
                      counts := 0 }) k
                    fun m => { m with hhead := some f
                    }).nodes.length = s.nodes.length := by
                  show (s.nodes.set f _).length = s.nodes.length
                  simp
                have hnode3 : ∀ j, j ≠ f →
                    getNodeP (updSemP (setNodeP
                      { s with freeHead := (getNodeP s f).flink } f
                      { getNodeP s f with
                        flink := (s.sems k).hhead
                        counts := 0 }) k
                      fun m => { m with hhead := some f }) j =
                      getNodeP s j := by
                  intro j hj
                  rw [getNodeP_updSemP, getNodeP_set_ne _ f j _ hj]
                  rfl
                have hnode3f : getNodeP (updSemP (setNodeP
                    { s with freeHead := (getNodeP s f).flink } f
                    { getNodeP s f with
                      flink := (s.sems k).hhead
                      counts := 0 }) k
                    fun m => { m with hhead := some f }) f =
                    { getNodeP s f with
                      flink := (s.sems k).hhead
                      counts := 0 } := by
                  rw [getNodeP_updSemP]
                  exact getNodeP_set_same _ f _ (by
                    show f < s.nodes.length
                    exact hflt)
                set S3 := updSemP (setNodeP
                  { s with freeHead := (getNodeP s f).flink } f
                  { getNodeP s f with
                    flink := (s.sems k).hhead
                    counts := 0 }) k fun m => { m with hhead := some f }
                  with hS3
                set S4 := setNodeP S3 f
                  { getNodeP S3 f with
                    htcb := some t
                    counts := (getNodeP S3 f).counts + 1 } with hS4
                have hlen4 : S4.nodes.length = s.nodes.length := by
                  rw [hS4]
                  show (S3.nodes.set f _).length = s.nodes.length
                  rw [List.length_set]
                  exact hlen3
                have hflt4 : f < S3.nodes.length := by
                  rw [hlen3]
                  exact hflt
                have hnode4 : ∀ j, j ≠ f → getNodeP S4 j = getNodeP s j := by
                  intro j hj
                  rw [hS4, getNodeP_set_ne _ f j _ hj]
                  exact hnode3 j hj
                have hnode4f : getNodeP S4 f =
                    { flink := (s.sems k).hhead
                      htcb := some t
                      counts := 1 } := by
                  rw [hS4, getNodeP_set_same _ f _ hflt4, hnode3f]
                have hsems4 : ∀ m, m ≠ k → S4.sems m = s.sems m := by
                  intro m hm
                  rw [hS4, hS3]
                  show Function.update s.sems k _ m = s.sems m
                  exact Function.update_noteq hm _ _
                have hsems4k : (S4.sems k).hhead = some f := by
                  rw [hS4, hS3]
                  show (Function.update s.sems k _ k).hhead = some f
                  rw [Function.update_same]
                have hfh4 : S4.freeHead = (getNodeP s f).flink := by
                  rw [hS4, hS3]
                  rfl
                have hchainK : NodeChain S4.nodes ((S4.sems k).hhead)
                    (f :: theChain s k) := by
                  rw [hsems4k]
                  refine NodeChain.cons (by rw [hlen4]; exact hflt) ?_
                  have hfl4 : (S4.nodes.getD f {}).flink =
                      (s.sems k).hhead := by
                    show (getNodeP S4 f).flink = _
                    rw [hnode4f]
                  rw [hfl4, nodeChain_headPtr (inv.chainOK k)]
                  refine nodeChain_of_flink_eq hlen4 ?_ ?_
                  · rw [← nodeChain_headPtr (inv.chainOK k)]
                    exact inv.chainOK k
                  · intro j hj
                    show (getNodeP S4 j).flink = (getNodeP s j).flink
                    rw [hnode4 j (fun hc => hfnc k (hc ▸ hj))]
                have hchainM : ∀ m, m ≠ k →
                    NodeChain S4.nodes ((S4.sems m).hhead)
                      (theChain s m) := by
                  intro m hm
                  rw [hsems4 m hm]
                  refine nodeChain_of_flink_eq hlen4 (inv.chainOK m) ?_
                  intro j hj
                  show (getNodeP S4 j).flink = (getNodeP s j).flink
                  rw [hnode4 j (fun hc => hfnc m (hc ▸ hj))]
                have hfree4 : NodeChain S4.nodes S4.freeHead F' := by
                  rw [hfh4]
                  refine nodeChain_of_flink_eq hlen4 hnext ?_
                  intro j hj
                  show (getNodeP S4 j).flink = (getNodeP s j).flink
                  rw [hnode4 j (fun hc => hfF' (hc ▸ hj))]
                have hndCK : (f :: theChain s k).Nodup :=
                  List.nodup_cons.mpr ⟨hfnc k, inv.chainNodup k⟩
                have hndF' : F'.Nodup := (List.nodup_cons.mp hndF).2
                have hcEqK : theChain S4 k = f :: theChain s k :=
                  theChain_eq hchainK hndCK
                have hcEqM : ∀ m, m ≠ k → theChain S4 m = theChain s m :=
                  fun m hm => theChain_eq (hchainM m hm) (inv.chainNodup m)
                have hfEq : theFree S4 = F' := theFree_eq hfree4 hndF'
                have hmemOld : ∀ m, ∀ j ∈ theChain S4 m,
                    j = f ∨ j ∈ theChain s m := by
                  intro m j hj
                  by_cases hm : m = k
                  · rw [hm, hcEqK] at hj
                    rcases List.mem_cons.mp hj with hjf | hjc
                    · exact Or.inl hjf
                    · rw [hm]
                      exact Or.inr hjc
                  · rw [hcEqM m hm] at hj
                    exact Or.inr hj
                refine ⟨?_, ?_, ?_, ?_, ?_, ?_, ?_, ?_⟩
                · intro m
                  by_cases hm : m = k
                  · rw [hm, hcEqK]
                    exact hchainK
                  · rw [hcEqM m hm]
                    exact hchainM m hm
                · rw [hfEq]
                  exact hfree4
                · intro m
                  by_cases hm : m = k
                  · rw [hm, hcEqK]
                    exact hndCK
                  · rw [hcEqM m hm]
                    exact inv.chainNodup m
                · rw [hfEq]
                  exact hndF'
                · intro m j hj
                  rw [hfEq] at hj
                  intro hjc
                  rcases hmemOld m j hjc with hjf | hjold
                  · exact hfF' (hjf ▸ hj)
                  · exact inv.disjFree m j (by
                      rw [hTF]
                      exact List.mem_cons_of_mem _ hj) hjold
                · intro m l hml j hj hjl
                  rcases hmemOld m j hj with hjf | hjm
                  · rcases hmemOld l j hjl with hjf2 | hjl2
                    · by_cases hm : m = k
                      · by_cases hl : l = k
                        · exact hml (hm.trans hl.symm)
                        · rw [hcEqM l hl] at hjl
                          exact hfnc l (hjf ▸ hjl)
                      · rw [hcEqM m hm] at hj
                        exact hfnc m (hjf ▸ hj)
                    · exact hfnc l (hjf ▸ hjl2)
                  · rcases hmemOld l j hjl with hjf2 | hjl2
                    · exact hfnc m (hjf2 ▸ hjm)
                    · exact inv.disjChains m l hml j hjm hjl2
                · intro j hj
                  rw [hfEq] at hj
                  have hjf : j ≠ f := fun hc => hfF' (hc ▸ hj)
                  rw [hnode4 j hjf]
                  exact inv.freeClear j (by
                    rw [hTF]
                    exact List.mem_cons_of_mem _ hj)
                · intro m
                  by_cases hm : m = k
                  · rw [hm, hcEqK]
                    refine List.pairwise_cons.mpr ⟨?_, ?_⟩
                    · intro j hj u hfu
                      have hjf : j ≠ f := fun hc => hfnc k (hc ▸ hj)
                      rw [hnode4 j hjf]
                      rw [hnode4f] at hfu
                      have hut : u = t := by
                        simpa using hfu.symm
                      rw [hut]
                      exact hnochain j hj
                    · refine List.Pairwise.imp_of_mem ?_ (inv.uniqHtcb k)
                      intro a b ha hb hab u hau
                      have haf : a ≠ f := fun hc => hfnc k (hc ▸ ha)
                      have hbf : b ≠ f := fun hc => hfnc k (hc ▸ hb)
                      rw [hnode4 a haf] at hau
                      rw [hnode4 b hbf]
                      exact hab u hau
                  · rw [hcEqM m hm]
                    refine List.Pairwise.imp_of_mem ?_ (inv.uniqHtcb m)
                    intro a b ha hb hab u hau
                    have haf : a ≠ f := fun hc => hfnc m (hc ▸ ha)
                    have hbf : b ≠ f := fun hc => hfnc m (hc ▸ hb)
                    rw [hnode4 a haf] at hau
                    rw [hnode4 b hbf]
                    exact hab u hau
  · have heq : nxsem_add_holder_tcbP t k s = s := by
      unfold nxsem_add_holder_tcbP
      rw [if_neg hfl]
    rw [heq]
    exact inv

theorem chainFrom_none (nd : List semholder_s) :
    ∀ fuel, chainFrom nd fuel none = [] := by
  intro fuel
  cases fuel <;> rfl

/-- The initialized pool satisfies the invariant: empty holder chains
and the full free list. -/
theorem init_holdersP_InvP (n : Nat) (flagsf : Nat → Nat)
    (scf : Nat → Int) (tcbs : Nat → tcb_s) :
    InvP (nxsem_init_holdersP n flagsf scf tcbs) := by
  have hcK : ∀ k, theChain (nxsem_init_holdersP n flagsf scf tcbs) k = [] := by
    intro k
    unfold theChain
    show chainFrom _ _ none = []
    exact chainFrom_none _ _
  have hfree : NodeChain (nxsem_init_holdersP n flagsf scf tcbs).nodes
      (nxsem_init_holdersP n flagsf scf tcbs).freeHead (List.range n) := by
    show NodeChain (initNodesP n) (if n = 0 then none else some 0) _
    by_cases hn : n = 0
    · rw [if_pos hn, hn]
      exact NodeChain.nil
    · rw [if_neg hn]
      rw [List.range_eq_range']
      exact nodeChain_initNodesP n n 0 (by omega) (by omega)
  have hfEq : theFree (nxsem_init_holdersP n flagsf scf tcbs) =
      List.range n := theFree_eq hfree (List.nodup_range n)
  refine ⟨?_, ?_, ?_, ?_, ?_, ?_, ?_, ?_⟩
  · intro k
    rw [hcK k]
    exact NodeChain.nil
  · rw [hfEq]
    exact hfree
  · intro k
    rw [hcK k]
    exact List.nodup_nil
  · rw [hfEq]
    exact List.nodup_range n
  · intro k i _
    rw [hcK k]
    exact List.not_mem_nil i
  · intro k l _ i hi
    rw [hcK k] at hi
    exact absurd hi (List.not_mem_nil i)
  · intro i hi
    rw [hfEq] at hi
    show ((initNodesP n).getD i { }).htcb = none
    rw [getD_initNodesP n i (List.mem_range.mp hi)]
  · intro k
    rw [hcK k]
    exact List.Pairwise.nil

/-- The `foreach` wrapper preserves the invariant for store-shape
handlers. -/
theorem foreachholderP_InvP (k : Nat) (handler : Nat → StP → Int × StP)
    (hstep : ∀ i s, InvP s → i ∈ theChain s k →
      (getNodeP s i).htcb ≠ none →
      ∃ s', (s'.nodes = s.nodes ∧ s'.sems = s.sems ∧
          s'.freeHead = s.freeHead) ∧
        ((handler i s).2 = s' ∨
          (handler i s).2 = nxsem_freeholderP s' k i))
    (s : StP) (inv : InvP s) :
    InvP ((nxsem_foreachholderP s k handler).2) := by
  unfold nxsem_foreachholderP
  rw [show (s.sems k).hhead = headPtr (theChain s k) from
    nodeChain_headPtr (inv.chainOK k)]
  exact foreachP_go_InvP k handler hstep (theChain s k) [] s.nodes.length
    s inv (by simp)
    (nodeChain_length_le (inv.chainOK k) (inv.chainNodup k))

theorem boost_priorityP_InvP (nnest rtcb k : Nat) (s : StP)
    (inv : InvP s) : InvP (nxsem_boost_priorityP nnest rtcb k s) :=
  foreachholderP_InvP k _ (shape_boostP nnest rtcb k) s inv

theorem canceledP_InvP (nnest : Nat) (stcb : Option Nat) (k : Nat)
    (s : StP) (inv : InvP s) :
    InvP (nxsem_canceledP nnest stcb k s) := by
  unfold nxsem_canceledP
  dsimp only
  split
  · exact foreachholderP_InvP k _ (shape_allP nnest k) s inv
  · refine foreachholderP_InvP k _ (shape_allP nnest k) _ ?_
    refine InvP_storeEq ?_ ?_ ?_ inv <;> rfl

theorem destroyholderP_InvP (k : Nat) (s : StP) (inv : InvP s) :
    InvP (nxsem_destroyholderP s k) := by
  unfold nxsem_destroyholderP
  split
  · exact inv
  · split
    · exact foreachholderP_InvP k _ (shape_recoverP k) s inv
    · refine foreachholderP_InvP k _ (shape_recoverP k) _ ?_
      refine InvP_storeEq ?_ ?_ ?_ inv <;> rfl

theorem restore_baseprioP_InvP (nnest rtcb : Nat) (irq : Bool)
    (stcb : Option Nat) (k : Nat) (s : StP) (inv : InvP s) :
    InvP (nxsem_restore_baseprioP nnest rtcb irq stcb k s) := by
  unfold nxsem_restore_baseprioP nxsem_restore_baseprio_irqP
    nxsem_restore_baseprio_taskP
  dsimp only
  split
  · split
    · exact foreachholderP_InvP k _ (shape_allP nnest k) s inv
    · exact foreachholderP_InvP k _ (shape_verifyP k) s inv
  · split
    · refine findandfreeholderP_InvP _ k (some rtcb) ?_
      refine foreachholderP_InvP k _ (shape_selfP nnest rtcb k) _ ?_
      exact foreachholderP_InvP k _ (shape_othersP nnest rtcb k) s inv
    · refine findandfreeholderP_InvP _ k (some rtcb) ?_
      exact foreachholderP_InvP k _ (shape_verifyP k) s inv

/-- Every reachable pooled state satisfies the pool invariant. -/
theorem InvP_reachableP (nnest n : Nat) (s : StP)
    (h : ReachableP nnest n s) : InvP s := by
  induction h with
  | init flagsf scf tcbs => exact init_holdersP_InvP n flagsf scf tcbs
  | step op h ih =>
      cases op with
      | addHolder rtcb k => exact add_holder_tcbP_InvP rtcb k _ ih
      | addHolderTcb t k => exact add_holder_tcbP_InvP t k _ ih
      | releaseHolder rtcb k => exact release_holderP_InvP rtcb k _ ih
      | boost rtcb k => exact boost_priorityP_InvP nnest rtcb k _ ih
      | restore rtcb irq stcb k =>
          exact restore_baseprioP_InvP nnest rtcb irq stcb k _ ih
      | canceled stcb k => exact canceledP_InvP nnest stcb k _ ih
      | destroy k => exact destroyholderP_InvP k _ ih
      | kill t =>
          refine InvP_storeEq ?_ ?_ ?_ ih <;> rfl

/-- C9: holder uniqueness.  In every reachable state of either storage
regime, no two live holder entries of a semaphore store the same
thread: inline, the two slots never hold the same `htcb`; pooled, no
two members of a semaphore's holder chain share an `htcb`, and
`nxsem_findholder` identifies exactly the unique chain entry of any
stored thread handle.  Uniqueness is preserved by every public
operation because `nxsem_add_holder_tcb` allocates only when the find
fails. -/
theorem nxsem_holder_uniqueness :
    (∀ (nnest : Nat) (s : StI), ReachableI nnest s →
      ∀ k, UniqueHoldersI (s.sems k)) ∧
    (∀ (nnest n : Nat) (s : StP), ReachableP nnest n s →
      ∀ k, ∀ i ∈ theChain s k, ∀ j ∈ theChain s k, ∀ t,
        (getNodeP s i).htcb = some t → (getNodeP s j).htcb = some t →
        i = j) ∧
    (∀ (nnest n : Nat) (s : StP), ReachableP nnest n s →
      ∀ k t i, nxsem_findholderP s k (some t) = some i →
        (getNodeP s i).htcb = some t ∧ i ∈ theChain s k ∧
        ∀ j ∈ theChain s k, (getNodeP s j).htcb = some t → j = i) := by
  refine ⟨uniq_reachableI, ?_, ?_⟩
  · intro nnest n s h k i hi j hj t hit hjt
    exact pairwise_uniq ((InvP_reachableP nnest n s h).uniqHtcb k)
      i hi j hj t hit hjt
  · intro nnest n s h k t i hfind
    have inv := InvP_reachableP nnest n s h
    have h1 : (getNodeP s i).htcb = some t :=
      findP_go_finds s (some t) _ _ i hfind
    have h2 : i ∈ theChain s k := by
      rw [findholderP_eq_find? inv k (some t)] at hfind
      exact List.mem_of_find?_eq_some hfind
    exact ⟨h1, h2, fun j hj hjt =>
      pairwise_uniq (inv.uniqHtcb k) j hj i h2 t hjt h1⟩

/-- C9 witness: concrete reachable states — one add_holder step from
the initial state in each regime. -/
theorem nxsem_holder_uniqueness_witness :
    UniqueHoldersI ((applyI 0 (.addHolder 7 0) stEmptyI).sems 0) ∧
    (∀ i ∈ theChain (applyP 0 (.addHolder 7 1)
        (nxsem_init_holdersP 2 (fun _ => 0) (fun _ => 0)
          (fun _ => tcbDefault))) 1,
      ∀ j ∈ theChain (applyP 0 (.addHolder 7 1)
        (nxsem_init_holdersP 2 (fun _ => 0) (fun _ => 0)
          (fun _ => tcbDefault))) 1,
      ∀ t, (getNodeP (applyP 0 (.addHolder 7 1)
          (nxsem_init_holdersP 2 (fun _ => 0) (fun _ => 0)
            (fun _ => tcbDefault))) i).htcb = some t →
        (getNodeP (applyP 0 (.addHolder 7 1)
          (nxsem_init_holdersP 2 (fun _ => 0) (fun _ => 0)
            (fun _ => tcbDefault))) j).htcb = some t → i = j) :=
  ⟨nxsem_holder_uniqueness.1 0 _
    (ReachableI.step (.addHolder 7 0)
      (ReachableI.init (fun _ => 0) (fun _ => 0) (fun _ => tcbDefault))) 0,
   nxsem_holder_uniqueness.2.1 0 2 _
    (ReachableP.step (.addHolder 7 1)
      (ReachableP.init (fun _ => 0) (fun _ => 0) (fun _ => tcbDefault))) 1⟩
